import Mathlib

/-!
# TerraForge: noise generator and terrain mesh builder

A shallow embedding of `NoiseGenerator.cpp`, `ProceduralTerrainActor.cpp` and the triangle
builder of `DynamicWaterActor.cpp`.

Conventions of the embedding:

* `float` values live in an arbitrary linearly ordered field `K` with a floor function
  (`ℚ` for evaluation); rounding, overflow and NaN are not part of that model.
* `Binary32` is the second model of `float`, with rounding to nearest, infinities and NaN;
  `Binary32.GeneratePerlinNoise2D` is the 2D Perlin noise in it.
* `int32` values are unbounded integers; `A & (2^k - 1)` is written `A % 2^k`, which is the
  value of the C++ expression on two's-complement integers of either sign.
* `TArray` is a `List`; an indexed read or write outside the array is a failure (`none`),
  so every function that indexes an array returns an `Option`.
* `FRandomStream` is engine code: it is a parameter of `SetSeed`. `FVector::GetSafeNormal` is
  engine code as well: `CalculateNormals` takes it as a parameter, and `FVector.GetSafeNormal`
  models it with the engine's inverse square root as a parameter.
-/

namespace TerraForge

/-! ## Arrays -/

/-- Indexed read `xs[i]` of a `TArray`, failing outside `[0, Num)`. -/
def readAt {α : Type} (xs : List α) (i : Int) : Option α :=
  if 0 ≤ i then xs[i.toNat]? else none

/-- Indexed write `xs[i] = v` of a `TArray`, failing outside `[0, Num)`. -/
def writeAt {α : Type} (xs : List α) (i : Int) (v : α) : Option (List α) :=
  if 0 ≤ i ∧ i.toNat < xs.length then some (xs.set i.toNat v) else none

/-- The call `xs.SetNum(n)` on a `TArray<int32>`: truncate or pad with zeroes. -/
def SetNum (n : Nat) (xs : List Int) : List Int :=
  xs.take n ++ List.replicate (n - xs.length) 0

/-! ## The permutation table -/

/-- State of a `UNoiseGenerator`: the two private members. -/
structure UNoiseGenerator where
  /-- Member `TArray<int32> Permutation`. -/
  Permutation : List Int
  /-- Member `int32 Seed`. -/
  Seed : Int
deriving DecidableEq

/-- The literal `StandardPermutation[256]` of `InitializePermutation`. -/
def StandardPermutation : List Int := [
  151,160,137,91,90,15,131,13,201,95,96,53,194,233,7,225,140,36,103,30,69,142,
  8,99,37,240,21,10,23,190,6,148,247,120,234,75,0,26,197,62,94,252,219,203,117,
  35,11,32,57,177,33,88,237,149,56,87,174,20,125,136,171,168,68,175,74,165,71,
  134,139,48,27,166,77,146,158,231,83,111,229,122,60,211,133,230,220,105,92,41,
  55,46,245,40,244,102,143,54,65,25,63,161,1,216,80,73,209,76,132,187,208,89,
  18,169,200,196,135,130,116,188,159,86,164,100,109,198,173,186,3,64,52,217,226,
  250,124,123,5,202,38,147,118,126,255,82,85,212,207,206,59,227,47,16,58,17,182,
  189,28,42,223,183,170,213,119,248,152,2,44,154,163,70,221,153,101,155,167,43,
  172,9,129,22,39,253,19,98,108,110,79,113,224,232,178,185,112,104,218,246,97,
  228,251,34,242,193,238,210,144,12,191,179,162,241,81,51,145,235,249,14,239,
  107,49,192,214,31,181,199,106,157,184,84,204,176,115,121,50,45,127,4,150,254,
  138,236,205,93,222,114,67,29,24,72,243,141,128,195,78,66,215,61,156,180]

/-- The loop `for (i = 0; i < n; i++) { Permutation[i] = src[i]; Permutation[256 + i] = src[i]; }`
shared by `InitializePermutation` and `SetSeed`; iterations `0 .. n-1` run in increasing order. -/
def duplicateLoop (src : List Int) : Nat → List Int → Option (List Int)
  | 0, perm => some perm
  | n + 1, perm => do
    let perm ← duplicateLoop src n perm
    let v ← readAt src (n : Int)
    let perm ← writeAt perm (n : Int) v
    writeAt perm (256 + (n : Int)) v

/-- Embedding of `UNoiseGenerator::InitializePermutation`. -/
def InitializePermutation (g : UNoiseGenerator) : Option UNoiseGenerator := do
  let perm ← duplicateLoop StandardPermutation 256 (SetNum 512 g.Permutation)
  some { g with Permutation := perm }

/-- Embedding of the constructor `UNoiseGenerator::UNoiseGenerator()`: `Seed(0)`, an empty
array, then `InitializePermutation()`. -/
def UNoiseGenerator.construct : Option UNoiseGenerator :=
  InitializePermutation { Permutation := [], Seed := 0 }

/-- The generator state the constructor leaves: the literal table twice, seed 0. -/
def defaultGenerator : UNoiseGenerator :=
  { Permutation := StandardPermutation ++ StandardPermutation, Seed := 0 }

/-- The engine's seeded random stream, abstracted: a state type, the constructor
`FRandomStream(Seed)` and the stateful draw `RandRange(Min, Max)`. -/
structure FRandomStream where
  /-- Internal state of the stream. -/
  State : Type
  /-- The constructor `FRandomStream(Seed)`. -/
  init : Int → State
  /-- The call `RandRange(Min, Max)`: the value drawn and the next state. -/
  RandRange : State → Int → Int → Int × State

/-- The loop `for (i = 0; i < n; i++) TempPerm[i] = i;` of `SetSeed`. -/
def identityLoop : Nat → List Int → Option (List Int)
  | 0, t => some t
  | n + 1, t => do
    let t ← identityLoop n t
    writeAt t (n : Int) (n : Int)

/-- The Fisher-Yates loop `for (i = n; i > 0; i--)` of `SetSeed`: draw `j`, swap entries
`i` and `j`. The first argument is the current value of `i`. -/
def shuffleLoop (rs : FRandomStream) : Nat → rs.State → List Int → Option (List Int)
  | 0, _, t => some t
  | i + 1, s, t => do
    let r := rs.RandRange s 0 ((i : Int) + 1)
    let j := r.1
    let Temp ← readAt t ((i : Int) + 1)
    let tj ← readAt t j
    let t ← writeAt t ((i : Int) + 1) tj
    let t ← writeAt t j Temp
    shuffleLoop rs i r.2 t

/-- Embedding of `UNoiseGenerator::SetSeed`. -/
def SetSeed (rs : FRandomStream) (NewSeed : Int) (g : UNoiseGenerator) :
    Option UNoiseGenerator := do
  let Seed := NewSeed
  let RandomStream := rs.init Seed
  let TempPerm ← identityLoop 256 (SetNum 256 [])
  let TempPerm ← shuffleLoop rs 255 RandomStream TempPerm
  let perm ← duplicateLoop TempPerm 256 (SetNum 512 g.Permutation)
  some { Permutation := perm, Seed := Seed }

/-- The draws of the shuffle started in state `s` at index `i` all satisfy `0 ≤ j ≤ i`. -/
def DrawsInRange (rs : FRandomStream) : Nat → rs.State → Prop
  | 0, _ => True
  | i + 1, s =>
    (0 ≤ (rs.RandRange s 0 ((i : Int) + 1)).1 ∧ (rs.RandRange s 0 ((i : Int) + 1)).1 ≤ (i : Int) + 1)
      ∧ DrawsInRange rs i (rs.RandRange s 0 ((i : Int) + 1)).2

/-- The permutation invariant of the table: 512 entries, the upper half mirrors the lower half,
and every value of `0..255` occurs exactly once among the first 256 entries. -/
def PermutationInvariant (t : List Int) : Prop :=
  t.length = 512 ∧ (∀ i : Nat, i < 256 → t[i]? = t[i + 256]?) ∧
    (∀ v : Nat, v < 256 → (t.take 256).count (v : Int) = 1)

instance (t : List Int) : Decidable (PermutationInvariant t) := by
  unfold PermutationInvariant; infer_instance

/-- A sample stream for evaluation: a linear congruential generator on 32 bits whose draw is
`Min + state mod (Max - Min + 1)`. -/
def sampleStream : FRandomStream where
  State := Int
  init := fun seed => seed % 4294967296
  RandRange := fun s lo hi =>
    (lo + s % (hi - lo + 1), (s * 196314165 + 907633515) % 4294967296)

/-- The list `0, 1, ..., 255`, the content of `TempPerm` before the shuffle. -/
def identityTable : List Int := (List.range 256).map (fun k : Nat => (k : Int))

/-- The table invariant the noise functions rely on: 512 entries, each in `[0, 255]`. -/
def TableInvariant (t : List Int) : Prop :=
  t.length = 512 ∧ ∀ x ∈ t, 0 ≤ x ∧ x ≤ 255

/-! ## Noise functions -/

section Noise

variable {K : Type} [LinearOrderedField K]

/-- The statement `if (Scale <= 0.0f) Scale = 0.0001f;` opening each noise function. -/
def clampScale (Scale : K) : K :=
  if Scale ≤ 0 then 1 / 10000 else Scale

/-- Embedding of `UNoiseGenerator::Fade`. -/
def Fade (T : K) : K :=
  T * T * T * (T * (T * 6 - 15) + 10)

/-- Embedding of `UNoiseGenerator::Lerp`. -/
def Lerp (T A B : K) : K :=
  A + T * (B - A)

/-- Embedding of `UNoiseGenerator::Gradient`; `H & 1` is `H % 2` and `H & 2` is non-zero
exactly when `H / 2 % 2` is. -/
def Gradient (Hash : Int) (X Y : K) : K :=
  let H := Hash % 4
  let U := if H < 2 then X else Y
  let V := if H < 2 then Y else X
  (if H % 2 ≠ 0 then -U else U) + (if H / 2 % 2 ≠ 0 then -V else V)

/-- Embedding of `UNoiseGenerator::Gradient3D`. -/
def Gradient3D (Hash : Int) (X Y Z : K) : K :=
  let H := Hash % 16
  let U := if H < 8 then X else Y
  let V := if H < 4 then Y else (if H = 12 ∨ H = 14 then X else Z)
  (if H % 2 ≠ 0 then -U else U) + (if H / 2 % 2 ≠ 0 then -V else V)

/-- Local variables of the octave loop of `GeneratePerlinNoise2D`. -/
structure OctaveState (K : Type) where
  /-- Local `Total`. -/
  Total : K
  /-- Local `Frequency`. -/
  Frequency : K
  /-- Local `Amplitude`. -/
  Amplitude : K
  /-- Local `MaxValue`. -/
  MaxValue : K

/-- The blend of the eight corner gradients in `GeneratePerlinNoise3D`, from the faded
fractions on: the arguments are the eight hashes `Permutation[AA]`, `Permutation[BA]`,
`Permutation[AB]`, `Permutation[BB]`, `Permutation[AA + 1]`, `Permutation[BA + 1]`,
`Permutation[AB + 1]`, `Permutation[BB + 1]`. -/
def blend3D (hAA hBA hAB hBB hAA1 hBA1 hAB1 hBB1 : Int) (Xf Yf Zf : K) : K :=
  let U := Fade Xf
  let V := Fade Yf
  let W := Fade Zf
  let X1 := Lerp U (Gradient3D hAA Xf Yf Zf) (Gradient3D hBA (Xf - 1) Yf Zf)
  let X2 := Lerp U (Gradient3D hAB Xf (Yf - 1) Zf) (Gradient3D hBB (Xf - 1) (Yf - 1) Zf)
  let Y1 := Lerp V X1 X2
  let X1 := Lerp U (Gradient3D hAA1 Xf Yf (Zf - 1)) (Gradient3D hBA1 (Xf - 1) Yf (Zf - 1))
  let X2 := Lerp U (Gradient3D hAB1 Xf (Yf - 1) (Zf - 1))
    (Gradient3D hBB1 (Xf - 1) (Yf - 1) (Zf - 1))
  let Y2 := Lerp V X1 X2
  Lerp W Y1 Y2

/-- The hash coordinates `(AA, AB, BA, BB)` of `GeneratePerlinNoise3D`, read in the order
`A`, `AA`, `AB`, `B`, `BA`, `BB` of the source. -/
def cornerHashes3D (Permutation : List Int) (Xi Yi Zi : Int) :
    Option (Int × Int × Int × Int) :=
  (readAt Permutation Xi).bind fun pXi =>
  let A : Int := pXi + Yi
  (readAt Permutation A).bind fun pA =>
  let AA : Int := pA + Zi
  (readAt Permutation (A + 1)).bind fun pA1 =>
  let AB : Int := pA1 + Zi
  (readAt Permutation (Xi + 1)).bind fun pXi1 =>
  let B : Int := pXi1 + Yi
  (readAt Permutation B).bind fun pB =>
  let BA : Int := pB + Zi
  (readAt Permutation (B + 1)).bind fun pB1 =>
  let BB : Int := pB1 + Zi
  some (AA, AB, BA, BB)

/-- The eight gradient reads of `GeneratePerlinNoise3D` followed by the blend. -/
def cornerBlend3D (Permutation : List Int) (AA AB BA BB : Int) (Xf Yf Zf : K) : Option K :=
  (readAt Permutation AA).bind fun hAA =>
  (readAt Permutation BA).bind fun hBA =>
  (readAt Permutation AB).bind fun hAB =>
  (readAt Permutation BB).bind fun hBB =>
  (readAt Permutation (AA + 1)).bind fun hAA1 =>
  (readAt Permutation (BA + 1)).bind fun hBA1 =>
  (readAt Permutation (AB + 1)).bind fun hAB1 =>
  (readAt Permutation (BB + 1)).bind fun hBB1 =>
  some (blend3D hAA hBA hAB hBB hAA1 hBA1 hAB1 hBB1 Xf Yf Zf)

/-- Embedding of `UNoiseGenerator::SimplexGradient`. -/
def SimplexGradient (Hash : Int) (X Y : K) : K :=
  let H := Hash % 8
  let U := if H < 4 then X else Y
  let V := if H < 4 then Y else X
  (if H % 2 ≠ 0 then -U else U) + (if H / 2 % 2 ≠ 0 then -2 * V else 2 * V)

/-- The contribution of one simplex corner: zero when `T < 0`, else the table is read and
`T⁴` times the gradient is returned. -/
def simplexCorner (Permutation : List Int) (T : K) (hashIndex : Option Int) (X Y : K) :
    Option K :=
  if T < 0 then some 0
  else do
    let T := T * T
    let h ← (hashIndex.bind fun i => readAt Permutation i)
    some (T * T * SimplexGradient h X Y)

variable [FloorRing K]

/-- The value `NoiseValue` computed by one pass of the octave loop of
`GeneratePerlinNoise2D` at the sample point `(SampleX, SampleY)`. -/
def perlinSample (Permutation : List Int) (SampleX SampleY : K) : Option K := do
  let Xi : Int := ⌊SampleX⌋ % 256
  let Yi : Int := ⌊SampleY⌋ % 256
  let Xf : K := SampleX - (⌊SampleX⌋ : K)
  let Yf : K := SampleY - (⌊SampleY⌋ : K)
  let U := Fade Xf
  let V := Fade Yf
  let AA ← (readAt Permutation Xi).bind fun p => readAt Permutation (p + Yi)
  let AB ← (readAt Permutation Xi).bind fun p => readAt Permutation (p + Yi + 1)
  let BA ← (readAt Permutation (Xi + 1)).bind fun p => readAt Permutation (p + Yi)
  let BB ← (readAt Permutation (Xi + 1)).bind fun p => readAt Permutation (p + Yi + 1)
  let X1 := Lerp U (Gradient AA Xf Yf) (Gradient BA (Xf - 1) Yf)
  let X2 := Lerp U (Gradient AB Xf (Yf - 1)) (Gradient BB (Xf - 1) (Yf - 1))
  some (Lerp V X1 X2)

/-- One pass of the octave loop of `GeneratePerlinNoise2D`. -/
def perlinOctave (Permutation : List Int) (X Y Scale Persistence Lacunarity : K)
    (st : OctaveState K) : Option (OctaveState K) := do
  let SampleX := (X / Scale) * st.Frequency
  let SampleY := (Y / Scale) * st.Frequency
  let NoiseValue ← perlinSample Permutation SampleX SampleY
  some { Total := st.Total + NoiseValue * st.Amplitude
         Frequency := st.Frequency * Lacunarity
         Amplitude := st.Amplitude * Persistence
         MaxValue := st.MaxValue + st.Amplitude }

/-- The loop `for (i = 0; i < Octaves; i++)` of `GeneratePerlinNoise2D`, by the number of
passes left. -/
def perlinLoop (Permutation : List Int) (X Y Scale Persistence Lacunarity : K) :
    Nat → OctaveState K → Option (OctaveState K)
  | 0, st => some st
  | n + 1, st => do
    let st ← perlinOctave Permutation X Y Scale Persistence Lacunarity st
    perlinLoop Permutation X Y Scale Persistence Lacunarity n st

/-- Embedding of `UNoiseGenerator::GeneratePerlinNoise2D`. -/
def GeneratePerlinNoise2D (g : UNoiseGenerator) (X Y Scale : K) (Octaves : Int)
    (Persistence Lacunarity : K) : Option K := do
  let Scale := clampScale Scale
  let st ← perlinLoop g.Permutation X Y Scale Persistence Lacunarity Octaves.toNat
    { Total := 0, Frequency := 1, Amplitude := 1, MaxValue := 0 }
  some ((st.Total / st.MaxValue + 1) * (1 / 2))

/-- Embedding of `UNoiseGenerator::GeneratePerlinNoise3D`. -/
def GeneratePerlinNoise3D (g : UNoiseGenerator) (X Y Z Scale : K) : Option K :=
  let Scale := clampScale Scale
  let SampleX := X / Scale
  let SampleY := Y / Scale
  let SampleZ := Z / Scale
  let Xi : Int := ⌊SampleX⌋ % 256
  let Yi : Int := ⌊SampleY⌋ % 256
  let Zi : Int := ⌊SampleZ⌋ % 256
  let Xf : K := SampleX - (⌊SampleX⌋ : K)
  let Yf : K := SampleY - (⌊SampleY⌋ : K)
  let Zf : K := SampleZ - (⌊SampleZ⌋ : K)
  (cornerHashes3D g.Permutation Xi Yi Zi).bind fun c =>
  (cornerBlend3D g.Permutation c.1 c.2.1 c.2.2.1 c.2.2.2 Xf Yf Zf).bind fun NoiseValue =>
  some ((NoiseValue + 1) * (1 / 2))

/-- Embedding of `UNoiseGenerator::GenerateSimplexNoise2D`. -/
def GenerateSimplexNoise2D (g : UNoiseGenerator) (X Y Scale : K) : Option K := do
  let Scale := clampScale Scale
  let SampleX := X / Scale
  let SampleY := Y / Scale
  let F2 : K := 366025403 / 1000000000
  let G2 : K := 211324865 / 1000000000
  let S := (SampleX + SampleY) * F2
  let I : Int := ⌊SampleX + S⌋
  let J : Int := ⌊SampleY + S⌋
  let T : K := ((I + J : Int) : K) * G2
  let X0 := SampleX - ((I : K) - T)
  let Y0 := SampleY - ((J : K) - T)
  let I1 : Int := if X0 > Y0 then 1 else 0
  let J1 : Int := if X0 > Y0 then 0 else 1
  let X1 := X0 - (I1 : K) + G2
  let Y1 := Y0 - (J1 : K) + G2
  let X2 := X0 - 1 + 2 * G2
  let Y2 := Y0 - 1 + 2 * G2
  let Ii : Int := I % 256
  let Jj : Int := J % 256
  let N0 ← simplexCorner g.Permutation (1 / 2 - X0 * X0 - Y0 * Y0)
    ((readAt g.Permutation Jj).map fun p => Ii + p) X0 Y0
  let N1 ← simplexCorner g.Permutation (1 / 2 - X1 * X1 - Y1 * Y1)
    ((readAt g.Permutation (Jj + J1)).map fun p => Ii + I1 + p) X1 Y1
  let N2 ← simplexCorner g.Permutation (1 / 2 - X2 * X2 - Y2 * Y2)
    ((readAt g.Permutation (Jj + 1)).map fun p => Ii + 1 + p) X2 Y2
  some (70 * (N0 + N1 + N2))

end Noise

/-! ## Terrain mesh -/

/-- The engine's `FVector`, with components in `K`. -/
structure FVector (K : Type) where
  /-- Component `X`. -/
  X : K
  /-- Component `Y`. -/
  Y : K
  /-- Component `Z`. -/
  Z : K
deriving DecidableEq

/-- The engine's `FVector2D`. -/
structure FVector2D (K : Type) where
  /-- Component `X`. -/
  X : K
  /-- Component `Y`. -/
  Y : K
deriving DecidableEq

/-- The engine's `FColor`: four `uint8` channels. -/
structure FColor where
  /-- Red channel. -/
  R : Int
  /-- Green channel. -/
  G : Int
  /-- Blue channel. -/
  B : Int
  /-- Alpha channel. -/
  A : Int
deriving DecidableEq

/-- The properties of `AProceduralTerrainActor` that terrain generation reads, and the
state of its noise generator. -/
structure AProceduralTerrainActor (K : Type) where
  /-- The object `NoiseGenerator` points to. -/
  NoiseGenerator : UNoiseGenerator
  /-- Property `TerrainWidth`. -/
  TerrainWidth : Int
  /-- Property `TerrainHeight`. -/
  TerrainHeight : Int
  /-- Property `GridSize`. -/
  GridSize : K
  /-- Property `MaxHeight`. -/
  MaxHeight : K
  /-- Property `NoiseScale`. -/
  NoiseScale : K
  /-- Property `Octaves`. -/
  Octaves : Int
  /-- Property `Persistence`. -/
  Persistence : K
  /-- Property `Lacunarity`. -/
  Lacunarity : K
  /-- Property `RandomSeed`. -/
  RandomSeed : Int
  /-- Property `bUseSimplexNoise`. -/
  bUseSimplexNoise : Bool

/-- The three arrays `GenerateVertices` fills. -/
structure VertexBuffers (K : Type) where
  /-- Array `Vertices`. -/
  Vertices : List (FVector K)
  /-- Array `Normals`. -/
  Normals : List (FVector K)
  /-- Array `UVs`. -/
  UVs : List (FVector2D K)

/-- The arrays `GenerateTerrain` hands to `CreateMeshSection`. -/
structure MeshSection (K : Type) where
  /-- Array `Vertices`. -/
  Vertices : List (FVector K)
  /-- Array `Triangles`. -/
  Triangles : List Int
  /-- Array `Normals`. -/
  Normals : List (FVector K)
  /-- Array `UVs`. -/
  UVs : List (FVector2D K)
  /-- Array `VertexColors`. -/
  VertexColors : List FColor

section Terrain

variable {K : Type} [LinearOrderedField K]

/-- The constant `FVector::ZeroVector`. -/
def FVector.ZeroVector : FVector K := ⟨0, 0, 0⟩

/-- The constant `FVector::UpVector`. -/
def FVector.UpVector : FVector K := ⟨0, 0, 1⟩

/-- Component-wise `FVector` addition. -/
def FVector.add (a b : FVector K) : FVector K := ⟨a.X + b.X, a.Y + b.Y, a.Z + b.Z⟩

/-- Component-wise `FVector` subtraction. -/
def FVector.sub (a b : FVector K) : FVector K := ⟨a.X - b.X, a.Y - b.Y, a.Z - b.Z⟩

/-- The engine's `FVector::CrossProduct`. -/
def FVector.CrossProduct (a b : FVector K) : FVector K :=
  ⟨a.Y * b.Z - a.Z * b.Y, a.Z * b.X - a.X * b.Z, a.X * b.Y - a.Y * b.X⟩

/-- The six `Triangles.Add` calls of the body of the inner loop of `GenerateTriangles` for
the quad `(X, Y)`. -/
def quadIndices (TerrainWidth X Y : Int) : List Int :=
  let BottomLeft := Y * (TerrainWidth + 1) + X
  let BottomRight := BottomLeft + 1
  let TopLeft := (Y + 1) * (TerrainWidth + 1) + X
  let TopRight := TopLeft + 1
  [BottomLeft, TopLeft, TopRight, BottomLeft, TopRight, BottomRight]

/-- The inner loop `for (X = 0; X < n; X++)` of `GenerateTriangles` in row `Y`. -/
def triangleColumnLoop (TerrainWidth Y : Int) : Nat → List Int → List Int
  | 0, Triangles => Triangles
  | n + 1, Triangles =>
    triangleColumnLoop TerrainWidth Y n Triangles ++ quadIndices TerrainWidth (n : Int) Y

/-- The outer loop `for (Y = 0; Y < n; Y++)` of `GenerateTriangles`. -/
def triangleRowLoop (TerrainWidth : Int) : Nat → List Int → List Int
  | 0, Triangles => Triangles
  | n + 1, Triangles =>
    triangleColumnLoop TerrainWidth (n : Int) TerrainWidth.toNat
      (triangleRowLoop TerrainWidth n Triangles)

/-- Embedding of `AProceduralTerrainActor::GenerateTriangles`. -/
def GenerateTriangles (a : AProceduralTerrainActor K) : List Int :=
  triangleRowLoop a.TerrainWidth a.TerrainHeight.toNat []

/-- The statement `Normals[Index] += FaceNormal`. -/
def addAt (Normals : List (FVector K)) (Index : Int) (FaceNormal : FVector K) :
    Option (List (FVector K)) :=
  (readAt Normals Index).bind fun n => writeAt Normals Index (n.add FaceNormal)

/-- The loop `for (i = 0; i < Triangles.Num(); i += 3)` of `CalculateNormals`, on the part
of `Triangles` from `i` on; `GetSafeNormal` is the engine's normalisation. -/
def accumulateFaceNormals (GetSafeNormal : FVector K → FVector K)
    (Vertices : List (FVector K)) : List Int → List (FVector K) → Option (List (FVector K))
  | [], Normals => some Normals
  | Index0 :: Index1 :: Index2 :: rest, Normals =>
    (readAt Vertices Index0).bind fun V0 =>
    (readAt Vertices Index1).bind fun V1 =>
    (readAt Vertices Index2).bind fun V2 =>
    let Edge1 := V1.sub V0
    let Edge2 := V2.sub V0
    let FaceNormal := GetSafeNormal (Edge1.CrossProduct Edge2)
    (addAt Normals Index0 FaceNormal).bind fun Normals =>
    (addAt Normals Index1 FaceNormal).bind fun Normals =>
    (addAt Normals Index2 FaceNormal).bind fun Normals =>
    accumulateFaceNormals GetSafeNormal Vertices rest Normals
  | _, _ => none

/-- Embedding of `AProceduralTerrainActor::CalculateNormals`: the normals are reset to
`Vertices.Num()` zero vectors, the face normals are accumulated, and every entry is
normalised. -/
def CalculateNormals (GetSafeNormal : FVector K → FVector K) (Vertices : List (FVector K))
    (Triangles : List Int) : Option (List (FVector K)) :=
  (accumulateFaceNormals GetSafeNormal Vertices Triangles
    (List.replicate Vertices.length FVector.ZeroVector)).map fun Normals =>
      Normals.map GetSafeNormal

variable [FloorRing K]

/-- The height of the vertex at world position `(WorldX, WorldY)` in `GenerateVertices`. -/
def vertexHeight (a : AProceduralTerrainActor K) (WorldX WorldY : K) : Option K :=
  if a.bUseSimplexNoise then
    (GenerateSimplexNoise2D a.NoiseGenerator WorldX WorldY a.NoiseScale).map fun Height =>
      (Height + 1) * (1 / 2)
  else
    GeneratePerlinNoise2D a.NoiseGenerator WorldX WorldY a.NoiseScale a.Octaves a.Persistence
      a.Lacunarity

/-- The body of the inner loop of `GenerateVertices` for the grid point `(X, Y)`. -/
def addVertex (a : AProceduralTerrainActor K) (X Y : Int) (b : VertexBuffers K) :
    Option (VertexBuffers K) :=
  let WorldX : K := (X : K) * a.GridSize
  let WorldY : K := (Y : K) * a.GridSize
  (vertexHeight a WorldX WorldY).map fun Height =>
    let WorldZ := Height * a.MaxHeight
    let U : K := (X : K) / (a.TerrainWidth : K)
    let V : K := (Y : K) / (a.TerrainHeight : K)
    { Vertices := b.Vertices ++ [⟨WorldX, WorldY, WorldZ⟩]
      Normals := b.Normals ++ [FVector.UpVector]
      UVs := b.UVs ++ [⟨U, V⟩] }

/-- The inner loop `for (X = 0; X < n; X++)` of `GenerateVertices` in row `Y`. -/
def vertexColumnLoop (a : AProceduralTerrainActor K) (Y : Int) :
    Nat → VertexBuffers K → Option (VertexBuffers K)
  | 0, b => some b
  | n + 1, b => (vertexColumnLoop a Y n b).bind fun b => addVertex a (n : Int) Y b

/-- The outer loop `for (Y = 0; Y < n; Y++)` of `GenerateVertices`; each row runs the
inner loop for `X = 0 .. TerrainWidth`. -/
def vertexRowLoop (a : AProceduralTerrainActor K) :
    Nat → VertexBuffers K → Option (VertexBuffers K)
  | 0, b => some b
  | n + 1, b =>
    (vertexRowLoop a n b).bind fun b =>
      vertexColumnLoop a (n : Int) (a.TerrainWidth + 1).toNat b

/-- Embedding of `AProceduralTerrainActor::GenerateVertices`: the three arrays are emptied
and the rows `Y = 0 .. TerrainHeight` are generated. -/
def GenerateVertices (a : AProceduralTerrainActor K) : Option (VertexBuffers K) :=
  vertexRowLoop a (a.TerrainHeight + 1).toNat { Vertices := [], Normals := [], UVs := [] }

/-- The conversion `static_cast<uint8>(x)`: truncation towards zero, then the low eight
bits (the usual result on the values outside `[0, 255]`, where C++ leaves it undefined). -/
def castUInt8 (x : K) : Int :=
  (if 0 ≤ x then ⌊x⌋ else ⌈x⌉) % 256

/-- The engine's `FMath::Clamp` on integers. -/
def Clamp (X Min Max : Int) : Int :=
  if X < Min then Min else if X < Max then X else Max

/-- The colour `GenerateTerrain` gives to a vertex. -/
def vertexColor (MaxHeight : K) (v : FVector K) : FColor :=
  let HeightRatio := v.Z / MaxHeight
  let ColorValue := Clamp (castUInt8 (HeightRatio * 255)) 0 255
  ⟨ColorValue, ColorValue, ColorValue, 255⟩

/-- Embedding of `AProceduralTerrainActor::GenerateTerrain`: the actor with its reseeded
noise generator, and the arrays passed to `CreateMeshSection`. -/
def GenerateTerrain (rs : FRandomStream) (GetSafeNormal : FVector K → FVector K)
    (a : AProceduralTerrainActor K) : Option (AProceduralTerrainActor K × MeshSection K) :=
  (SetSeed rs a.RandomSeed a.NoiseGenerator).bind fun gen =>
  let a := { a with NoiseGenerator := gen }
  (GenerateVertices a).bind fun b =>
  let Triangles := GenerateTriangles a
  (CalculateNormals GetSafeNormal b.Vertices Triangles).bind fun Normals =>
  let VertexColors := b.Vertices.map (vertexColor a.MaxHeight)
  some (a, { Vertices := b.Vertices, Triangles := Triangles, Normals := Normals,
             UVs := b.UVs, VertexColors := VertexColors })

end Terrain

/-! ## Water mesh -/

/-- The properties of `ADynamicWaterActor` that mesh generation reads. -/
structure ADynamicWaterActor (K : Type) where
  /-- Property `WaterWidth`. -/
  WaterWidth : K
  /-- Property `WaterLength`. -/
  WaterLength : K
  /-- Property `WaterLevel`. -/
  WaterLevel : K
  /-- Property `Subdivisions`. -/
  Subdivisions : Int

/-- The six `Triangles.Add` calls of the body of the inner loop of `GenerateWaterTriangles`
for the quad `(X, Y)`. -/
def waterQuadIndices (VertsPerSide X Y : Int) : List Int :=
  let BottomLeft := Y * VertsPerSide + X
  let BottomRight := BottomLeft + 1
  let TopLeft := (Y + 1) * VertsPerSide + X
  let TopRight := TopLeft + 1
  [BottomLeft, TopLeft, TopRight, BottomLeft, TopRight, BottomRight]

/-- The inner loop `for (X = 0; X < n; X++)` of `GenerateWaterTriangles` in row `Y`. -/
def waterColumnLoop (VertsPerSide Y : Int) : Nat → List Int → List Int
  | 0, Triangles => Triangles
  | n + 1, Triangles =>
    waterColumnLoop VertsPerSide Y n Triangles ++ waterQuadIndices VertsPerSide (n : Int) Y

/-- The outer loop `for (Y = 0; Y < n; Y++)` of `GenerateWaterTriangles`. -/
def waterRowLoop (Subdivisions VertsPerSide : Int) : Nat → List Int → List Int
  | 0, Triangles => Triangles
  | n + 1, Triangles =>
    waterColumnLoop VertsPerSide (n : Int) Subdivisions.toNat
      (waterRowLoop Subdivisions VertsPerSide n Triangles)

/-- Embedding of `ADynamicWaterActor::GenerateWaterTriangles`. -/
def GenerateWaterTriangles {K : Type} (w : ADynamicWaterActor K) : List Int :=
  let VertsPerSide := w.Subdivisions + 1
  waterRowLoop w.Subdivisions VertsPerSide w.Subdivisions.toNat []

/-! ## Normalisation -/

section Normalisation

variable {K : Type} [LinearOrderedField K]

/-- The engine constant `SMALL_NUMBER` (`1.e-8f`), the default tolerance of
`FVector::GetSafeNormal`. -/
def SMALL_NUMBER : K := 1 / 100000000

/-- The engine's `FVector::GetSafeNormal(Tolerance)`, which is not part of this repository:
a vector of squared length 1 is returned as it is, a vector of squared length below
`Tolerance` gives the zero vector, and any other vector is scaled by the inverse square
root of its squared length. `InvSqrt` is the engine's `FMath::InvSqrt`. -/
def FVector.GetSafeNormal (InvSqrt : K → K) (Tolerance : K) (v : FVector K) : FVector K :=
  let SquareSum := v.X * v.X + v.Y * v.Y + v.Z * v.Z
  if SquareSum = 1 then v
  else if SquareSum < Tolerance then FVector.ZeroVector
  else
    let Scale := InvSqrt SquareSum
    ⟨v.X * Scale, v.Y * Scale, v.Z * Scale⟩

/-- The squared Euclidean length of a vector. -/
def FVector.SizeSquared (v : FVector K) : K :=
  v.X * v.X + v.Y * v.Y + v.Z * v.Z

/-- An inverse square root that is exact: `InvSqrt s * InvSqrt s * s = 1` for `s > 0`. -/
def ExactInvSqrt (InvSqrt : K → K) : Prop :=
  ∀ s : K, 0 < s → InvSqrt s * InvSqrt s * s = 1

/-- The face normal `CalculateNormals` computes for the triangle `(V0, V1, V2)`. -/
def faceNormal (GetSafeNormal : FVector K → FVector K) (V0 V1 V2 : FVector K) : FVector K :=
  GetSafeNormal ((V1.sub V0).CrossProduct (V2.sub V0))

/-- The index triples of a triangle list. -/
def triangleTriples : List Int → List (Int × Int × Int)
  | Index0 :: Index1 :: Index2 :: rest => (Index0, Index1, Index2) :: triangleTriples rest
  | _ => []

/-- The face normals to be summed at vertex `v`, as the specification words it: one face
normal for every occurrence of `v` among the three indices of a triangle, in the order of
the triangle list. -/
def occurrenceNormals (GetSafeNormal : FVector K → FVector K) (Vertices : List (FVector K))
    (Triangles : List Int) (v : Int) : List (FVector K) :=
  (triangleTriples Triangles).flatMap fun t =>
    ([t.1, t.2.1, t.2.2].filter fun i => i = v).map fun _ =>
      faceNormal GetSafeNormal ((readAt Vertices t.1).getD FVector.ZeroVector)
        ((readAt Vertices t.2.1).getD FVector.ZeroVector)
        ((readAt Vertices t.2.2).getD FVector.ZeroVector)

/-- The vertex normal as the specification words it: the safe-normalisation of the sum of
the face normals of every occurrence of `v`. -/
def specVertexNormal (GetSafeNormal : FVector K → FVector K) (Vertices : List (FVector K))
    (Triangles : List Int) (v : Int) : FVector K :=
  GetSafeNormal
    ((occurrenceNormals GetSafeNormal Vertices Triangles v).foldl FVector.add
      FVector.ZeroVector)

end Normalisation

/-- Integer square root by downward search, for evaluation. -/
def isqrtFrom (n : Nat) : Nat → Nat
  | 0 => 0
  | k + 1 => if (k + 1) * (k + 1) ≤ n then k + 1 else isqrtFrom n k

/-- An inverse square root on `ℚ` for evaluation: exact on the squares of rationals. -/
def invSqrtRat (s : ℚ) : ℚ :=
  (isqrtFrom s.den s.den : ℚ) / (isqrtFrom s.num.toNat s.num.toNat : ℚ)

/-- The twelve cube-edge vectors `(±1, ±1, 0)`, `(±1, 0, ±1)`, `(0, ±1, ±1)`. -/
def edgeVectors : List (Int × Int × Int) :=
  [(1, 1, 0), (-1, 1, 0), (1, -1, 0), (-1, -1, 0),
   (1, 0, 1), (-1, 0, 1), (1, 0, -1), (-1, 0, -1),
   (0, 1, 1), (0, -1, 1), (0, 1, -1), (0, -1, -1)]

/-- The edge vector each of the sixteen hash buckets of `Gradient3D` selects: the twelve edge
vectors for the buckets 0 to 11, then those of the buckets 12 to 15. -/
def hashEdges3D : List (Int × Int × Int) :=
  edgeVectors ++ [(1, 1, 0), (0, -1, 1), (-1, 1, 0), (0, -1, -1)]

/-- A sample actor using simplex noise: one quad of cell size 25 with noise scale 100. -/
def simplexActor : AProceduralTerrainActor ℚ :=
  { NoiseGenerator := defaultGenerator, TerrainWidth := 1, TerrainHeight := 1,
    GridSize := 25, MaxHeight := 2000, NoiseScale := 100, Octaves := 4,
    Persistence := 1 / 2, Lacunarity := 2, RandomSeed := 12345, bUseSimplexNoise := true }

/-- A flat sample actor: a 2 x 2 grid of cell size 1 whose heights are all 0. -/
def flatActor : AProceduralTerrainActor ℚ :=
  { NoiseGenerator := defaultGenerator, TerrainWidth := 2, TerrainHeight := 2,
    GridSize := 1, MaxHeight := 0, NoiseScale := 100, Octaves := 4,
    Persistence := 1 / 2, Lacunarity := 2, RandomSeed := 12345, bUseSimplexNoise := false }

/-- A sample actor for evaluation: a 2 x 2 grid with the default noise parameters. -/
def sampleActor : AProceduralTerrainActor ℚ :=
  { NoiseGenerator := defaultGenerator, TerrainWidth := 2, TerrainHeight := 2,
    GridSize := 100, MaxHeight := 2000, NoiseScale := 100, Octaves := 4,
    Persistence := 1 / 2, Lacunarity := 2, RandomSeed := 12345, bUseSimplexNoise := false }

/-! ## Binary32 arithmetic -/

/-- A value of the type `float` (IEEE 754 binary32): a finite number, an infinity with its
sign, or NaN. The sign of a zero is not kept: it shows only in a division by zero, and the
divisors of `GeneratePerlinNoise2D` are the clamped scale, never zero, and `MaxValue`, a sum
that starts at `0.0f` and so is never the negative zero. -/
inductive Binary32 where
  /-- A finite number; the operations below keep it on the binary32 grid. -/
  | fin (q : ℚ)
  /-- Plus infinity (`negative = false`) or minus infinity. -/
  | inf (negative : Bool)
  /-- Not a number. -/
  | nan
deriving DecidableEq

namespace Binary32

/-- The power `2 ^ e` as a rational. -/
def pow2 (e : Int) : ℚ :=
  if 0 ≤ e then ((2 ^ e.toNat : Nat) : ℚ) else 1 / ((2 ^ (-e).toNat : Nat) : ℚ)

/-- The binary32 exponent of `a > 0`, searched downwards from `k - 126`: the largest `e` of
`[-126, 128]` with `2 ^ e ≤ a`, and `-126` for the subnormal numbers below. -/
def exponentFrom (a : ℚ) : Nat → Int
  | 0 => -126
  | k + 1 => if pow2 ((k : Int) - 125) ≤ a then (k : Int) - 125 else exponentFrom a k

/-- Rounding to the nearest integer, ties to the even one. -/
def roundHalfEven (m : ℚ) : Int :=
  let f : Int := ⌊m⌋
  let r : ℚ := m - (f : ℚ)
  if r < 1 / 2 then f else if 1 / 2 < r then f + 1 else if f % 2 = 0 then f else f + 1

/-- Rounding of a real result to binary32, to nearest with ties to even: 24 significant
bits, exponents from `-126` (subnormal numbers below) to `127`, and an infinity when the
rounded magnitude reaches `2 ^ 128`. -/
def round (q : ℚ) : Binary32 :=
  if q = 0 then fin 0
  else
    let a : ℚ := |q|
    let e : Int := exponentFrom a 254
    let ulp : ℚ := pow2 (e - 23)
    let v : ℚ := (roundHalfEven (a / ulp) : ℚ) * ulp
    if pow2 128 ≤ v then inf (decide (q < 0)) else fin (if q < 0 then -v else v)

/-- Negation `-a`. -/
def neg : Binary32 → Binary32
  | fin a => fin (-a)
  | inf s => inf (!s)
  | nan => nan

/-- Addition `a + b`. -/
def add : Binary32 → Binary32 → Binary32
  | fin a, fin b => round (a + b)
  | fin _, inf s => inf s
  | inf s, fin _ => inf s
  | inf s, inf t => if s = t then inf s else nan
  | _, _ => nan

/-- Subtraction `a - b`. -/
def sub (a b : Binary32) : Binary32 := add a (neg b)

/-- Multiplication `a * b`. -/
def mul : Binary32 → Binary32 → Binary32
  | fin a, fin b => round (a * b)
  | fin a, inf s => if a = 0 then nan else inf (xor (decide (a < 0)) s)
  | inf s, fin b => if b = 0 then nan else inf (xor s (decide (b < 0)))
  | inf s, inf t => inf (xor s t)
  | _, _ => nan

/-- Division `a / b`. -/
def div : Binary32 → Binary32 → Binary32
  | fin a, fin b =>
    if b = 0 then (if a = 0 then nan else inf (decide (a < 0))) else round (a / b)
  | fin _, inf _ => fin 0
  | inf s, fin b => inf (xor s (decide (b < 0)))
  | _, _ => nan

/-- The comparison `a <= b`, false when an operand is NaN. -/
def le : Binary32 → Binary32 → Bool
  | fin a, fin b => decide (a ≤ b)
  | fin _, inf s => !s
  | inf s, fin _ => s
  | inf s, inf t => s || !t
  | _, _ => false

/-- The engine's `FMath::FloorToFloat`, the C function `floorf`. -/
def FloorToFloat : Binary32 → Binary32
  | fin a => fin ((⌊a⌋ : Int) : ℚ)
  | x => x

/-- The engine's `FMath::FloorToInt`: the floor as an `int32`. Outside the range of `int32`,
and at an infinity or NaN, the conversion gives what the hardware gives, the parameter
`Indefinite`. -/
def FloorToInt (Indefinite : Int) : Binary32 → Int
  | fin a => if -2147483648 ≤ ⌊a⌋ ∧ ⌊a⌋ ≤ 2147483647 then ⌊a⌋ else Indefinite
  | _ => Indefinite

/-- The scale after the first line of the noise functions, with the literal `0.0001f`. -/
def clampScale (Scale : Binary32) : Binary32 :=
  if le Scale (fin 0) then round (1 / 10000) else Scale

/-- The function `UNoiseGenerator::Fade` on `float`. -/
def Fade (T : Binary32) : Binary32 :=
  mul (mul (mul T T) T) (add (mul T (sub (mul T (fin 6)) (fin 15))) (fin 10))

/-- The function `UNoiseGenerator::Lerp` on `float`. -/
def Lerp (T A B : Binary32) : Binary32 := add A (mul T (sub B A))

/-- The function `UNoiseGenerator::Gradient` on `float`. -/
def Gradient (Hash : Int) (X Y : Binary32) : Binary32 :=
  let H := Hash % 4
  let U := if H < 2 then X else Y
  let V := if H < 2 then Y else X
  add (if H % 2 ≠ 0 then neg U else U) (if H / 2 % 2 ≠ 0 then neg V else V)

/-- The noise value of one pass of the octave loop of `GeneratePerlinNoise2D` on `float`. -/
def perlinSample (Indefinite : Int) (Permutation : List Int) (SampleX SampleY : Binary32) :
    Option Binary32 := do
  let Xi : Int := FloorToInt Indefinite SampleX % 256
  let Yi : Int := FloorToInt Indefinite SampleY % 256
  let Xf := sub SampleX (FloorToFloat SampleX)
  let Yf := sub SampleY (FloorToFloat SampleY)
  let U := Fade Xf
  let V := Fade Yf
  let AA ← (readAt Permutation Xi).bind fun p => readAt Permutation (p + Yi)
  let AB ← (readAt Permutation Xi).bind fun p => readAt Permutation (p + Yi + 1)
  let BA ← (readAt Permutation (Xi + 1)).bind fun p => readAt Permutation (p + Yi)
  let BB ← (readAt Permutation (Xi + 1)).bind fun p => readAt Permutation (p + Yi + 1)
  let X1 := Lerp U (Gradient AA Xf Yf) (Gradient BA (sub Xf (fin 1)) Yf)
  let X2 := Lerp U (Gradient AB Xf (sub Yf (fin 1)))
    (Gradient BB (sub Xf (fin 1)) (sub Yf (fin 1)))
  some (Lerp V X1 X2)

/-- The local variables of the octave loop, on `float`. -/
structure OctaveState where
  /-- The variable `Total`. -/
  Total : Binary32
  /-- The variable `Frequency`. -/
  Frequency : Binary32
  /-- The variable `Amplitude`. -/
  Amplitude : Binary32
  /-- The variable `MaxValue`. -/
  MaxValue : Binary32

/-- One pass of the octave loop of `GeneratePerlinNoise2D` on `float`. -/
def perlinOctave (Indefinite : Int) (Permutation : List Int)
    (X Y Scale Persistence Lacunarity : Binary32) (st : OctaveState) : Option OctaveState := do
  let SampleX := mul (div X Scale) st.Frequency
  let SampleY := mul (div Y Scale) st.Frequency
  let NoiseValue ← perlinSample Indefinite Permutation SampleX SampleY
  some
    { Total := add st.Total (mul NoiseValue st.Amplitude)
      Frequency := mul st.Frequency Lacunarity
      Amplitude := mul st.Amplitude Persistence
      MaxValue := add st.MaxValue st.Amplitude }

/-- The octave loop of `GeneratePerlinNoise2D` on `float`, `n` passes. -/
def perlinLoop (Indefinite : Int) (Permutation : List Int)
    (X Y Scale Persistence Lacunarity : Binary32) : Nat → OctaveState → Option OctaveState
  | 0, st => some st
  | n + 1, st => do
    let st ← perlinOctave Indefinite Permutation X Y Scale Persistence Lacunarity st
    perlinLoop Indefinite Permutation X Y Scale Persistence Lacunarity n st

/-- The function `UNoiseGenerator::GeneratePerlinNoise2D` in binary32 arithmetic, every
operation rounded to `float`. -/
def GeneratePerlinNoise2D (Indefinite : Int) (g : UNoiseGenerator) (X Y Scale : Binary32)
    (Octaves : Int) (Persistence Lacunarity : Binary32) : Option Binary32 := do
  let Scale := clampScale Scale
  let st ← perlinLoop Indefinite g.Permutation X Y Scale Persistence Lacunarity Octaves.toNat
    { Total := fin 0, Frequency := fin 1, Amplitude := fin 1, MaxValue := fin 0 }
  some (mul (add (div st.Total st.MaxValue) (fin 1)) (fin (1 / 2)))

end Binary32

/-! ## Array lemmas -/

theorem readAt_natCast {α : Type} (xs : List α) (n : Nat) : readAt xs (n : Int) = xs[n]? := by
  simp [readAt]

theorem writeAt_natCast {α : Type} (xs : List α) (n : Nat) (v : α) :
    writeAt xs (n : Int) v = if n < xs.length then some (xs.set n v) else none := by
  simp [writeAt]

theorem readAt_eq_some {α : Type} (xs : List α) (i : Int) (h0 : 0 ≤ i)
    (h1 : i < xs.length) : ∃ v, readAt xs i = some v ∧ v ∈ xs := by
  obtain ⟨n, rfl⟩ := Int.eq_ofNat_of_zero_le h0
  have hn : n < xs.length := by exact_mod_cast h1
  refine ⟨xs[n], ?_, List.getElem_mem hn⟩
  rw [readAt_natCast, List.getElem?_eq_getElem hn]

theorem length_SetNum (n : Nat) (xs : List Int) : (SetNum n xs).length = n := by
  simp [SetNum]
  omega

theorem length_writeAt {α : Type} {xs ys : List α} {i : Int} {v : α}
    (h : writeAt xs i v = some ys) : ys.length = xs.length := by
  unfold writeAt at h
  split at h
  · cases h; simp
  · cases h

/-- Shape of the table after `n` iterations of the duplication loop. -/
theorem duplicateLoop_spec (src : List Int) (perm : List Int) (hp : perm.length = 512) :
    ∀ n : Nat, n ≤ 256 → n ≤ src.length →
      ∃ p, duplicateLoop src n perm = some p ∧ p.length = 512 ∧
        ∀ k : Nat, p[k]? =
          if k < n then src[k]? else if 256 ≤ k ∧ k < 256 + n then src[k - 256]? else perm[k]? := by
  intro n
  induction n with
  | zero =>
    intro _ _
    refine ⟨perm, rfl, hp, fun k => ?_⟩
    rw [if_neg (by omega), if_neg (by omega)]
  | succ n ih =>
    intro h1 h2
    obtain ⟨p, hpe, hlen, hk⟩ := ih (by omega) (by omega)
    have hn : n < src.length := by omega
    have hsn : src[n]? = some src[n] := List.getElem?_eq_getElem hn
    have e1 : (256 : Int) + (n : Int) = ((256 + n : Nat) : Int) := by push_cast; ring
    refine ⟨(p.set n src[n]).set (256 + n) src[n], ?_, by simp [hlen], ?_⟩
    · simp only [duplicateLoop, hpe, Option.bind_eq_bind, Option.some_bind, readAt_natCast,
        hsn, e1, writeAt_natCast, List.length_set, hlen]
      have c1 : n < 512 := by omega
      have c2 : 256 + n < 512 := by omega
      simp [c1, c2, hlen]
    · intro k
      rw [List.getElem?_set, List.getElem?_set, hk k]
      simp only [List.length_set, hlen]
      have c1 : n < 512 := by omega
      have c2 : 256 + n < 512 := by omega
      have e2 : 256 + n - 256 = n := by omega
      simp only [c1, c2, if_true]
      split_ifs <;> first | (with_reducible rfl) | omega | (subst_vars; simp only [e2, hsn])

/-- The duplication loop run to completion writes `src ++ src`, whatever the table held. -/
theorem duplicateLoop_full (src perm : List Int) (hs : src.length = 256)
    (hp : perm.length = 512) : duplicateLoop src 256 perm = some (src ++ src) := by
  obtain ⟨p, hpe, hlen, hk⟩ := duplicateLoop_spec src perm hp 256 (le_refl _) (by omega)
  rw [hpe]
  refine congrArg some (List.ext_getElem? fun k => ?_)
  rw [hk k, List.getElem?_append, hs]
  split_ifs with a1 a2
  · with_reducible rfl
  · with_reducible rfl
  · rw [List.getElem?_eq_none (by omega), List.getElem?_eq_none (by omega)]

/-- Shape of `TempPerm` after `n` iterations of the identity loop. -/
theorem identityLoop_spec (t : List Int) :
    ∀ n : Nat, n ≤ t.length →
      ∃ p, identityLoop n t = some p ∧ p.length = t.length ∧
        ∀ k : Nat, p[k]? = if k < n then some (k : Int) else t[k]? := by
  intro n
  induction n with
  | zero =>
    intro _
    exact ⟨t, rfl, rfl, fun k => by rw [if_neg (by omega)]⟩
  | succ n ih =>
    intro h1
    obtain ⟨p, hpe, hlen, hk⟩ := ih (by omega)
    have hn : n < p.length := by omega
    refine ⟨p.set n (n : Int), ?_, by simp [hlen], ?_⟩
    · simp only [identityLoop, hpe, Option.bind_eq_bind, Option.some_bind, writeAt_natCast]
      rw [if_pos hn]
    · intro k
      rw [List.getElem?_set, hk k]
      split_ifs <;> first | (with_reducible rfl) | omega | (subst_vars; rfl)

theorem identityLoop_full : identityLoop 256 (SetNum 256 []) = some identityTable := by
  obtain ⟨p, hpe, hlen, hk⟩ := identityLoop_spec (SetNum 256 []) 256 (by rw [length_SetNum])
  rw [hpe]
  refine congrArg some (List.ext_getElem? fun k => ?_)
  rw [hk k, identityTable, List.getElem?_map]
  split_ifs with h
  · rw [List.getElem?_range h]
    rfl
  · rw [List.getElem?_eq_none (by rw [length_SetNum]; omega),
      List.getElem?_eq_none (by rw [List.length_range]; omega)]
    rfl

theorem length_identityTable : identityTable.length = 256 := by
  simp [identityTable]

theorem count_identityTable (v : Nat) (hv : v < 256) : identityTable.count (v : Int) = 1 := by
  rw [identityTable, List.count_map_of_injective _ _ Nat.cast_injective]
  exact List.count_eq_one_of_mem (List.nodup_range 256) (List.mem_range.2 hv)

theorem mem_identityTable {x : Int} (h : x ∈ identityTable) : 0 ≤ x ∧ x ≤ 255 := by
  simp only [identityTable, List.mem_map, List.mem_range] at h
  obtain ⟨k, hk, rfl⟩ := h
  omega

theorem nodup_identityTable : identityTable.Nodup :=
  (List.nodup_range 256).map Nat.cast_injective

/-- Exchanging two entries of an array permutes it. -/
theorem swap_perm (t : List Int) (i j : Nat) (hi : i < t.length) (hj : j < t.length) :
    ((t.set i t[j]).set j t[i]).Perm t := by
  rw [List.perm_iff_count]
  intro b
  have h1 : (t.set i t[j])[j]? = some t[j] := by
    rw [List.getElem?_set]
    split_ifs with h
    · rfl
    · exact List.getElem?_eq_getElem hj
  have hj2 : j < (t.set i t[j]).length := by simpa using hj
  have h2 : (t.set i t[j])[j] = t[j] := by
    rw [List.getElem?_eq_getElem hj2] at h1
    exact Option.some.inj h1
  rw [List.count_set _ _ _ _ hj2, List.count_set _ _ _ _ hi, h2]
  have h3 : (t[i] == b) = true → 0 < t.count b := by
    intro h
    have : t[i] = b := by simpa using h
    exact List.count_pos_iff.2 (this ▸ List.getElem_mem hi)
  by_cases c1 : (t[i] == b) = true <;> by_cases c2 : (t[j] == b) = true
  · have := h3 c1
    simp only [c1, c2, if_true]
    omega
  · have := h3 c1
    simp only [c1, c2, if_true]
    simp
    omega
  · simp only [c1, c2, if_true]
    simp
  · simp only [c1, c2]
    simp

/-- The shuffle succeeds when the draws are in range, and its result is a permutation of
its input. -/
theorem shuffleLoop_perm (rs : FRandomStream) :
    ∀ (i : Nat) (s : rs.State) (t : List Int), i < t.length → DrawsInRange rs i s →
      ∃ p, shuffleLoop rs i s t = some p ∧ p.Perm t := by
  intro i
  induction i with
  | zero =>
    intro s t _ _
    exact ⟨t, rfl, List.Perm.refl t⟩
  | succ i ih =>
    intro s t hlen hd
    obtain ⟨⟨hj0, hj1⟩, hrest⟩ := hd
    obtain ⟨j, hj⟩ := Int.eq_ofNat_of_zero_le hj0
    have hjlt : j < t.length := by
      have : (j : Int) ≤ (i : Int) + 1 := by rw [← hj]; exact hj1
      omega
    have e1 : (i : Int) + 1 = ((i + 1 : Nat) : Int) := by push_cast; ring
    have hlen2 : ((t.set (i + 1) t[j]).set j t[i + 1]).length = t.length := by simp
    obtain ⟨p, hp, hperm⟩ := ih (rs.RandRange s 0 ((i : Int) + 1)).2
      ((t.set (i + 1) t[j]).set j t[i + 1]) (by omega) hrest
    refine ⟨p, ?_, hperm.trans (swap_perm t (i + 1) j hlen hjlt)⟩
    simp only [shuffleLoop, hj, Option.bind_eq_bind]
    rw [e1, readAt_natCast, readAt_natCast, List.getElem?_eq_getElem hlen,
      List.getElem?_eq_getElem hjlt, Option.some_bind, Option.some_bind, writeAt_natCast,
      if_pos hlen, Option.some_bind, writeAt_natCast, if_pos (by simpa using hjlt),
      Option.some_bind]
    rw [← e1]
    exact hp

/-- Mirroring a 256-entry array in which every value of `0..255` occurs once gives a table
with the permutation invariant. -/
theorem invariant_of_count (tp : List Int) (hlen : tp.length = 256)
    (hc : ∀ v : Nat, v < 256 → tp.count (v : Int) = 1) : PermutationInvariant (tp ++ tp) := by
  refine ⟨by simp [hlen], ?_, ?_⟩
  · intro i hi
    rw [List.getElem?_append_left (by omega), List.getElem?_append_right (by omega), hlen]
    simp
  · intro v hv
    rw [List.take_left' hlen]
    exact hc v hv

/-- Under the invariant the lower half of the table is a rearrangement of `0..255`. -/
theorem PermutationInvariant.perm_take {t : List Int} (h : PermutationInvariant t) :
    identityTable.Perm (t.take 256) := by
  obtain ⟨hlen, _, hc⟩ := h
  apply List.Subperm.perm_of_length_le
  · apply List.subperm_of_subset nodup_identityTable
    intro x hx
    simp only [identityTable, List.mem_map, List.mem_range] at hx
    obtain ⟨k, hk, rfl⟩ := hx
    exact List.count_pos_iff.1 (by rw [hc k hk]; exact Nat.one_pos)
  · rw [List.length_take, length_identityTable, hlen]
    exact Nat.min_le_left _ _

theorem sampleStream_inRange (s : Int) (lo hi : Int) (h : lo ≤ hi) :
    lo ≤ (sampleStream.RandRange s lo hi).1 ∧ (sampleStream.RandRange s lo hi).1 ≤ hi := by
  show lo ≤ lo + s % (hi - lo + 1) ∧ lo + s % (hi - lo + 1) ≤ hi
  have h1 : 0 < hi - lo + 1 := by omega
  have h2 := Int.emod_nonneg s (ne_of_gt h1)
  have h3 := Int.emod_lt_of_pos s h1
  omega

theorem sampleStream_drawsInRange :
    ∀ (i : Nat) (s : sampleStream.State), DrawsInRange sampleStream i s := by
  intro i
  induction i with
  | zero => intro _; trivial
  | succ i ih =>
    intro s
    exact ⟨sampleStream_inRange s 0 ((i : Int) + 1) (by omega), ih _⟩

/-- Result of `SetSeed` in terms of the shuffled array: the old table plays no part. -/
theorem SetSeed_eq (rs : FRandomStream) (NewSeed : Int) (g : UNoiseGenerator) :
    SetSeed rs NewSeed g =
      (shuffleLoop rs 255 (rs.init NewSeed) identityTable).bind fun tp =>
        (duplicateLoop tp 256 (SetNum 512 g.Permutation)).bind fun perm =>
          some { Permutation := perm, Seed := NewSeed } := by
  simp only [SetSeed, identityLoop_full, Option.bind_eq_bind, Option.some_bind]

/-- Every successful shuffle keeps the length of the array. -/
theorem shuffleLoop_length (rs : FRandomStream) :
    ∀ (i : Nat) (s : rs.State) (t p : List Int), shuffleLoop rs i s t = some p →
      p.length = t.length := by
  intro i
  induction i with
  | zero =>
    intro s t p h
    cases h
    rfl
  | succ i ih =>
    intro s t p h
    simp only [shuffleLoop, Option.bind_eq_bind, Option.bind_eq_some] at h
    obtain ⟨_, _, _, _, t1, h1, t2, h2, h3⟩ := h
    rw [ih _ _ _ h3, length_writeAt h2, length_writeAt h1]

/-! ## Claims on the permutation table -/

/-- Under in-range draws `SetSeed` returns a mirrored table with the permutation invariant
and stores the seed. -/
theorem SetSeed_spec (rs : FRandomStream) (NewSeed : Int) (g : UNoiseGenerator)
    (hd : DrawsInRange rs 255 (rs.init NewSeed)) :
    ∃ tp, SetSeed rs NewSeed g = some { Permutation := tp ++ tp, Seed := NewSeed } ∧
      PermutationInvariant (tp ++ tp) := by
  obtain ⟨tp, htp, hperm⟩ := shuffleLoop_perm rs 255 (rs.init NewSeed) identityTable
    (by rw [length_identityTable]; omega) hd
  have hlen : tp.length = 256 := by rw [hperm.length_eq, length_identityTable]
  refine ⟨tp, ?_, ?_⟩
  · rw [SetSeed_eq, htp, Option.some_bind,
      duplicateLoop_full tp _ hlen (length_SetNum 512 _), Option.some_bind]
  · exact invariant_of_count tp hlen fun v hv => by
      rw [hperm.count_eq, count_identityTable v hv]

/-- C1: for every seed and every random stream whose draws satisfy `0 ≤ j ≤ i` at each step
`i` of the shuffle, `SetSeed` returns, and the table it leaves has length 512, satisfies
`Permutation[i] = Permutation[i + 256]` for `i < 256`, and holds every value of `0..255`
exactly once among its first 256 entries. -/
theorem SetSeed_permutationInvariant (rs : FRandomStream) (NewSeed : Int)
    (g : UNoiseGenerator) (hd : DrawsInRange rs 255 (rs.init NewSeed)) :
    ∃ g2, SetSeed rs NewSeed g = some g2 ∧ g2.Seed = NewSeed ∧
      g2.Permutation.length = 512 ∧
      (∀ i : Nat, i < 256 → g2.Permutation[i]? = g2.Permutation[i + 256]?) ∧
      (∀ v : Nat, v < 256 → (g2.Permutation.take 256).count (v : Int) = 1) := by
  obtain ⟨tp, h, hinv⟩ := SetSeed_spec rs NewSeed g hd
  exact ⟨_, h, rfl, hinv⟩

theorem SetSeed_permutationInvariant_witness :
    DrawsInRange sampleStream 255 (sampleStream.init 42) ∧
    ∃ g2, SetSeed sampleStream 42 ⟨[], 0⟩ = some g2 ∧ g2.Seed = 42 ∧
      g2.Permutation.length = 512 ∧
      (∀ i : Nat, i < 256 → g2.Permutation[i]? = g2.Permutation[i + 256]?) ∧
      (∀ v : Nat, v < 256 → (g2.Permutation.take 256).count (v : Int) = 1) :=
  ⟨sampleStream_drawsInRange 255 _,
    SetSeed_permutationInvariant sampleStream 42 ⟨[], 0⟩ (sampleStream_drawsInRange 255 _)⟩

set_option maxRecDepth 4096 in
theorem length_StandardPermutation : StandardPermutation.length = 256 := rfl

theorem count_StandardPermutation :
    ∀ v : Nat, v < 256 → StandardPermutation.count (v : Int) = 1 := by
  decide!

/-- The constructor leaves the literal table followed by a copy of itself. -/
theorem construct_eq : UNoiseGenerator.construct = some defaultGenerator := by
  simp only [UNoiseGenerator.construct, InitializePermutation, Option.bind_eq_bind]
  rw [duplicateLoop_full _ _ length_StandardPermutation (length_SetNum 512 _), Option.some_bind,
    defaultGenerator]

/-- C2: the constructor returns a generator whose table has length 512, whose entries at
`i` and `i + 256` agree for `i < 256`, and whose first 256 entries are the literal
`StandardPermutation`, in which every value of `0..255` occurs exactly once. -/
theorem construct_permutationInvariant :
    ∃ g, UNoiseGenerator.construct = some g ∧
      g.Permutation.length = 512 ∧
      (∀ i : Nat, i < 256 → g.Permutation[i]? = g.Permutation[i + 256]?) ∧
      g.Permutation.take 256 = StandardPermutation ∧
      (∀ v : Nat, v < 256 → (g.Permutation.take 256).count (v : Int) = 1) := by
  have h := invariant_of_count StandardPermutation length_StandardPermutation
    count_StandardPermutation
  exact ⟨_, construct_eq, h.1, h.2.1, List.take_left' length_StandardPermutation, h.2.2⟩

/-- C3: `SetSeed` is deterministic and replaces the table wholesale: the result of
`SetSeed(S)` is the same from any two generator states, a second `SetSeed(S)` leaves the
state of the first unchanged, and the call returns whenever the draws are in range. -/
theorem SetSeed_deterministic (rs : FRandomStream) (S : Int) (g₁ g₂ : UNoiseGenerator) :
    SetSeed rs S g₁ = SetSeed rs S g₂ ∧
      (SetSeed rs S g₁).bind (SetSeed rs S) = SetSeed rs S g₁ ∧
      (DrawsInRange rs 255 (rs.init S) → (SetSeed rs S g₁).isSome = true) := by
  have key : ∀ a b : UNoiseGenerator, SetSeed rs S a = SetSeed rs S b := by
    intro a b
    rw [SetSeed_eq, SetSeed_eq]
    cases hs : shuffleLoop rs 255 (rs.init S) identityTable with
    | none => simp only [Option.none_bind]
    | some tp =>
      have hlen : tp.length = 256 := by
        rw [shuffleLoop_length rs _ _ _ _ hs, length_identityTable]
      simp only [Option.some_bind, duplicateLoop_full tp _ hlen (length_SetNum 512 _)]
  refine ⟨key g₁ g₂, ?_, ?_⟩
  · cases h : SetSeed rs S g₁ with
    | none => rfl
    | some g => rw [Option.some_bind, key g g₁, h]
  · intro hd
    obtain ⟨tp, hg, -⟩ := SetSeed_spec rs S g₁ hd
    rw [hg]
    rfl

/-! ## Table reads under the invariant -/

theorem PermutationInvariant.tableInvariant {t : List Int} (h : PermutationInvariant t) :
    TableInvariant t := by
  have hperm := h.perm_take
  obtain ⟨hlen, hm, _⟩ := h
  refine ⟨hlen, fun x hx => ?_⟩
  obtain ⟨n, hn, rfl⟩ := List.getElem_of_mem hx
  have low : ∀ k : Nat, ∀ hk : k < 256, ∀ hk2 : k < t.length, 0 ≤ t[k] ∧ t[k] ≤ 255 := by
    intro k hk hk2
    apply mem_identityTable
    rw [hperm.mem_iff, List.mem_iff_getElem?]
    exact ⟨k, by rw [List.getElem?_take, if_pos hk, List.getElem?_eq_getElem hk2]⟩
  by_cases c : n < 256
  · exact low n c hn
  · have h1 := hm (n - 256) (by omega)
    have e : n - 256 + 256 = n := by omega
    rw [e, List.getElem?_eq_getElem hn, List.getElem?_eq_getElem (by omega)] at h1
    rw [← Option.some.inj h1]
    exact low (n - 256) (by omega) (by omega)

/-- Under the table invariant every read at an index of `[0, 512)` succeeds with a value of
`[0, 255]`. -/
theorem TableInvariant.readAt {t : List Int} (h : TableInvariant t) (i : Int)
    (h0 : 0 ≤ i) (h1 : i < 512) : ∃ v, readAt t i = some v ∧ 0 ≤ v ∧ v ≤ 255 := by
  obtain ⟨v, hv, hmem⟩ := readAt_eq_some t i h0 (by rw [h.1]; exact_mod_cast h1)
  exact ⟨v, hv, h.2 v hmem⟩

/-! ## Bounds on the Perlin building blocks -/

section NoiseLemmas

variable {K : Type} [LinearOrderedField K]

theorem Fade_nonneg {t : K} (h0 : 0 ≤ t) : 0 ≤ Fade t := by
  have e : Fade t = t * t * t * (6 * (t - 5 / 4) ^ 2 + 5 / 8) := by unfold Fade; ring
  rw [e]
  have : 0 ≤ (t - 5 / 4) ^ 2 := sq_nonneg _
  have h3 : 0 ≤ t * t * t := mul_nonneg (mul_nonneg h0 h0) h0
  exact mul_nonneg h3 (by linarith)

theorem Fade_le_one {t : K} (h0 : 0 ≤ t) (h1 : t ≤ 1) : Fade t ≤ 1 := by
  have e : 1 - Fade t = (1 - t) * (1 - t) * (1 - t) * (6 * t ^ 2 + 3 * t + 1) := by
    unfold Fade; ring
  have h2 : 0 ≤ 1 - t := by linarith
  have h3 : 0 ≤ (1 - t) * (1 - t) * (1 - t) := mul_nonneg (mul_nonneg h2 h2) h2
  have h4 : 0 ≤ 6 * t ^ 2 + 3 * t + 1 := by have := sq_nonneg t; linarith
  have := mul_nonneg h3 h4
  linarith

/-- The polynomial inequality behind the range of 2D Perlin noise. -/
theorem fade_half_bound {x : K} : x + Fade x * (1 - 2 * x) ≤ 1 / 2 := by
  have e : 1 / 2 - (x + Fade x * (1 - 2 * x)) =
      2 * (1 / 2 - x) ^ 2 * (6 * (x * (1 - x)) ^ 2 + 2 * (x * (1 - x)) + 1) := by
    unfold Fade; ring
  have h1 : 0 ≤ 6 * (x * (1 - x)) ^ 2 + 2 * (x * (1 - x)) + 1 := by
    have e2 : 6 * (x * (1 - x)) ^ 2 + 2 * (x * (1 - x)) + 1 =
        6 * (x * (1 - x) + 1 / 6) ^ 2 + 5 / 6 := by ring
    rw [e2]
    have := sq_nonneg (x * (1 - x) + 1 / 6)
    linarith
  have h2 : 0 ≤ 2 * (1 / 2 - x) ^ 2 := by have := sq_nonneg (1 / 2 - x); linarith
  have := mul_nonneg h2 h1
  linarith

theorem abs_Lerp_le {t a b A B : K} (h0 : 0 ≤ t) (h1 : t ≤ 1) (ha : |a| ≤ A) (hb : |b| ≤ B) :
    |Lerp t a b| ≤ Lerp t A B := by
  have e : Lerp t a b = (1 - t) * a + t * b := by unfold Lerp; ring
  have e2 : Lerp t A B = (1 - t) * A + t * B := by unfold Lerp; ring
  have h2 : 0 ≤ 1 - t := by linarith
  rw [e, e2]
  calc |(1 - t) * a + t * b| ≤ |(1 - t) * a| + |t * b| := abs_add _ _
    _ = (1 - t) * |a| + t * |b| := by rw [abs_mul, abs_mul, abs_of_nonneg h2, abs_of_nonneg h0]
    _ ≤ (1 - t) * A + t * B :=
      add_le_add (mul_le_mul_of_nonneg_left ha h2) (mul_le_mul_of_nonneg_left hb h0)

theorem abs_Gradient_le (h : Int) (a b : K) : |Gradient h a b| ≤ |a| + |b| := by
  have a1 := le_abs_self a
  have a2 := neg_abs_le a
  have b1 := le_abs_self b
  have b2 := neg_abs_le b
  rw [abs_le]
  unfold Gradient
  dsimp only
  constructor <;> split_ifs <;> linarith

/-- One octave of 2D Perlin noise lies in `[-1, 1]` whatever the four corner hashes are. -/
theorem abs_blend2D_le (hAA hBA hAB hBB : Int) {x y : K} (hx0 : 0 ≤ x) (hx1 : x ≤ 1)
    (hy0 : 0 ≤ y) (hy1 : y ≤ 1) :
    |Lerp (Fade y) (Lerp (Fade x) (Gradient hAA x y) (Gradient hBA (x - 1) y))
      (Lerp (Fade x) (Gradient hAB x (y - 1)) (Gradient hBB (x - 1) (y - 1)))| ≤ 1 := by
  have ax : |x| = x := abs_of_nonneg hx0
  have ay : |y| = y := abs_of_nonneg hy0
  have ax1 : |x - 1| = 1 - x := by rw [abs_of_nonpos (by linarith)]; ring
  have ay1 : |y - 1| = 1 - y := by rw [abs_of_nonpos (by linarith)]; ring
  have g1 : |Gradient hAA x y| ≤ x + y := by
    have := abs_Gradient_le hAA x y; rwa [ax, ay] at this
  have g2 : |Gradient hBA (x - 1) y| ≤ (1 - x) + y := by
    have := abs_Gradient_le hBA (x - 1) y; rwa [ax1, ay] at this
  have g3 : |Gradient hAB x (y - 1)| ≤ x + (1 - y) := by
    have := abs_Gradient_le hAB x (y - 1); rwa [ax, ay1] at this
  have g4 : |Gradient hBB (x - 1) (y - 1)| ≤ (1 - x) + (1 - y) := by
    have := abs_Gradient_le hBB (x - 1) (y - 1); rwa [ax1, ay1] at this
  have u0 := Fade_nonneg hx0
  have u1 := Fade_le_one hx0 hx1
  have v0 := Fade_nonneg hy0
  have v1 := Fade_le_one hy0 hy1
  have key := abs_Lerp_le v0 v1 (abs_Lerp_le u0 u1 g1 g2) (abs_Lerp_le u0 u1 g3 g4)
  have e : Lerp (Fade y) (Lerp (Fade x) (x + y) (1 - x + y))
      (Lerp (Fade x) (x + (1 - y)) (1 - x + (1 - y))) =
      (x + Fade x * (1 - 2 * x)) + (y + Fade y * (1 - 2 * y)) := by
    unfold Lerp; ring
  rw [e] at key
  have bx := fade_half_bound (x := x)
  have by1 := fade_half_bound (x := y)
  linarith

theorem Gradient_zero (h : Int) : Gradient h (0 : K) 0 = 0 := by
  unfold Gradient
  dsimp only
  split_ifs <;> simp

theorem clampScale_of_nonpos {Scale : K} (h : Scale ≤ 0) : clampScale Scale = 1 / 10000 := by
  unfold clampScale
  rw [if_pos h]

theorem clampScale_pos (Scale : K) : 0 < clampScale Scale := by
  unfold clampScale
  split_ifs with h
  · norm_num
  · exact lt_of_not_le h

variable [FloorRing K]

/-- Under the table invariant the four corner reads of an octave succeed and the octave's
noise value lies in `[-1, 1]`. -/
theorem perlinSample_bound {t : List Int} (ht : TableInvariant t) (sx sy : K) :
    ∃ n, perlinSample t sx sy = some n ∧ |n| ≤ 1 := by
  have hx0 : (0 : Int) ≤ ⌊sx⌋ % 256 := Int.emod_nonneg _ (by norm_num)
  have hx1 : ⌊sx⌋ % 256 < 256 := Int.emod_lt_of_pos _ (by norm_num)
  have hy0 : (0 : Int) ≤ ⌊sy⌋ % 256 := Int.emod_nonneg _ (by norm_num)
  have hy1 : ⌊sy⌋ % 256 < 256 := Int.emod_lt_of_pos _ (by norm_num)
  obtain ⟨p, hp, hp0, hp1⟩ := ht.readAt (⌊sx⌋ % 256) hx0 (by omega)
  obtain ⟨q, hq, hq0, hq1⟩ := ht.readAt (⌊sx⌋ % 256 + 1) (by omega) (by omega)
  obtain ⟨aa, haa, -⟩ := ht.readAt (p + ⌊sy⌋ % 256) (by omega) (by omega)
  obtain ⟨ab, hab, -⟩ := ht.readAt (p + ⌊sy⌋ % 256 + 1) (by omega) (by omega)
  obtain ⟨ba, hba, -⟩ := ht.readAt (q + ⌊sy⌋ % 256) (by omega) (by omega)
  obtain ⟨bb, hbb, -⟩ := ht.readAt (q + ⌊sy⌋ % 256 + 1) (by omega) (by omega)
  refine ⟨_, ?_, abs_blend2D_le aa ba ab bb (x := sx - (⌊sx⌋ : K)) (y := sy - (⌊sy⌋ : K))
    ?_ ?_ ?_ ?_⟩
  · simp only [perlinSample, hp, hq, haa, hab, hba, hbb, Option.some_bind,
      Option.bind_eq_bind]
  · rw [Int.self_sub_floor]; exact Int.fract_nonneg _
  · rw [Int.self_sub_floor]; exact (Int.fract_lt_one _).le
  · rw [Int.self_sub_floor]; exact Int.fract_nonneg _
  · rw [Int.self_sub_floor]; exact (Int.fract_lt_one _).le

end NoiseLemmas

section NoiseTheorems

variable {K : Type} [LinearOrderedField K] [FloorRing K]

theorem perlinOctave_spec {t : List Int} (ht : TableInvariant t)
    (X Y Scale Persistence Lacunarity : K) (st : OctaveState K) :
    ∃ n, |n| ≤ 1 ∧ perlinOctave t X Y Scale Persistence Lacunarity st =
      some { Total := st.Total + n * st.Amplitude
             Frequency := st.Frequency * Lacunarity
             Amplitude := st.Amplitude * Persistence
             MaxValue := st.MaxValue + st.Amplitude } := by
  obtain ⟨n, hn, hb⟩ := perlinSample_bound ht (X / Scale * st.Frequency) (Y / Scale * st.Frequency)
  refine ⟨n, hb, ?_⟩
  simp only [perlinOctave, hn, Option.bind_eq_bind, Option.some_bind]

/-- Invariant of the octave loop: the loop returns, `|Total| ≤ MaxValue` is kept, and
`MaxValue` grows by at least the first amplitude as soon as one pass runs. -/
theorem perlinLoop_spec {t : List Int} (ht : TableInvariant t)
    (X Y Scale Persistence Lacunarity : K) (hp : 0 ≤ Persistence) :
    ∀ (n : Nat) (st : OctaveState K), 0 ≤ st.Amplitude → |st.Total| ≤ st.MaxValue →
      ∃ st2, perlinLoop t X Y Scale Persistence Lacunarity n st = some st2 ∧
        |st2.Total| ≤ st2.MaxValue ∧ st.MaxValue ≤ st2.MaxValue ∧
        (0 < n → st.MaxValue + st.Amplitude ≤ st2.MaxValue) := by
  intro n
  induction n with
  | zero =>
    intro st _ hT
    exact ⟨st, rfl, hT, le_refl _, fun h => absurd h (lt_irrefl 0)⟩
  | succ n ih =>
    intro st hA hT
    obtain ⟨v, hv, hoct⟩ := perlinOctave_spec ht X Y Scale Persistence Lacunarity st
    have hT2 : |st.Total + v * st.Amplitude| ≤ st.MaxValue + st.Amplitude := by
      calc |st.Total + v * st.Amplitude| ≤ |st.Total| + |v * st.Amplitude| := abs_add _ _
        _ = |st.Total| + |v| * st.Amplitude := by rw [abs_mul, abs_of_nonneg hA]
        _ ≤ st.MaxValue + 1 * st.Amplitude :=
          add_le_add hT (mul_le_mul_of_nonneg_right hv hA)
        _ = st.MaxValue + st.Amplitude := by rw [one_mul]
    obtain ⟨st2, hst2, hb, hmono, _⟩ := ih
      { Total := st.Total + v * st.Amplitude
        Frequency := st.Frequency * Lacunarity
        Amplitude := st.Amplitude * Persistence
        MaxValue := st.MaxValue + st.Amplitude } (mul_nonneg hA hp) hT2
    refine ⟨st2, ?_, hb, ?_, fun _ => hmono⟩
    · simp only [perlinLoop, hoct, Option.bind_eq_bind, Option.some_bind, hst2]
    · exact le_trans (le_add_of_nonneg_right hA) hmono

/-- At a lattice point every value the octave sample can return is zero. -/
theorem perlinSample_lattice (t : List Int) (m n : Int) (v : K)
    (h : perlinSample t (m : K) (n : K) = some v) : v = 0 := by
  simp only [perlinSample, Option.bind_eq_bind, Option.bind_eq_some, Int.floor_intCast,
    sub_self, Option.some.injEq] at h
  obtain ⟨aa, -, ab, -, ba, -, bb, -, rfl⟩ := h
  simp [Lerp, Fade, Gradient_zero]

/-! ## Claims on the noise functions -/

/-- The range of `GeneratePerlinNoise2D` over exact arithmetic, without rounding or
overflow: for every table with the permutation invariant, all `X`, `Y`, `Scale`, every
`Octaves ≥ 1`, every `Persistence` in `[0, 1]` and every `Lacunarity ≥ 1`, the octave loop
ends with `MaxValue ≠ 0` and `Total / MaxValue` in `[-1, 1]`, and the function returns a
value `v` with `0 ≤ v ≤ 1`. -/
theorem GeneratePerlinNoise2D_range (g : UNoiseGenerator)
    (hg : PermutationInvariant g.Permutation) (X Y Scale : K) (Octaves : Int)
    (ho : 1 ≤ Octaves) (Persistence Lacunarity : K) (hp0 : 0 ≤ Persistence)
    (_hp1 : Persistence ≤ 1) (_hl : 1 ≤ Lacunarity) :
    ∃ st, perlinLoop g.Permutation X Y (clampScale Scale) Persistence Lacunarity
        Octaves.toNat { Total := 0, Frequency := 1, Amplitude := 1, MaxValue := 0 } = some st ∧
      st.MaxValue ≠ 0 ∧ -1 ≤ st.Total / st.MaxValue ∧ st.Total / st.MaxValue ≤ 1 ∧
      ∃ v, GeneratePerlinNoise2D g X Y Scale Octaves Persistence Lacunarity = some v ∧
        0 ≤ v ∧ v ≤ 1 := by
  obtain ⟨st, hst, hb, -, hmax⟩ := perlinLoop_spec hg.tableInvariant X Y (clampScale Scale)
    Persistence Lacunarity hp0 Octaves.toNat
    { Total := 0, Frequency := 1, Amplitude := 1, MaxValue := 0 } zero_le_one
    (by simp)
  have hpos : (1 : K) ≤ st.MaxValue := by
    have := hmax (by omega)
    simpa using this
  have hM : 0 < st.MaxValue := lt_of_lt_of_le zero_lt_one hpos
  have hlow : -1 ≤ st.Total / st.MaxValue := by
    rw [le_div_iff₀ hM]
    have := neg_abs_le st.Total
    linarith
  have hhigh : st.Total / st.MaxValue ≤ 1 := by
    rw [div_le_iff₀ hM]
    have := le_abs_self st.Total
    linarith
  refine ⟨st, hst, ne_of_gt hM, hlow, hhigh, (st.Total / st.MaxValue + 1) * (1 / 2), ?_, ?_, ?_⟩
  · simp only [GeneratePerlinNoise2D, hst, Option.bind_eq_bind, Option.some_bind]
  · linarith
  · linarith

/-- C7: at integer coordinates `(m, n)` with `Scale = 1` and `Octaves = 1`, whatever the
table, persistence and lacunarity, the only value `GeneratePerlinNoise2D` can return is
`1/2`, and it does return `1/2` as soon as the table has 512 entries in `[0, 255]`. -/
theorem GeneratePerlinNoise2D_lattice (g : UNoiseGenerator) (m n : Int)
    (Persistence Lacunarity : K) :
    (∀ v, GeneratePerlinNoise2D g (m : K) (n : K) 1 1 Persistence Lacunarity = some v →
        v = 1 / 2) ∧
      (TableInvariant g.Permutation →
        GeneratePerlinNoise2D g (m : K) (n : K) 1 1 Persistence Lacunarity = some (1 / 2)) := by
  have hc : clampScale (1 : K) = 1 := by
    unfold clampScale
    rw [if_neg (by norm_num)]
  have hn : (1 : Int).toNat = 1 := rfl
  have key : ∀ v, GeneratePerlinNoise2D g (m : K) (n : K) 1 1 Persistence Lacunarity = some v →
      v = 1 / 2 := by
    intro v h
    simp only [GeneratePerlinNoise2D, hc, hn, perlinLoop, perlinOctave, div_one, mul_one,
      Option.bind_eq_bind, Option.bind_eq_some, Option.some.injEq] at h
    obtain ⟨st, ⟨st1, ⟨w, hw, rfl⟩, rfl⟩, rfl⟩ := h
    rw [perlinSample_lattice g.Permutation m n w hw]
    simp
  refine ⟨key, fun ht => ?_⟩
  obtain ⟨w, -, hoct⟩ := perlinOctave_spec ht (m : K) (n : K) (clampScale 1) Persistence
    Lacunarity { Total := 0, Frequency := 1, Amplitude := 1, MaxValue := 0 }
  have hres : GeneratePerlinNoise2D g (m : K) (n : K) 1 1 Persistence Lacunarity =
      some ((((0 : K) + w * 1) / (0 + 1) + 1) * (1 / 2)) := by
    simp only [GeneratePerlinNoise2D, hn, perlinLoop, hoct, Option.bind_eq_bind,
      Option.some_bind]
  rw [hres, key _ hres]

end NoiseTheorems

section NoiseClaims

variable {K : Type} [LinearOrderedField K] [FloorRing K]

/-- C8: for each of the three noise functions and every `Scale ≤ 0`, the result is the
result of the same call with `Scale = 0.0001`; the divisor the functions use, the clamped
scale, is positive for every `Scale`. -/
theorem nonpositive_scale_replaced (g : UNoiseGenerator) (Scale : K) (hs : Scale ≤ 0) :
    (∀ (X Y : K) (Octaves : Int) (Persistence Lacunarity : K),
        GeneratePerlinNoise2D g X Y Scale Octaves Persistence Lacunarity =
          GeneratePerlinNoise2D g X Y (1 / 10000) Octaves Persistence Lacunarity) ∧
      (∀ X Y Z : K,
        GeneratePerlinNoise3D g X Y Z Scale = GeneratePerlinNoise3D g X Y Z (1 / 10000)) ∧
      (∀ X Y : K,
        GenerateSimplexNoise2D g X Y Scale = GenerateSimplexNoise2D g X Y (1 / 10000)) ∧
      (∀ s : K, 0 < clampScale s) := by
  have h1 : clampScale Scale = 1 / 10000 := clampScale_of_nonpos hs
  have h2 : clampScale (1 / 10000 : K) = 1 / 10000 := by
    unfold clampScale
    rw [if_neg (by norm_num)]
  refine ⟨?_, ?_, ?_, clampScale_pos⟩
  · intro X Y Octaves Persistence Lacunarity
    unfold GeneratePerlinNoise2D
    rw [h1, h2]
  · intro X Y Z
    unfold GeneratePerlinNoise3D
    rw [h1, h2]
  · intro X Y
    unfold GenerateSimplexNoise2D
    rw [h1, h2]

end NoiseClaims

theorem defaultGenerator_invariant : PermutationInvariant defaultGenerator.Permutation :=
  invariant_of_count StandardPermutation length_StandardPermutation count_StandardPermutation

theorem GeneratePerlinNoise2D_range_witness :
    PermutationInvariant defaultGenerator.Permutation ∧ (1 : Int) ≤ 4 ∧ (0 : ℚ) ≤ 1 / 2 ∧
      (1 / 2 : ℚ) ≤ 1 ∧ (1 : ℚ) ≤ 2 ∧
      ∃ st, perlinLoop defaultGenerator.Permutation (13 / 10 : ℚ) (-27 / 10) (clampScale 1)
          (1 / 2) 2 (4 : Int).toNat
          { Total := 0, Frequency := 1, Amplitude := 1, MaxValue := 0 } = some st ∧
        st.MaxValue ≠ 0 ∧ -1 ≤ st.Total / st.MaxValue ∧ st.Total / st.MaxValue ≤ 1 ∧
        ∃ v, GeneratePerlinNoise2D defaultGenerator (13 / 10 : ℚ) (-27 / 10) 1 4 (1 / 2) 2 =
          some v ∧ 0 ≤ v ∧ v ≤ 1 :=
  ⟨defaultGenerator_invariant, by norm_num, by norm_num, by norm_num, by norm_num,
    GeneratePerlinNoise2D_range defaultGenerator defaultGenerator_invariant (13 / 10 : ℚ)
      (-27 / 10) 1 4 (by norm_num) (1 / 2) 2 (by norm_num) (by norm_num) (by norm_num)⟩

theorem GeneratePerlinNoise2D_lattice_witness :
    TableInvariant defaultGenerator.Permutation ∧
      (∀ v, GeneratePerlinNoise2D defaultGenerator ((0 : Int) : ℚ) ((0 : Int) : ℚ) 1 1 (1 / 2) 2
          = some v → v = 1 / 2) ∧
      GeneratePerlinNoise2D defaultGenerator ((0 : Int) : ℚ) ((0 : Int) : ℚ) 1 1 (1 / 2) 2 =
        some (1 / 2) :=
  ⟨defaultGenerator_invariant.tableInvariant,
    (GeneratePerlinNoise2D_lattice defaultGenerator 0 0 (1 / 2 : ℚ) 2).1,
    (GeneratePerlinNoise2D_lattice defaultGenerator 0 0 (1 / 2 : ℚ) 2).2
      defaultGenerator_invariant.tableInvariant⟩

theorem nonpositive_scale_replaced_witness :
    (-3 : ℚ) ≤ 0 ∧
      (∀ (X Y : ℚ) (Octaves : Int) (Persistence Lacunarity : ℚ),
        GeneratePerlinNoise2D defaultGenerator X Y (-3) Octaves Persistence Lacunarity =
          GeneratePerlinNoise2D defaultGenerator X Y (1 / 10000) Octaves Persistence
            Lacunarity) ∧
      (∀ X Y Z : ℚ, GeneratePerlinNoise3D defaultGenerator X Y Z (-3) =
        GeneratePerlinNoise3D defaultGenerator X Y Z (1 / 10000)) ∧
      (∀ X Y : ℚ, GenerateSimplexNoise2D defaultGenerator X Y (-3) =
        GenerateSimplexNoise2D defaultGenerator X Y (1 / 10000)) ∧
      (∀ s : ℚ, 0 < clampScale s) :=
  ⟨by norm_num, nonpositive_scale_replaced defaultGenerator (-3 : ℚ) (by norm_num)⟩

theorem SetSeed_deterministic_witness :
    DrawsInRange sampleStream 255 (sampleStream.init 42) ∧
      SetSeed sampleStream 42 ⟨[], 0⟩ = SetSeed sampleStream 42 defaultGenerator ∧
      (SetSeed sampleStream 42 ⟨[], 0⟩).bind (SetSeed sampleStream 42) =
        SetSeed sampleStream 42 ⟨[], 0⟩ ∧
      (SetSeed sampleStream 42 ⟨[], 0⟩).isSome = true :=
  ⟨sampleStream_drawsInRange 255 _,
    (SetSeed_deterministic sampleStream 42 ⟨[], 0⟩ defaultGenerator).1,
    (SetSeed_deterministic sampleStream 42 ⟨[], 0⟩ defaultGenerator).2.1,
    (SetSeed_deterministic sampleStream 42 ⟨[], 0⟩ defaultGenerator).2.2
      (sampleStream_drawsInRange 255 _)⟩

/-- C5: on the default table, `GeneratePerlinNoise3D(12.25, 187.5, 5.5, 1)` returns
`4149/4096`, which is above the documented upper bound 1 of the return value: in the cell
`(12, 187, 5)` the hash coordinates are `(AA, AB, BA, BB) = (191, 8, 49, 159)`, and the blend
of the eight corner gradients at the fractions `(1/4, 1/2, 1/2)` is `2101/2048`. -/
theorem GeneratePerlinNoise3D_above_one :
    UNoiseGenerator.construct = some defaultGenerator ∧
      PermutationInvariant defaultGenerator.Permutation ∧
      cornerHashes3D defaultGenerator.Permutation 12 187 5 = some (191, 8, 49, 159) ∧
      cornerBlend3D defaultGenerator.Permutation 191 8 49 159 (1 / 4 : ℚ) (1 / 2) (1 / 2) =
        some (2101 / 2048) ∧
      GeneratePerlinNoise3D defaultGenerator (49 / 4 : ℚ) (375 / 2) (11 / 2) 1 =
        some (4149 / 4096) ∧
      (1 : ℚ) < 4149 / 4096 :=
  ⟨construct_eq, defaultGenerator_invariant, by decide!, by decide!, by decide!, by norm_num⟩

/-- C6: on the default table, `GenerateSimplexNoise2D(0, 0.25, 1)` returns a value above 1
(about 1.287), outside the documented range `[-1, 1]`, and the terrain's rescaling
`(v + 1) * 0.5` of it is above 1 as well. The first corner alone, with `T0 = 7/16`, hash
index 151 and offset `(0, 1/4)`, contributes `2401/131072`, which the factor 70 takes to
about 1.282. -/
theorem GenerateSimplexNoise2D_above_one :
    UNoiseGenerator.construct = some defaultGenerator ∧
      PermutationInvariant defaultGenerator.Permutation ∧
      simplexCorner defaultGenerator.Permutation (7 / 16 : ℚ) (some 151) 0 (1 / 4) =
        some (2401 / 131072) ∧
      ∃ v, GenerateSimplexNoise2D defaultGenerator (0 : ℚ) (1 / 4) 1 = some v ∧ 1 < v ∧
        1 < (v + 1) * (1 / 2) :=
  ⟨construct_eq, defaultGenerator_invariant, by decide!,
    4119154072324595364590452610239706464209751188386764458457260024898839503 /
      3200000000000000000000000000000000000000000000000000000000000000000000000,
    by decide!, by norm_num, by norm_num⟩

/-! ## Mesh lemmas -/

theorem length_quadIndices (W X Y : Int) : (quadIndices W X Y).length = 6 := rfl

theorem length_triangleColumnLoop (W Y : Int) (n : Nat) (t : List Int) :
    (triangleColumnLoop W Y n t).length = t.length + 6 * n := by
  induction n with
  | zero => rfl
  | succ n ih =>
    rw [triangleColumnLoop, List.length_append, ih, length_quadIndices]
    ring

theorem length_triangleRowLoop (W : Int) (n : Nat) (t : List Int) :
    (triangleRowLoop W n t).length = t.length + 6 * W.toNat * n := by
  induction n with
  | zero => rfl
  | succ n ih =>
    rw [triangleRowLoop, length_triangleColumnLoop, ih]
    ring

theorem mem_triangleColumnLoop {W Y : Int} {n : Nat} {t : List Int} {k : Int}
    (h : k ∈ triangleColumnLoop W Y n t) :
    k ∈ t ∨ ∃ x : Nat, x < n ∧ k ∈ quadIndices W (x : Int) Y := by
  induction n with
  | zero => exact Or.inl h
  | succ n ih =>
    rw [triangleColumnLoop, List.mem_append] at h
    rcases h with h | h
    · rcases ih h with h1 | ⟨x, hx, hk⟩
      · exact Or.inl h1
      · exact Or.inr ⟨x, Nat.lt_succ_of_lt hx, hk⟩
    · exact Or.inr ⟨n, Nat.lt_succ_self n, h⟩

theorem mem_triangleRowLoop {W : Int} {n : Nat} {t : List Int} {k : Int}
    (h : k ∈ triangleRowLoop W n t) :
    k ∈ t ∨ ∃ y : Nat, y < n ∧ ∃ x : Nat, x < W.toNat ∧ k ∈ quadIndices W (x : Int) (y : Int) := by
  induction n with
  | zero => exact Or.inl h
  | succ n ih =>
    rw [triangleRowLoop] at h
    rcases mem_triangleColumnLoop h with h | ⟨x, hx, hk⟩
    · rcases ih h with h1 | ⟨y, hy, hk⟩
      · exact Or.inl h1
      · exact Or.inr ⟨y, Nat.lt_succ_of_lt hy, hk⟩
    · exact Or.inr ⟨n, Nat.lt_succ_self n, x, hx, hk⟩

/-- The four corner indices of a quad inside the grid are vertex indices. -/
theorem quadIndices_bound {W H : Int} {x y : Nat} (hx : x < W.toNat) (hy : y < H.toNat)
    {k : Int} (hk : k ∈ quadIndices W (x : Int) (y : Int)) :
    0 ≤ k ∧ k < (W + 1) * (H + 1) := by
  have hx2 : (x : Int) < W := by omega
  have hy2 : (y : Int) < H := by omega
  have hx0 : (0 : Int) ≤ x := Int.natCast_nonneg x
  have hy0 : (0 : Int) ≤ y := Int.natCast_nonneg y
  have m1 : 0 ≤ (y : Int) * (W + 1) := mul_nonneg hy0 (by omega)
  have m2 : ((y : Int) + 1) * (W + 1) ≤ H * (W + 1) :=
    mul_le_mul_of_nonneg_right (by omega) (by omega)
  have e1 : ((y : Int) + 1) * (W + 1) = (y : Int) * (W + 1) + W + 1 := by ring
  have e2 : (W + 1) * (H + 1) = H * (W + 1) + W + 1 := by ring
  simp only [quadIndices, List.mem_cons, List.mem_singleton, List.not_mem_nil, or_false] at hk
  rw [e2]
  rcases hk with h | h | h | h | h | h <;> subst h <;> constructor <;> omega

theorem GenerateTriangles_bound {K : Type} (a : AProceduralTerrainActor K) {k : Int}
    (hk : k ∈ GenerateTriangles a) :
    0 ≤ k ∧ k < (a.TerrainWidth + 1) * (a.TerrainHeight + 1) := by
  rcases mem_triangleRowLoop hk with h | ⟨y, hy, x, hx, h⟩
  · cases h
  · exact quadIndices_bound hx hy h

theorem length_GenerateTriangles {K : Type} (a : AProceduralTerrainActor K) :
    (GenerateTriangles a).length = 3 * (2 * a.TerrainWidth.toNat * a.TerrainHeight.toNat) := by
  rw [GenerateTriangles, length_triangleRowLoop]
  simp only [List.length_nil]
  ring

section MeshLemmas

variable {K : Type} [LinearOrderedField K]

theorem length_addAt {N N2 : List (FVector K)} {i : Int} {v : FVector K}
    (h : addAt N i v = some N2) : N2.length = N.length := by
  simp only [addAt, Option.bind_eq_some] at h
  obtain ⟨n, -, hw⟩ := h
  exact length_writeAt hw

theorem addAt_some (N : List (FVector K)) (i : Int) (v : FVector K) (h0 : 0 ≤ i)
    (h1 : i < N.length) : ∃ N2, addAt N i v = some N2 ∧ N2.length = N.length := by
  obtain ⟨n, hn, -⟩ := readAt_eq_some N i h0 h1
  have hw : writeAt N i (n.add v) = some (N.set i.toNat (n.add v)) := by
    unfold writeAt
    rw [if_pos ⟨h0, by omega⟩]
  exact ⟨N.set i.toNat (n.add v), by simp only [addAt, hn, Option.some_bind, hw],
    List.length_set _ _ _⟩

/-- The accumulation loop keeps the number of normals. -/
theorem length_accumulateFaceNormals (gsn : FVector K → FVector K) (V : List (FVector K)) :
    ∀ (n : Nat) (T : List Int) (N N2 : List (FVector K)), T.length ≤ n →
      accumulateFaceNormals gsn V T N = some N2 → N2.length = N.length := by
  intro n
  induction n with
  | zero =>
    intro T N N2 hT h
    obtain rfl : T = [] := List.length_eq_zero.1 (Nat.le_zero.1 hT)
    simp only [accumulateFaceNormals, Option.some.injEq] at h
    rw [← h]
  | succ n ih =>
    intro T N N2 hT h
    match T, hT, h with
    | [], _, h =>
      simp only [accumulateFaceNormals, Option.some.injEq] at h
      rw [← h]
    | [_], _, h => simp [accumulateFaceNormals] at h
    | [_, _], _, h => simp [accumulateFaceNormals] at h
    | i0 :: i1 :: i2 :: rest, hT, h =>
      simp only [accumulateFaceNormals, Option.bind_eq_some] at h
      obtain ⟨v0, -, v1, -, v2, -, N3, h3, N4, h4, N5, h5, hrest⟩ := h
      have hl : rest.length ≤ n := by
        simp only [List.length_cons] at hT
        omega
      rw [ih rest N5 N2 hl hrest, length_addAt h5, length_addAt h4, length_addAt h3]

/-- The accumulation loop returns when the index list has a multiple of three entries, all
of them vertex indices. -/
theorem accumulateFaceNormals_some (gsn : FVector K → FVector K) (V : List (FVector K)) :
    ∀ (k : Nat) (T : List Int) (N : List (FVector K)), T.length = 3 * k →
      (∀ i ∈ T, 0 ≤ i ∧ i < (V.length : Int)) → N.length = V.length →
      ∃ N2, accumulateFaceNormals gsn V T N = some N2 := by
  intro k
  induction k with
  | zero =>
    intro T N hT _ _
    obtain rfl : T = [] := List.length_eq_zero.1 (by omega)
    exact ⟨N, rfl⟩
  | succ k ih =>
    intro T N hT hb hN
    match T, hT, hb with
    | [], hT, _ => simp at hT
    | [_], hT, _ => simp at hT; omega
    | [_, _], hT, _ => simp at hT; omega
    | i0 :: i1 :: i2 :: rest, hT, hb =>
      have b0 := hb i0 (by simp)
      have b1 := hb i1 (by simp)
      have b2 := hb i2 (by simp)
      obtain ⟨v0, hv0, -⟩ := readAt_eq_some V i0 b0.1 b0.2
      obtain ⟨v1, hv1, -⟩ := readAt_eq_some V i1 b1.1 b1.2
      obtain ⟨v2, hv2, -⟩ := readAt_eq_some V i2 b2.1 b2.2
      obtain ⟨N3, h3, l3⟩ := addAt_some N i0 (gsn ((v1.sub v0).CrossProduct (v2.sub v0)))
        b0.1 (by rw [hN]; exact b0.2)
      obtain ⟨N4, h4, l4⟩ := addAt_some N3 i1 (gsn ((v1.sub v0).CrossProduct (v2.sub v0)))
        b1.1 (by rw [l3, hN]; exact b1.2)
      obtain ⟨N5, h5, l5⟩ := addAt_some N4 i2 (gsn ((v1.sub v0).CrossProduct (v2.sub v0)))
        b2.1 (by rw [l4, l3, hN]; exact b2.2)
      obtain ⟨N6, h6⟩ := ih rest N5 (by simp only [List.length_cons] at hT; omega)
        (fun i hi => hb i (by simp [hi])) (by rw [l5, l4, l3, hN])
      exact ⟨N6, by simp only [accumulateFaceNormals, hv0, hv1, hv2, h3, h4, h5, h6,
        Option.some_bind]⟩

theorem length_CalculateNormals {gsn : FVector K → FVector K} {V N : List (FVector K)}
    {T : List Int} (h : CalculateNormals gsn V T = some N) : N.length = V.length := by
  simp only [CalculateNormals, Option.map_eq_some'] at h
  obtain ⟨N2, h2, rfl⟩ := h
  rw [List.length_map, length_accumulateFaceNormals gsn V T.length T _ N2 (le_refl _) h2,
    List.length_replicate]

theorem CalculateNormals_some (gsn : FVector K → FVector K) (V : List (FVector K))
    (T : List Int) (k : Nat) (hT : T.length = 3 * k)
    (hb : ∀ i ∈ T, 0 ≤ i ∧ i < (V.length : Int)) : ∃ N, CalculateNormals gsn V T = some N := by
  obtain ⟨N2, h2⟩ := accumulateFaceNormals_some gsn V k T
    (List.replicate V.length FVector.ZeroVector) hT hb (List.length_replicate _ _)
  exact ⟨N2.map gsn, by simp only [CalculateNormals, h2, Option.map_some']⟩

end MeshLemmas

theorem bind_some_of {α β : Type} {x : Option α} {f : α → Option β} (hx : ∃ a, x = some a)
    (hf : ∀ a, ∃ b, f a = some b) : ∃ b, x.bind f = some b := by
  obtain ⟨a, rfl⟩ := hx
  exact hf a

section NoiseTotal

variable {K : Type} [LinearOrderedField K]

theorem simplexCorner_some (P : List Int) (T : K) (hi : Option Int) (X Y : K)
    (h : ∃ v, (hi.bind fun i => readAt P i) = some v) :
    ∃ n, simplexCorner P T hi X Y = some n := by
  obtain ⟨v, hv⟩ := h
  unfold simplexCorner
  split_ifs
  · exact ⟨0, rfl⟩
  · simp only [hv, Option.bind_eq_bind, Option.some_bind]
    exact ⟨_, rfl⟩

theorem simplexHash_some {P : List Int} (ht : TableInvariant P) (j c : Int) (hj0 : 0 ≤ j)
    (hj1 : j ≤ 256) (hc0 : 0 ≤ c) (hc1 : c ≤ 256) :
    ∃ v, (((readAt P j).map fun p => c + p).bind fun i => readAt P i) = some v := by
  obtain ⟨p, hp, hp0, hp1⟩ := ht.readAt j hj0 (by omega)
  obtain ⟨v, hv, -⟩ := ht.readAt (c + p) (by omega) (by omega)
  exact ⟨v, by simp only [hp, Option.map_some', Option.some_bind, hv]⟩

variable [FloorRing K]

theorem perlinLoop_some {t : List Int} (ht : TableInvariant t)
    (X Y Scale Persistence Lacunarity : K) :
    ∀ (n : Nat) (st : OctaveState K),
      ∃ st2, perlinLoop t X Y Scale Persistence Lacunarity n st = some st2 := by
  intro n
  induction n with
  | zero => exact fun st => ⟨st, rfl⟩
  | succ n ih =>
    intro st
    obtain ⟨v, -, hoct⟩ := perlinOctave_spec ht X Y Scale Persistence Lacunarity st
    obtain ⟨st2, h2⟩ := ih
      { Total := st.Total + v * st.Amplitude
        Frequency := st.Frequency * Lacunarity
        Amplitude := st.Amplitude * Persistence
        MaxValue := st.MaxValue + st.Amplitude }
    exact ⟨st2, by simp only [perlinLoop, hoct, Option.bind_eq_bind, Option.some_bind, h2]⟩

/-- Under the table invariant `GeneratePerlinNoise2D` returns for all arguments. -/
theorem GeneratePerlinNoise2D_some (g : UNoiseGenerator) (ht : TableInvariant g.Permutation)
    (X Y Scale : K) (Octaves : Int) (Persistence Lacunarity : K) :
    ∃ v, GeneratePerlinNoise2D g X Y Scale Octaves Persistence Lacunarity = some v := by
  obtain ⟨st, hst⟩ := perlinLoop_some ht X Y (clampScale Scale) Persistence Lacunarity
    Octaves.toNat { Total := 0, Frequency := 1, Amplitude := 1, MaxValue := 0 }
  simp only [GeneratePerlinNoise2D, hst, Option.bind_eq_bind, Option.some_bind]
  exact ⟨_, rfl⟩

/-- Under the table invariant `GenerateSimplexNoise2D` returns for all arguments. -/
theorem GenerateSimplexNoise2D_some (g : UNoiseGenerator) (ht : TableInvariant g.Permutation)
    (X Y Scale : K) : ∃ v, GenerateSimplexNoise2D g X Y Scale = some v := by
  simp only [GenerateSimplexNoise2D, Option.bind_eq_bind]
  refine bind_some_of (simplexCorner_some _ _ _ _ _ (simplexHash_some ht _ _ ?_ ?_ ?_ ?_))
    fun N0 => bind_some_of
      (simplexCorner_some _ _ _ _ _ (simplexHash_some ht _ _ ?_ ?_ ?_ ?_))
      fun N1 => bind_some_of
        (simplexCorner_some _ _ _ _ _ (simplexHash_some ht _ _ ?_ ?_ ?_ ?_))
        fun N2 => ⟨_, rfl⟩
  all_goals omega

end NoiseTotal

section VertexLemmas

variable {K : Type} [LinearOrderedField K] [FloorRing K]

theorem vertexHeight_some (a : AProceduralTerrainActor K)
    (ht : TableInvariant a.NoiseGenerator.Permutation) (WorldX WorldY : K) :
    ∃ h, vertexHeight a WorldX WorldY = some h := by
  unfold vertexHeight
  split_ifs
  · obtain ⟨v, hv⟩ := GenerateSimplexNoise2D_some a.NoiseGenerator ht WorldX WorldY a.NoiseScale
    rw [hv, Option.map_some']
    exact ⟨_, rfl⟩
  · exact GeneratePerlinNoise2D_some a.NoiseGenerator ht WorldX WorldY a.NoiseScale a.Octaves
      a.Persistence a.Lacunarity

theorem addVertex_some (a : AProceduralTerrainActor K)
    (ht : TableInvariant a.NoiseGenerator.Permutation) (X Y : Int) (b : VertexBuffers K) :
    ∃ b2, addVertex a X Y b = some b2 := by
  obtain ⟨h, hh⟩ := vertexHeight_some a ht ((X : K) * a.GridSize) ((Y : K) * a.GridSize)
  simp only [addVertex, hh, Option.map_some']
  exact ⟨_, rfl⟩

theorem length_addVertex {a : AProceduralTerrainActor K} {X Y : Int} {b b2 : VertexBuffers K}
    (h : addVertex a X Y b = some b2) :
    b2.Vertices.length = b.Vertices.length + 1 ∧ b2.Normals.length = b.Normals.length + 1 ∧
      b2.UVs.length = b.UVs.length + 1 := by
  simp only [addVertex, Option.map_eq_some'] at h
  obtain ⟨_, -, rfl⟩ := h
  simp

theorem vertexColumnLoop_some (a : AProceduralTerrainActor K)
    (ht : TableInvariant a.NoiseGenerator.Permutation) (Y : Int) :
    ∀ (n : Nat) (b : VertexBuffers K), ∃ b2, vertexColumnLoop a Y n b = some b2 := by
  intro n
  induction n with
  | zero => exact fun b => ⟨b, rfl⟩
  | succ n ih => exact fun b => bind_some_of (ih b) fun b1 => addVertex_some a ht _ _ b1

theorem length_vertexColumnLoop (a : AProceduralTerrainActor K) (Y : Int) :
    ∀ (n : Nat) (b b2 : VertexBuffers K), vertexColumnLoop a Y n b = some b2 →
      b2.Vertices.length = b.Vertices.length + n ∧ b2.Normals.length = b.Normals.length + n ∧
        b2.UVs.length = b.UVs.length + n := by
  intro n
  induction n with
  | zero =>
    intro b b2 h
    cases h
    exact ⟨rfl, rfl, rfl⟩
  | succ n ih =>
    intro b b2 h
    simp only [vertexColumnLoop, Option.bind_eq_some] at h
    obtain ⟨b1, h1, h2⟩ := h
    obtain ⟨i1, i2, i3⟩ := ih b b1 h1
    obtain ⟨l1, l2, l3⟩ := length_addVertex h2
    exact ⟨by omega, by omega, by omega⟩

theorem vertexRowLoop_some (a : AProceduralTerrainActor K)
    (ht : TableInvariant a.NoiseGenerator.Permutation) :
    ∀ (n : Nat) (b : VertexBuffers K), ∃ b2, vertexRowLoop a n b = some b2 := by
  intro n
  induction n with
  | zero => exact fun b => ⟨b, rfl⟩
  | succ n ih =>
    exact fun b => bind_some_of (ih b) fun b1 => vertexColumnLoop_some a ht _ _ b1

theorem length_vertexRowLoop (a : AProceduralTerrainActor K) :
    ∀ (n : Nat) (b b2 : VertexBuffers K), vertexRowLoop a n b = some b2 →
      b2.Vertices.length = b.Vertices.length + n * (a.TerrainWidth + 1).toNat ∧
        b2.Normals.length = b.Normals.length + n * (a.TerrainWidth + 1).toNat ∧
        b2.UVs.length = b.UVs.length + n * (a.TerrainWidth + 1).toNat := by
  intro n
  induction n with
  | zero =>
    intro b b2 h
    cases h
    simp
  | succ n ih =>
    intro b b2 h
    simp only [vertexRowLoop, Option.bind_eq_some] at h
    obtain ⟨b1, h1, h2⟩ := h
    obtain ⟨i1, i2, i3⟩ := ih b b1 h1
    obtain ⟨l1, l2, l3⟩ := length_vertexColumnLoop a _ _ b1 b2 h2
    rw [l1, l2, l3, i1, i2, i3]
    refine ⟨?_, ?_, ?_⟩ <;> ring

theorem length_GenerateVertices {a : AProceduralTerrainActor K} {b : VertexBuffers K}
    (h : GenerateVertices a = some b) :
    b.Vertices.length = (a.TerrainHeight + 1).toNat * (a.TerrainWidth + 1).toNat ∧
      b.Normals.length = (a.TerrainHeight + 1).toNat * (a.TerrainWidth + 1).toNat ∧
      b.UVs.length = (a.TerrainHeight + 1).toNat * (a.TerrainWidth + 1).toNat := by
  have := length_vertexRowLoop a _ _ b h
  simpa using this

end VertexLemmas

/-! ## Claims on the terrain mesh -/

section MeshClaims

variable {K : Type} [LinearOrderedField K] [FloorRing K]

/-- C9: for `TerrainWidth ≥ 1` and `TerrainHeight ≥ 1`, every mesh `GenerateTerrain`
returns has exactly `(TerrainWidth + 1) * (TerrainHeight + 1)` vertices, as many normals,
UVs and vertex colours, and exactly `6 * TerrainWidth * TerrainHeight` triangle indices;
and `GenerateTerrain` does return a mesh when the draws of the reseeding shuffle are in
range. -/
theorem GenerateTerrain_sizes (rs : FRandomStream) (GetSafeNormal : FVector K → FVector K)
    (a : AProceduralTerrainActor K) (hW : 1 ≤ a.TerrainWidth) (hH : 1 ≤ a.TerrainHeight) :
    (∀ a2 m, GenerateTerrain rs GetSafeNormal a = some (a2, m) →
      (m.Vertices.length : Int) = (a.TerrainWidth + 1) * (a.TerrainHeight + 1) ∧
        m.Normals.length = m.Vertices.length ∧ m.UVs.length = m.Vertices.length ∧
        m.VertexColors.length = m.Vertices.length ∧
        (m.Triangles.length : Int) = 6 * a.TerrainWidth * a.TerrainHeight) ∧
      (DrawsInRange rs 255 (rs.init a.RandomSeed) →
        ∃ r, GenerateTerrain rs GetSafeNormal a = some r) := by
  have cW : (((a.TerrainWidth + 1).toNat : Nat) : Int) = a.TerrainWidth + 1 :=
    Int.toNat_of_nonneg (by omega)
  have cH : (((a.TerrainHeight + 1).toNat : Nat) : Int) = a.TerrainHeight + 1 :=
    Int.toNat_of_nonneg (by omega)
  have cW2 : ((a.TerrainWidth.toNat : Nat) : Int) = a.TerrainWidth :=
    Int.toNat_of_nonneg (by omega)
  have cH2 : ((a.TerrainHeight.toNat : Nat) : Int) = a.TerrainHeight :=
    Int.toNat_of_nonneg (by omega)
  constructor
  · intro a2 m h
    simp only [GenerateTerrain, Option.bind_eq_some, Option.some.injEq, Prod.mk.injEq] at h
    obtain ⟨gen, -, b, hb, N, hN, -, rfl⟩ := h
    obtain ⟨l1, -, l3⟩ := length_GenerateVertices hb
    refine ⟨?_, ?_, ?_, ?_, ?_⟩
    · show ((b.Vertices.length : Nat) : Int) = _
      rw [l1]
      push_cast
      rw [cW, cH]
      ring
    · exact length_CalculateNormals hN
    · show b.UVs.length = b.Vertices.length
      rw [l1, l3]
    · exact List.length_map _ _
    · show (((GenerateTriangles _).length : Nat) : Int) = _
      rw [length_GenerateTriangles]
      push_cast
      rw [cW2, cH2]
      ring
  · intro hd
    obtain ⟨tp, hseed, hinv⟩ := SetSeed_spec rs a.RandomSeed a.NoiseGenerator hd
    obtain ⟨b, hb⟩ := vertexRowLoop_some
      { a with NoiseGenerator := { Permutation := tp ++ tp, Seed := a.RandomSeed } }
      hinv.tableInvariant (a.TerrainHeight + 1).toNat
      { Vertices := [], Normals := [], UVs := [] }
    obtain ⟨l1, -, -⟩ := length_GenerateVertices hb
    have lV : (b.Vertices.length : Int) = (a.TerrainWidth + 1) * (a.TerrainHeight + 1) := by
      rw [l1]
      push_cast
      rw [cW, cH]
      ring
    obtain ⟨N, hN⟩ := CalculateNormals_some GetSafeNormal b.Vertices
      (GenerateTriangles
        { a with NoiseGenerator := { Permutation := tp ++ tp, Seed := a.RandomSeed } }) _
      (length_GenerateTriangles _)
      (fun i hi => by rw [lV]; exact GenerateTriangles_bound _ hi)
    simp only [GenerateTerrain, hseed, Option.some_bind]
    rw [show GenerateVertices
      { a with NoiseGenerator := { Permutation := tp ++ tp, Seed := a.RandomSeed } } = some b
      from hb]
    simp only [Option.some_bind, hN]
    exact ⟨_, rfl⟩

end MeshClaims

section TriangleClaims

variable {K : Type} [LinearOrderedField K]

/-- C10: for `TerrainWidth ≥ 1` and `TerrainHeight ≥ 1`, every index `k` emitted by
`GenerateTriangles` satisfies `0 ≤ k < (TerrainWidth + 1) * (TerrainHeight + 1)`, so that
`CalculateNormals` on these indices and any vertex array of that size performs no
out-of-range lookup: it returns. -/
theorem GenerateTriangles_in_bounds (a : AProceduralTerrainActor K)
    (_hW : 1 ≤ a.TerrainWidth) (_hH : 1 ≤ a.TerrainHeight) :
    (∀ k ∈ GenerateTriangles a,
        0 ≤ k ∧ k < (a.TerrainWidth + 1) * (a.TerrainHeight + 1)) ∧
      (∀ (GetSafeNormal : FVector K → FVector K) (Vertices : List (FVector K)),
        (Vertices.length : Int) = (a.TerrainWidth + 1) * (a.TerrainHeight + 1) →
          ∃ Normals, CalculateNormals GetSafeNormal Vertices (GenerateTriangles a) =
            some Normals) := by
  refine ⟨fun k hk => GenerateTriangles_bound a hk, fun gsn V hV => ?_⟩
  exact CalculateNormals_some gsn V (GenerateTriangles a) _ (length_GenerateTriangles a)
    (fun i hi => by rw [hV]; exact GenerateTriangles_bound a hi)

end TriangleClaims

theorem GenerateTerrain_sizes_witness :
    (1 : Int) ≤ sampleActor.TerrainWidth ∧ (1 : Int) ≤ sampleActor.TerrainHeight ∧
      DrawsInRange sampleStream 255 (sampleStream.init sampleActor.RandomSeed) ∧
      (∀ a2 m, GenerateTerrain sampleStream (fun v => v) sampleActor = some (a2, m) →
        (m.Vertices.length : Int) =
            (sampleActor.TerrainWidth + 1) * (sampleActor.TerrainHeight + 1) ∧
          m.Normals.length = m.Vertices.length ∧ m.UVs.length = m.Vertices.length ∧
          m.VertexColors.length = m.Vertices.length ∧
          (m.Triangles.length : Int) =
            6 * sampleActor.TerrainWidth * sampleActor.TerrainHeight) ∧
      ∃ r, GenerateTerrain sampleStream (fun v => v) sampleActor = some r :=
  ⟨by decide, by decide, sampleStream_drawsInRange 255 _,
    (GenerateTerrain_sizes sampleStream (fun v => v) sampleActor (by decide) (by decide)).1,
    (GenerateTerrain_sizes sampleStream (fun v => v) sampleActor (by decide) (by decide)).2
      (sampleStream_drawsInRange 255 _)⟩

theorem GenerateTriangles_in_bounds_witness :
    (1 : Int) ≤ sampleActor.TerrainWidth ∧ (1 : Int) ≤ sampleActor.TerrainHeight ∧
      (((List.replicate 9 (FVector.ZeroVector : FVector ℚ)).length : Nat) : Int) =
        (sampleActor.TerrainWidth + 1) * (sampleActor.TerrainHeight + 1) ∧
      (∀ k ∈ GenerateTriangles sampleActor,
        0 ≤ k ∧ k < (sampleActor.TerrainWidth + 1) * (sampleActor.TerrainHeight + 1)) ∧
      ∃ Normals, CalculateNormals (fun v => v)
        (List.replicate 9 (FVector.ZeroVector : FVector ℚ))
        (GenerateTriangles sampleActor) = some Normals :=
  ⟨by decide, by decide, by decide,
    (GenerateTriangles_in_bounds sampleActor (by decide) (by decide)).1,
    (GenerateTriangles_in_bounds sampleActor (by decide) (by decide)).2 (fun v => v)
      (List.replicate 9 (FVector.ZeroVector : FVector ℚ)) (by decide)⟩

/-! ## Layout of the generated arrays -/

/-- Entry `c * i + j` of a concatenation of blocks of `c` entries is entry `j` of block `i`. -/
theorem getElem?_flatMap_range {α : Type} (f : Nat → List α) (c : Nat)
    (hf : ∀ i, (f i).length = c) :
    ∀ (m i j : Nat), i < m → j < c → ((List.range m).flatMap f)[c * i + j]? = (f i)[j]? := by
  have hlen : ∀ m, ((List.range m).flatMap f).length = c * m := by
    intro m
    induction m with
    | zero => rfl
    | succ m ih =>
      rw [List.range_succ, List.flatMap_append, List.length_append, ih]
      simp [List.flatMap, hf, Nat.mul_succ]
  intro m
  induction m with
  | zero => intro i j hi _; omega
  | succ m ih =>
    intro i j hi hj
    rw [List.range_succ, List.flatMap_append]
    have hs : [m].flatMap f = f m := by simp [List.flatMap]
    rw [hs]
    by_cases h : i < m
    · have hlt : c * i + j < ((List.range m).flatMap f).length := by
        rw [hlen]
        calc c * i + j < c * i + c := by omega
          _ = c * (i + 1) := by ring
          _ ≤ c * m := Nat.mul_le_mul_left c h
      rw [List.getElem?_append_left hlt]
      exact ih i j h hj
    · have hi2 : i = m := by omega
      subst hi2
      rw [List.getElem?_append_right (by rw [hlen]; omega), hlen]
      congr 1
      omega

theorem triangleColumnLoop_eq (W Y : Int) (n : Nat) (t : List Int) :
    triangleColumnLoop W Y n t = t ++ (List.range n).flatMap fun x => quadIndices W (x : Int) Y := by
  induction n with
  | zero => simp [triangleColumnLoop]
  | succ n ih =>
    rw [triangleColumnLoop, ih, List.range_succ, List.flatMap_append, List.append_assoc]
    simp [List.flatMap]

theorem triangleRowLoop_eq (W : Int) (n : Nat) (t : List Int) :
    triangleRowLoop W n t = t ++ (List.range n).flatMap fun y =>
      (List.range W.toNat).flatMap fun x => quadIndices W (x : Int) (y : Int) := by
  induction n with
  | zero => simp [triangleRowLoop]
  | succ n ih =>
    rw [triangleRowLoop, triangleColumnLoop_eq, ih, List.range_succ, List.flatMap_append,
      List.append_assoc]
    simp [List.flatMap]

/-- Entry `6 * (y * W + x) + j` of the index list is entry `j` of the quad `(x, y)`. -/
theorem GenerateTriangles_getElem? {K : Type} (a : AProceduralTerrainActor K) (x y j : Nat)
    (hx : x < a.TerrainWidth.toNat) (hy : y < a.TerrainHeight.toNat) (hj : j < 6) :
    (GenerateTriangles a)[6 * (y * a.TerrainWidth.toNat + x) + j]? =
      (quadIndices a.TerrainWidth (x : Int) (y : Int))[j]? := by
  rw [GenerateTriangles, triangleRowLoop_eq, List.nil_append]
  have hrow : ∀ i : Nat, ((List.range a.TerrainWidth.toNat).flatMap fun x =>
      quadIndices a.TerrainWidth (x : Int) (i : Int)).length = 6 * a.TerrainWidth.toNat := by
    intro i
    have := length_triangleColumnLoop a.TerrainWidth (i : Int) a.TerrainWidth.toNat []
    rw [triangleColumnLoop_eq] at this
    simpa using this
  have e : 6 * (y * a.TerrainWidth.toNat + x) + j =
      6 * a.TerrainWidth.toNat * y + (6 * x + j) := by ring
  rw [e, getElem?_flatMap_range _ (6 * a.TerrainWidth.toNat) hrow _ y (6 * x + j) hy (by omega)]
  exact getElem?_flatMap_range _ 6 (fun i => length_quadIndices _ _ _) _ x j hx hj

theorem waterColumnLoop_eq (V Y : Int) (n : Nat) (t : List Int) :
    waterColumnLoop (V + 1) Y n t = triangleColumnLoop V Y n t := by
  induction n with
  | zero => rfl
  | succ n ih =>
    rw [waterColumnLoop, triangleColumnLoop, ih]
    rfl

theorem waterRowLoop_eq (S : Int) (n : Nat) (t : List Int) :
    waterRowLoop S (S + 1) n t = triangleRowLoop S n t := by
  induction n with
  | zero => rfl
  | succ n ih => rw [waterRowLoop, triangleRowLoop, ih, waterColumnLoop_eq]

/-! ## Claims on the triangle list -/

/-- C11: for every quad `(x, y)` with `0 ≤ x < TerrainWidth` and `0 ≤ y < TerrainHeight`,
the six indices of `GenerateTriangles` from offset `6 * (y * TerrainWidth + x)` on are
`(bl, tl, tr, bl, tr, br)` with `bl = y * (TerrainWidth + 1) + x`, `br = bl + 1`,
`tl = bl + TerrainWidth + 1`, `tr = tl + 1`, in that order. -/
theorem GenerateTriangles_quad {K : Type} (a : AProceduralTerrainActor K) (x y : Nat)
    (hx : (x : Int) < a.TerrainWidth) (hy : (y : Int) < a.TerrainHeight) :
    ((GenerateTriangles a).drop (6 * (y * a.TerrainWidth.toNat + x))).take 6 =
      [(y : Int) * (a.TerrainWidth + 1) + x,
       (y : Int) * (a.TerrainWidth + 1) + x + a.TerrainWidth + 1,
       (y : Int) * (a.TerrainWidth + 1) + x + a.TerrainWidth + 1 + 1,
       (y : Int) * (a.TerrainWidth + 1) + x,
       (y : Int) * (a.TerrainWidth + 1) + x + a.TerrainWidth + 1 + 1,
       (y : Int) * (a.TerrainWidth + 1) + x + 1] := by
  have hx2 : x < a.TerrainWidth.toNat := by omega
  have hy2 : y < a.TerrainHeight.toNat := by omega
  have hq : quadIndices a.TerrainWidth (x : Int) (y : Int) =
      [(y : Int) * (a.TerrainWidth + 1) + x,
       (y : Int) * (a.TerrainWidth + 1) + x + a.TerrainWidth + 1,
       (y : Int) * (a.TerrainWidth + 1) + x + a.TerrainWidth + 1 + 1,
       (y : Int) * (a.TerrainWidth + 1) + x,
       (y : Int) * (a.TerrainWidth + 1) + x + a.TerrainWidth + 1 + 1,
       (y : Int) * (a.TerrainWidth + 1) + x + 1] := by
    have e : ((y : Int) + 1) * (a.TerrainWidth + 1) + x =
        (y : Int) * (a.TerrainWidth + 1) + x + a.TerrainWidth + 1 := by ring
    simp only [quadIndices, e]
  rw [← hq]
  apply List.ext_getElem?
  intro j
  rw [List.getElem?_take, List.getElem?_drop]
  by_cases hj : j < 6
  · rw [if_pos hj]
    exact GenerateTriangles_getElem? a x y j hx2 hy2 hj
  · rw [if_neg hj, List.getElem?_eq_none (by rw [length_quadIndices]; omega)]

theorem GenerateTriangles_quad_witness :
    ((1 : Nat) : Int) < sampleActor.TerrainWidth ∧ ((1 : Nat) : Int) < sampleActor.TerrainHeight ∧
      ((GenerateTriangles sampleActor).drop (6 * (1 * sampleActor.TerrainWidth.toNat + 1))).take 6
        = [((1 : Nat) : Int) * (sampleActor.TerrainWidth + 1) + (1 : Nat),
           ((1 : Nat) : Int) * (sampleActor.TerrainWidth + 1) + (1 : Nat)
             + sampleActor.TerrainWidth + 1,
           ((1 : Nat) : Int) * (sampleActor.TerrainWidth + 1) + (1 : Nat)
             + sampleActor.TerrainWidth + 1 + 1,
           ((1 : Nat) : Int) * (sampleActor.TerrainWidth + 1) + (1 : Nat),
           ((1 : Nat) : Int) * (sampleActor.TerrainWidth + 1) + (1 : Nat)
             + sampleActor.TerrainWidth + 1 + 1,
           ((1 : Nat) : Int) * (sampleActor.TerrainWidth + 1) + (1 : Nat) + 1] :=
  ⟨by decide, by decide, GenerateTriangles_quad sampleActor 1 1 (by decide) (by decide)⟩

/-- C16: for every `n ≥ 1`, `GenerateWaterTriangles` with `Subdivisions = n` produces
exactly the index list `GenerateTriangles` produces with
`TerrainWidth = TerrainHeight = n`. -/
theorem GenerateWaterTriangles_eq_GenerateTriangles {K : Type} (n : Int) (_hn : 1 ≤ n)
    (w : ADynamicWaterActor K) (a : AProceduralTerrainActor K) (hw : w.Subdivisions = n)
    (hW : a.TerrainWidth = n) (hH : a.TerrainHeight = n) :
    GenerateWaterTriangles w = GenerateTriangles a := by
  simp only [GenerateWaterTriangles, GenerateTriangles, hw, hW, hH]
  exact waterRowLoop_eq n n.toNat []

theorem GenerateWaterTriangles_eq_GenerateTriangles_witness :
    (1 : Int) ≤ 2 ∧ (⟨1000, 1000, 0, 2⟩ : ADynamicWaterActor ℚ).Subdivisions = 2 ∧
      sampleActor.TerrainWidth = 2 ∧ sampleActor.TerrainHeight = 2 ∧
      GenerateWaterTriangles (⟨1000, 1000, 0, 2⟩ : ADynamicWaterActor ℚ) =
        GenerateTriangles sampleActor :=
  ⟨by decide, rfl, rfl, rfl,
    GenerateWaterTriangles_eq_GenerateTriangles 2 (by decide) ⟨1000, 1000, 0, 2⟩ sampleActor
      rfl rfl rfl⟩

section VertexLayout

variable {K : Type} [LinearOrderedField K] [FloorRing K]

/-- What one pass of the vertex loop appends: a vertex above the grid point and its UV. -/
theorem addVertex_spec {a : AProceduralTerrainActor K} {X Y : Int} {b b2 : VertexBuffers K}
    (h : addVertex a X Y b = some b2) :
    b2.Vertices.map (fun v => (v.X, v.Y)) =
        b.Vertices.map (fun v => (v.X, v.Y)) ++ [((X : K) * a.GridSize, (Y : K) * a.GridSize)] ∧
      b2.UVs = b.UVs ++ [⟨(X : K) / (a.TerrainWidth : K), (Y : K) / (a.TerrainHeight : K)⟩] := by
  simp only [addVertex, Option.map_eq_some'] at h
  obtain ⟨_, -, rfl⟩ := h
  simp

theorem vertexColumnLoop_spec (a : AProceduralTerrainActor K) (Y : Int) :
    ∀ (n : Nat) (b b2 : VertexBuffers K), vertexColumnLoop a Y n b = some b2 →
      b2.Vertices.map (fun v => (v.X, v.Y)) = b.Vertices.map (fun v => (v.X, v.Y)) ++
          (List.range n).map (fun x : Nat => ((x : K) * a.GridSize, (Y : K) * a.GridSize)) ∧
        b2.UVs = b.UVs ++ (List.range n).map (fun x : Nat =>
          (⟨(x : K) / (a.TerrainWidth : K), (Y : K) / (a.TerrainHeight : K)⟩ : FVector2D K)) := by
  intro n
  induction n with
  | zero =>
    intro b b2 h
    cases h
    simp
  | succ n ih =>
    intro b b2 h
    simp only [vertexColumnLoop, Option.bind_eq_some] at h
    obtain ⟨b1, h1, h2⟩ := h
    obtain ⟨i1, i2⟩ := ih b b1 h1
    obtain ⟨l1, l2⟩ := addVertex_spec h2
    rw [l1, l2, i1, i2, List.range_succ, List.map_append, List.map_append]
    simp

theorem vertexRowLoop_spec (a : AProceduralTerrainActor K) :
    ∀ (n : Nat) (b b2 : VertexBuffers K), vertexRowLoop a n b = some b2 →
      b2.Vertices.map (fun v => (v.X, v.Y)) = b.Vertices.map (fun v => (v.X, v.Y)) ++
          (List.range n).flatMap (fun y : Nat => (List.range (a.TerrainWidth + 1).toNat).map
            (fun x : Nat => ((x : K) * a.GridSize, (y : K) * a.GridSize))) ∧
        b2.UVs = b.UVs ++ (List.range n).flatMap (fun y : Nat =>
          (List.range (a.TerrainWidth + 1).toNat).map (fun x : Nat =>
            (⟨(x : K) / (a.TerrainWidth : K), (y : K) / (a.TerrainHeight : K)⟩ : FVector2D K))) := by
  intro n
  induction n with
  | zero =>
    intro b b2 h
    cases h
    simp
  | succ n ih =>
    intro b b2 h
    simp only [vertexRowLoop, Option.bind_eq_some] at h
    obtain ⟨b1, h1, h2⟩ := h
    obtain ⟨i1, i2⟩ := ih b b1 h1
    obtain ⟨l1, l2⟩ := vertexColumnLoop_spec a _ _ b1 b2 h2
    rw [l1, l2, i1, i2, List.range_succ, List.flatMap_append, List.flatMap_append]
    simp [List.flatMap]

/-- The vertex and the UV stored for the grid point `(x, y)`. -/
theorem GenerateVertices_getElem? {a : AProceduralTerrainActor K} {b : VertexBuffers K}
    (h : GenerateVertices a = some b) (x y : Nat) (hx : x < (a.TerrainWidth + 1).toNat)
    (hy : y < (a.TerrainHeight + 1).toNat) :
    (∃ v, b.Vertices[y * (a.TerrainWidth + 1).toNat + x]? = some v ∧
        v.X = (x : K) * a.GridSize ∧ v.Y = (y : K) * a.GridSize) ∧
      b.UVs[y * (a.TerrainWidth + 1).toNat + x]? =
        some ⟨(x : K) / (a.TerrainWidth : K), (y : K) / (a.TerrainHeight : K)⟩ := by
  obtain ⟨h1, h2⟩ := vertexRowLoop_spec a _ _ b h
  simp only [List.map_nil, List.nil_append] at h1 h2
  have e : y * (a.TerrainWidth + 1).toNat + x = (a.TerrainWidth + 1).toNat * y + x := by ring
  constructor
  · have hg := getElem?_flatMap_range (fun y : Nat => (List.range (a.TerrainWidth + 1).toNat).map
        (fun x : Nat => ((x : K) * a.GridSize, (y : K) * a.GridSize)))
      (a.TerrainWidth + 1).toNat (fun i => by simp) _ y x hy hx
    rw [← h1, List.getElem?_map, List.getElem?_map, List.getElem?_range hx, ← e] at hg
    cases hv : b.Vertices[y * (a.TerrainWidth + 1).toNat + x]? with
    | none => rw [hv] at hg; simp at hg
    | some v =>
      rw [hv] at hg
      simp only [Option.map_some', Option.some.injEq, Prod.mk.injEq] at hg
      exact ⟨v, rfl, hg.1, hg.2⟩
  · have hg := getElem?_flatMap_range (fun y : Nat => (List.range (a.TerrainWidth + 1).toNat).map
        (fun x : Nat =>
          (⟨(x : K) / (a.TerrainWidth : K), (y : K) / (a.TerrainHeight : K)⟩ : FVector2D K)))
      (a.TerrainWidth + 1).toNat (fun i => by simp) _ y x hy hx
    rw [← h2, List.getElem?_map, List.getElem?_range hx, ← e] at hg
    rw [hg]
    rfl

/-- C17: for `TerrainWidth ≥ 1`, `TerrainHeight ≥ 1` and every grid point
`0 ≤ x ≤ TerrainWidth`, `0 ≤ y ≤ TerrainHeight`, the vertex `GenerateVertices` stores at
index `y * (TerrainWidth + 1) + x` has `X = x * GridSize` and `Y = y * GridSize`, and its UV
is `(x / TerrainWidth, y / TerrainHeight)` with both components in `[0, 1]`; the indices of
the quad `(x, y)` are those of the grid points `(x, y)`, `(x, y+1)`, `(x+1, y+1)`, `(x, y)`,
`(x+1, y+1)`, `(x+1, y)`; and `GenerateVertices` returns when the table has its invariant. -/
theorem GenerateVertices_layout (a : AProceduralTerrainActor K) (hW : 1 ≤ a.TerrainWidth)
    (hH : 1 ≤ a.TerrainHeight) :
    (∀ b, GenerateVertices a = some b → ∀ x y : Nat, (x : Int) ≤ a.TerrainWidth →
        (y : Int) ≤ a.TerrainHeight →
        (∃ v, readAt b.Vertices ((y : Int) * (a.TerrainWidth + 1) + x) = some v ∧
          v.X = (x : K) * a.GridSize ∧ v.Y = (y : K) * a.GridSize) ∧
        readAt b.UVs ((y : Int) * (a.TerrainWidth + 1) + x) =
          some ⟨(x : K) / (a.TerrainWidth : K), (y : K) / (a.TerrainHeight : K)⟩ ∧
        0 ≤ (x : K) / (a.TerrainWidth : K) ∧ (x : K) / (a.TerrainWidth : K) ≤ 1 ∧
        0 ≤ (y : K) / (a.TerrainHeight : K) ∧ (y : K) / (a.TerrainHeight : K) ≤ 1) ∧
      (∀ x y : Int, quadIndices a.TerrainWidth x y =
        [y * (a.TerrainWidth + 1) + x, (y + 1) * (a.TerrainWidth + 1) + x,
         (y + 1) * (a.TerrainWidth + 1) + (x + 1), y * (a.TerrainWidth + 1) + x,
         (y + 1) * (a.TerrainWidth + 1) + (x + 1), y * (a.TerrainWidth + 1) + (x + 1)]) ∧
      (TableInvariant a.NoiseGenerator.Permutation → ∃ b, GenerateVertices a = some b) := by
  refine ⟨fun b hb x y hx hy => ?_, fun x y => ?_, fun ht => vertexRowLoop_some a ht _ _⟩
  · have cW : (((a.TerrainWidth + 1).toNat : Nat) : Int) = a.TerrainWidth + 1 :=
      Int.toNat_of_nonneg (by omega)
    have e : (y : Int) * (a.TerrainWidth + 1) + x =
        ((y * (a.TerrainWidth + 1).toNat + x : Nat) : Int) := by
      push_cast
      rw [cW]
    obtain ⟨hv, hu⟩ := GenerateVertices_getElem? hb x y (by omega) (by omega)
    have pW : (0 : K) < (a.TerrainWidth : K) := by exact_mod_cast (by omega : 0 < a.TerrainWidth)
    have pH : (0 : K) < (a.TerrainHeight : K) := by
      exact_mod_cast (by omega : 0 < a.TerrainHeight)
    have xW : (x : K) ≤ (a.TerrainWidth : K) := by exact_mod_cast hx
    have yH : (y : K) ≤ (a.TerrainHeight : K) := by exact_mod_cast hy
    rw [e, readAt_natCast, readAt_natCast]
    refine ⟨hv, hu, div_nonneg (Nat.cast_nonneg x) pW.le, ?_, div_nonneg (Nat.cast_nonneg y) pH.le,
      ?_⟩
    · rw [div_le_one pW]; exact xW
    · rw [div_le_one pH]; exact yH
  · simp only [quadIndices]
    simp only [add_assoc]

end VertexLayout

theorem GenerateVertices_layout_witness :
    (1 : Int) ≤ sampleActor.TerrainWidth ∧ (1 : Int) ≤ sampleActor.TerrainHeight ∧
      TableInvariant sampleActor.NoiseGenerator.Permutation ∧
      (∀ b, GenerateVertices sampleActor = some b → ∀ x y : Nat,
        (x : Int) ≤ sampleActor.TerrainWidth → (y : Int) ≤ sampleActor.TerrainHeight →
        (∃ v, readAt b.Vertices ((y : Int) * (sampleActor.TerrainWidth + 1) + x) = some v ∧
          v.X = (x : ℚ) * sampleActor.GridSize ∧ v.Y = (y : ℚ) * sampleActor.GridSize) ∧
        readAt b.UVs ((y : Int) * (sampleActor.TerrainWidth + 1) + x) =
          some ⟨(x : ℚ) / (sampleActor.TerrainWidth : ℚ),
            (y : ℚ) / (sampleActor.TerrainHeight : ℚ)⟩ ∧
        0 ≤ (x : ℚ) / (sampleActor.TerrainWidth : ℚ) ∧
        (x : ℚ) / (sampleActor.TerrainWidth : ℚ) ≤ 1 ∧
        0 ≤ (y : ℚ) / (sampleActor.TerrainHeight : ℚ) ∧
        (y : ℚ) / (sampleActor.TerrainHeight : ℚ) ≤ 1) ∧
      (∀ x y : Int, quadIndices sampleActor.TerrainWidth x y =
        [y * (sampleActor.TerrainWidth + 1) + x, (y + 1) * (sampleActor.TerrainWidth + 1) + x,
         (y + 1) * (sampleActor.TerrainWidth + 1) + (x + 1),
         y * (sampleActor.TerrainWidth + 1) + x,
         (y + 1) * (sampleActor.TerrainWidth + 1) + (x + 1),
         y * (sampleActor.TerrainWidth + 1) + (x + 1)]) ∧
      ∃ b, GenerateVertices sampleActor = some b :=
  ⟨by decide, by decide, defaultGenerator_invariant.tableInvariant,
    (GenerateVertices_layout sampleActor (by decide) (by decide)).1,
    (GenerateVertices_layout sampleActor (by decide) (by decide)).2.1,
    (GenerateVertices_layout sampleActor (by decide) (by decide)).2.2
      defaultGenerator_invariant.tableInvariant⟩

/-! ## Claims on the gradients and the table reads -/

section GradientClaims

variable {K : Type} [LinearOrderedField K]

/-- The value of `Gradient3D` in the bucket `H = Hash & 15`. -/
theorem Gradient3D_bucket (H : Int) (h0 : 0 ≤ H) (h1 : H < 16) (Hash : Int)
    (hh : Hash % 16 = H) (x y z : K) :
    Gradient3D Hash x y z =
      ((hashEdges3D.getD H.toNat (0, 0, 0)).1 : K) * x +
        ((hashEdges3D.getD H.toNat (0, 0, 0)).2.1 : K) * y +
        ((hashEdges3D.getD H.toNat (0, 0, 0)).2.2 : K) * z := by
  unfold Gradient3D
  simp only [hh]
  interval_cases H <;> simp [hashEdges3D, edgeVectors] <;> ring

theorem hashEdges3D_mem (H : Int) (h0 : 0 ≤ H) (h1 : H < 16) :
    hashEdges3D.getD H.toNat (0, 0, 0) ∈ edgeVectors := by
  interval_cases H <;> decide

/-- C19: `Gradient3D(hash, x, y, z)` depends only on `hash & 15`, it is the dot product of
`(x, y, z)` with one of the twelve cube-edge vectors, and each of the twelve edge vectors
is the one selected by some bucket `0 ≤ h < 16`. -/
theorem Gradient3D_edge_vectors :
    (∀ (h₁ h₂ : Int), h₁ % 16 = h₂ % 16 →
        ∀ x y z : K, Gradient3D h₁ x y z = Gradient3D h₂ x y z) ∧
      (∀ Hash : Int, ∃ e ∈ edgeVectors,
        ∀ x y z : K, Gradient3D Hash x y z = (e.1 : K) * x + (e.2.1 : K) * y + (e.2.2 : K) * z) ∧
      (∀ e ∈ edgeVectors, ∃ h : Int, 0 ≤ h ∧ h < 16 ∧
        ∀ x y z : K, Gradient3D h x y z = (e.1 : K) * x + (e.2.1 : K) * y + (e.2.2 : K) * z) := by
  have b0 : ∀ Hash : Int, 0 ≤ Hash % 16 := fun Hash => Int.emod_nonneg _ (by norm_num)
  have b1 : ∀ Hash : Int, Hash % 16 < 16 := fun Hash => Int.emod_lt_of_pos _ (by norm_num)
  refine ⟨fun h₁ h₂ hh x y z => ?_, fun Hash => ?_, fun e he => ?_⟩
  · rw [Gradient3D_bucket (h₁ % 16) (b0 _) (b1 _) h₁ rfl,
      Gradient3D_bucket (h₁ % 16) (b0 _) (b1 _) h₂ hh.symm]
  · exact ⟨_, hashEdges3D_mem (Hash % 16) (b0 _) (b1 _),
      fun x y z => Gradient3D_bucket (Hash % 16) (b0 _) (b1 _) Hash rfl x y z⟩
  · obtain ⟨n, hn, rfl⟩ := List.getElem_of_mem he
    have hn12 : n < 12 := hn
    refine ⟨(n : Int), by omega, by omega, fun x y z => ?_⟩
    have hb := Gradient3D_bucket (n : Int) (by omega) (by omega) (n : Int)
      (Int.emod_eq_of_lt (by omega) (by omega)) x y z
    have hg : hashEdges3D.getD (n : Int).toNat (0, 0, 0) = edgeVectors[n] := by
      rw [Int.toNat_natCast, hashEdges3D, List.getD_eq_getElem?_getD,
        List.getElem?_append_left hn, List.getElem?_eq_getElem hn]
      rfl
    rw [hg] at hb
    exact hb

theorem cornerBlend3D_some {t : List Int} (ht : TableInvariant t) (AA AB BA BB : Int)
    (hAA : 0 ≤ AA ∧ AA ≤ 510) (hAB : 0 ≤ AB ∧ AB ≤ 510) (hBA : 0 ≤ BA ∧ BA ≤ 510)
    (hBB : 0 ≤ BB ∧ BB ≤ 510) (Xf Yf Zf : K) :
    ∃ v, cornerBlend3D t AA AB BA BB Xf Yf Zf = some v := by
  obtain ⟨h1, e1, -⟩ := ht.readAt AA (by omega) (by omega)
  obtain ⟨h2, e2, -⟩ := ht.readAt BA (by omega) (by omega)
  obtain ⟨h3, e3, -⟩ := ht.readAt AB (by omega) (by omega)
  obtain ⟨h4, e4, -⟩ := ht.readAt BB (by omega) (by omega)
  obtain ⟨h5, e5, -⟩ := ht.readAt (AA + 1) (by omega) (by omega)
  obtain ⟨h6, e6, -⟩ := ht.readAt (BA + 1) (by omega) (by omega)
  obtain ⟨h7, e7, -⟩ := ht.readAt (AB + 1) (by omega) (by omega)
  obtain ⟨h8, e8, -⟩ := ht.readAt (BB + 1) (by omega) (by omega)
  simp only [cornerBlend3D, e1, e2, e3, e4, e5, e6, e7, e8, Option.some_bind]
  exact ⟨_, rfl⟩

end GradientClaims

section ReadClaims

variable {K : Type} [LinearOrderedField K] [FloorRing K]

theorem cornerHashes3D_some {t : List Int} (ht : TableInvariant t) (Xi Yi Zi : Int)
    (hx0 : 0 ≤ Xi) (hx1 : Xi ≤ 255) (hy0 : 0 ≤ Yi) (hy1 : Yi ≤ 255) (hz0 : 0 ≤ Zi)
    (hz1 : Zi ≤ 255) :
    ∃ AA AB BA BB, cornerHashes3D t Xi Yi Zi = some (AA, AB, BA, BB) ∧
      (0 ≤ AA ∧ AA ≤ 510) ∧ (0 ≤ AB ∧ AB ≤ 510) ∧ (0 ≤ BA ∧ BA ≤ 510) ∧
      (0 ≤ BB ∧ BB ≤ 510) := by
  obtain ⟨pX, hpX, a0, a1⟩ := ht.readAt Xi hx0 (by omega)
  obtain ⟨pA, hpA, b0, b1⟩ := ht.readAt (pX + Yi) (by omega) (by omega)
  obtain ⟨pA1, hpA1, c0, c1⟩ := ht.readAt (pX + Yi + 1) (by omega) (by omega)
  obtain ⟨pX1, hpX1, d0, d1⟩ := ht.readAt (Xi + 1) (by omega) (by omega)
  obtain ⟨pB, hpB, e0, e1⟩ := ht.readAt (pX1 + Yi) (by omega) (by omega)
  obtain ⟨pB1, hpB1, f0, f1⟩ := ht.readAt (pX1 + Yi + 1) (by omega) (by omega)
  refine ⟨pA + Zi, pA1 + Zi, pB + Zi, pB1 + Zi, ?_, ?_, ?_, ?_, ?_⟩
  · simp only [cornerHashes3D, hpX, hpA, hpA1, hpX1, hpB, hpB1, Option.some_bind]
  all_goals constructor <;> omega

/-- Under the table invariant `GeneratePerlinNoise3D` returns for all arguments. -/
theorem GeneratePerlinNoise3D_some (g : UNoiseGenerator) (ht : TableInvariant g.Permutation)
    (X Y Z Scale : K) : ∃ v, GeneratePerlinNoise3D g X Y Z Scale = some v := by
  obtain ⟨AA, AB, BA, BB, hc, hAA, hAB, hBA, hBB⟩ := cornerHashes3D_some ht
    (⌊X / clampScale Scale⌋ % 256) (⌊Y / clampScale Scale⌋ % 256) (⌊Z / clampScale Scale⌋ % 256)
    (by omega) (by omega) (by omega) (by omega) (by omega) (by omega)
  obtain ⟨v, hv⟩ := cornerBlend3D_some ht AA AB BA BB hAA hAB hBA hBB
    (X / clampScale Scale - (⌊X / clampScale Scale⌋ : K))
    (Y / clampScale Scale - (⌊Y / clampScale Scale⌋ : K))
    (Z / clampScale Scale - (⌊Z / clampScale Scale⌋ : K))
  simp only [GeneratePerlinNoise3D, hc, Option.some_bind, hv]
  exact ⟨_, rfl⟩

theorem readAt_isSome_iff {t : List Int} (hlen : t.length = 512) (i : Int) :
    (readAt t i).isSome = true ↔ 0 ≤ i ∧ i ≤ 511 := by
  unfold readAt
  split_ifs with h
  · by_cases hlt : i.toNat < t.length
    · rw [List.getElem?_eq_getElem hlt]
      simp only [Option.isSome_some, true_iff]
      omega
    · rw [List.getElem?_eq_none (by omega)]
      simp only [Option.isSome_none, Bool.false_eq_true, false_iff]
      omega
  · simp only [Option.isSome_none, Bool.false_eq_true, false_iff]
    omega

/-- C20: under the table invariant (512 entries, each in `[0, 255]`) a read of `Permutation`
succeeds exactly at the indices of `[0, 511]`, and `GeneratePerlinNoise2D`,
`GeneratePerlinNoise3D` and `GenerateSimplexNoise2D` return for all inputs, negative
coordinates included: none of their reads is out of bounds. -/
theorem noise_reads_in_bounds (g : UNoiseGenerator) (ht : TableInvariant g.Permutation) :
    (∀ i : Int, (readAt g.Permutation i).isSome = true ↔ 0 ≤ i ∧ i ≤ 511) ∧
      (∀ (X Y Scale : K) (Octaves : Int) (Persistence Lacunarity : K),
        ∃ v, GeneratePerlinNoise2D g X Y Scale Octaves Persistence Lacunarity = some v) ∧
      (∀ X Y Z Scale : K, ∃ v, GeneratePerlinNoise3D g X Y Z Scale = some v) ∧
      (∀ X Y Scale : K, ∃ v, GenerateSimplexNoise2D g X Y Scale = some v) :=
  ⟨readAt_isSome_iff ht.1, GeneratePerlinNoise2D_some g ht, GeneratePerlinNoise3D_some g ht,
    GenerateSimplexNoise2D_some g ht⟩

end ReadClaims

theorem noise_reads_in_bounds_witness :
    TableInvariant defaultGenerator.Permutation ∧
      (∀ i : Int, (readAt defaultGenerator.Permutation i).isSome = true ↔ 0 ≤ i ∧ i ≤ 511) ∧
      (∀ (X Y Scale : ℚ) (Octaves : Int) (Persistence Lacunarity : ℚ),
        ∃ v, GeneratePerlinNoise2D defaultGenerator X Y Scale Octaves Persistence Lacunarity =
          some v) ∧
      (∀ X Y Z Scale : ℚ, ∃ v, GeneratePerlinNoise3D defaultGenerator X Y Z Scale = some v) ∧
      (∀ X Y Scale : ℚ, ∃ v, GenerateSimplexNoise2D defaultGenerator X Y Scale = some v) :=
  ⟨defaultGenerator_invariant.tableInvariant,
    noise_reads_in_bounds defaultGenerator defaultGenerator_invariant.tableInvariant⟩

/-! ## Normalisation lemmas -/

section NormalLemmas

variable {K : Type} [LinearOrderedField K]

theorem SMALL_NUMBER_pos : (0 : K) < SMALL_NUMBER := by
  unfold SMALL_NUMBER
  norm_num

theorem GetSafeNormal_zero (InvSqrt : K → K) :
    FVector.GetSafeNormal InvSqrt SMALL_NUMBER (FVector.ZeroVector : FVector K) =
      FVector.ZeroVector := by
  have h := SMALL_NUMBER_pos (K := K)
  simp [FVector.GetSafeNormal, FVector.ZeroVector, h]

/-- A vector whose squared length reaches the tolerance is normalised to length 1. -/
theorem GetSafeNormal_unit {InvSqrt : K → K} (hI : ExactInvSqrt InvSqrt) (v : FVector K)
    (hv : SMALL_NUMBER ≤ v.SizeSquared) :
    (FVector.GetSafeNormal InvSqrt SMALL_NUMBER v).SizeSquared = 1 := by
  have hpos : 0 < v.X * v.X + v.Y * v.Y + v.Z * v.Z := lt_of_lt_of_le SMALL_NUMBER_pos hv
  unfold FVector.GetSafeNormal
  dsimp only
  split_ifs with h1 h2
  · exact h1
  · exact absurd hv (not_le.2 h2)
  · have e := hI _ hpos
    simp only [FVector.SizeSquared]
    calc v.X * InvSqrt (v.X * v.X + v.Y * v.Y + v.Z * v.Z) *
          (v.X * InvSqrt (v.X * v.X + v.Y * v.Y + v.Z * v.Z)) +
        v.Y * InvSqrt (v.X * v.X + v.Y * v.Y + v.Z * v.Z) *
          (v.Y * InvSqrt (v.X * v.X + v.Y * v.Y + v.Z * v.Z)) +
        v.Z * InvSqrt (v.X * v.X + v.Y * v.Y + v.Z * v.Z) *
          (v.Z * InvSqrt (v.X * v.X + v.Y * v.Y + v.Z * v.Z))
        = InvSqrt (v.X * v.X + v.Y * v.Y + v.Z * v.Z) *
            InvSqrt (v.X * v.X + v.Y * v.Y + v.Z * v.Z) *
            (v.X * v.X + v.Y * v.Y + v.Z * v.Z) := by ring
      _ = 1 := e

/-- A vector whose squared length is below the tolerance `SMALL_NUMBER` normalises to the
zero vector. -/
theorem GetSafeNormal_below (InvSqrt : K → K) (v : FVector K)
    (h : v.SizeSquared < SMALL_NUMBER) :
    FVector.GetSafeNormal InvSqrt SMALL_NUMBER v = FVector.ZeroVector := by
  unfold FVector.SizeSquared at h
  have h1 : ¬ v.X * v.X + v.Y * v.Y + v.Z * v.Z = 1 := by
    intro e
    rw [e] at h
    exact absurd h (not_lt.2 (by unfold SMALL_NUMBER; norm_num))
  simp only [FVector.GetSafeNormal, if_neg h1, if_pos h]

/-- The result of the safe normalisation is the zero vector or a unit vector. -/
theorem GetSafeNormal_zero_or_unit {InvSqrt : K → K} (hI : ExactInvSqrt InvSqrt)
    (v : FVector K) :
    FVector.GetSafeNormal InvSqrt SMALL_NUMBER v = FVector.ZeroVector ∨
      (FVector.GetSafeNormal InvSqrt SMALL_NUMBER v).SizeSquared = 1 := by
  by_cases hv : SMALL_NUMBER ≤ v.SizeSquared
  · exact Or.inr (GetSafeNormal_unit hI v hv)
  · left
    have hlt : v.X * v.X + v.Y * v.Y + v.Z * v.Z < SMALL_NUMBER := not_le.1 hv
    have hne : ¬ v.X * v.X + v.Y * v.Y + v.Z * v.Z = 1 := by
      intro h
      rw [h] at hlt
      unfold SMALL_NUMBER at hlt
      norm_num at hlt
    unfold FVector.GetSafeNormal
    dsimp only
    rw [if_neg hne, if_pos hlt]

theorem mem_triangleTriples {T : List Int} {t : Int × Int × Int} :
    ∀ (n : Nat), T.length ≤ n → t ∈ triangleTriples T → t.1 ∈ T ∧ t.2.1 ∈ T ∧ t.2.2 ∈ T := by
  intro n
  induction n generalizing T with
  | zero =>
    intro hT h
    obtain rfl : T = [] := List.length_eq_zero.1 (Nat.le_zero.1 hT)
    simp [triangleTriples] at h
  | succ n ih =>
    intro hT h
    match T, hT, h with
    | [], _, h => simp [triangleTriples] at h
    | [_], _, h => simp [triangleTriples] at h
    | [_, _], _, h => simp [triangleTriples] at h
    | i0 :: i1 :: i2 :: rest, hT, h =>
      simp only [triangleTriples, List.mem_cons] at h
      rcases h with rfl | h
      · simp
      · have hl : rest.length ≤ n := by
          simp only [List.length_cons] at hT
          omega
        obtain ⟨a, b, c⟩ := ih hl h
        simp [a, b, c]

/-- A vertex index that occurs in no triangle has no face normal to sum. -/
theorem occurrenceNormals_of_not_mem (gsn : FVector K → FVector K) (V : List (FVector K))
    (T : List Int) (v : Int) (hv : v ∉ T) : occurrenceNormals gsn V T v = [] := by
  unfold occurrenceNormals
  rw [List.flatMap_eq_nil_iff]
  intro t ht
  obtain ⟨a, b, c⟩ := mem_triangleTriples T.length (le_refl _) ht
  have h1 : t.1 ≠ v := fun h => hv (h ▸ a)
  have h2 : t.2.1 ≠ v := fun h => hv (h ▸ b)
  have h3 : t.2.2 ≠ v := fun h => hv (h ▸ c)
  simp [h1, h2, h3]

theorem addAt_getElem? {N N2 : List (FVector K)} {i : Int} {F : FVector K}
    (h : addAt N i F = some N2) (v : Nat) :
    N2[v]? = if i = (v : Int) then (N[v]?).map (fun n => n.add F) else N[v]? := by
  simp only [addAt, Option.bind_eq_some] at h
  obtain ⟨n, hn, hw⟩ := h
  unfold writeAt at hw
  split_ifs at hw with hc
  obtain ⟨h0, hlt⟩ := hc
  cases hw
  unfold readAt at hn
  rw [if_pos h0] at hn
  rw [List.getElem?_set]
  by_cases hiv : i = (v : Int)
  · have e : i.toNat = v := by omega
    rw [if_pos e, if_pos hlt, if_pos hiv, ← e, hn]
    rfl
  · have e : ¬ i.toNat = v := by omega
    rw [if_neg e, if_neg hiv]

/-- Entry `v` of the accumulators after the loop: the former entry plus the face normals of
the occurrences of `v`, added in the order of the triangle list. -/
theorem accumulateFaceNormals_getElem? (gsn : FVector K → FVector K) (V : List (FVector K)) :
    ∀ (n : Nat) (T : List Int) (N N2 : List (FVector K)), T.length ≤ n →
      accumulateFaceNormals gsn V T N = some N2 → ∀ v : Nat,
        N2[v]? = (N[v]?).map fun a =>
          (occurrenceNormals gsn V T (v : Int)).foldl FVector.add a := by
  intro n
  induction n with
  | zero =>
    intro T N N2 hT h v
    obtain rfl : T = [] := List.length_eq_zero.1 (Nat.le_zero.1 hT)
    simp only [accumulateFaceNormals, Option.some.injEq] at h
    subst h
    simp [occurrenceNormals, triangleTriples]
  | succ n ih =>
    intro T N N2 hT h v
    match T, hT, h with
    | [], _, h =>
      simp only [accumulateFaceNormals, Option.some.injEq] at h
      subst h
      simp [occurrenceNormals, triangleTriples]
    | [_], _, h => simp [accumulateFaceNormals] at h
    | [_, _], _, h => simp [accumulateFaceNormals] at h
    | i0 :: i1 :: i2 :: rest, hT, h =>
      simp only [accumulateFaceNormals, Option.bind_eq_some] at h
      obtain ⟨v0, hv0, v1, hv1, v2, hv2, N3, h3, N4, h4, N5, h5, hrest⟩ := h
      have hl : rest.length ≤ n := by
        simp only [List.length_cons] at hT
        omega
      have hocc : occurrenceNormals gsn V (i0 :: i1 :: i2 :: rest) (v : Int) =
          (([i0, i1, i2].filter fun i => i = (v : Int)).map fun _ =>
            gsn ((v1.sub v0).CrossProduct (v2.sub v0))) ++
          occurrenceNormals gsn V rest (v : Int) := by
        simp only [occurrenceNormals, triangleTriples, List.flatMap_cons, faceNormal, hv0, hv1,
          hv2, Option.getD_some]
      rw [ih rest N5 N2 hl hrest v, addAt_getElem? h5 v, addAt_getElem? h4 v,
        addAt_getElem? h3 v, hocc]
      simp only [List.foldl_append]
      cases hN : N[v]? with
      | none => simp
      | some a =>
        by_cases c0 : i0 = (v : Int) <;> by_cases c1 : i1 = (v : Int) <;>
          by_cases c2 : i2 = (v : Int) <;> simp [c0, c1, c2, List.filter]

/-- The normal `CalculateNormals` returns at a vertex is the one the specification words. -/
theorem CalculateNormals_getElem? {gsn : FVector K → FVector K} {V N : List (FVector K)}
    {T : List Int} (h : CalculateNormals gsn V T = some N) (v : Nat) (hv : v < V.length) :
    N[v]? = some (specVertexNormal gsn V T (v : Int)) := by
  simp only [CalculateNormals, Option.map_eq_some'] at h
  obtain ⟨N2, h2, rfl⟩ := h
  rw [List.getElem?_map, accumulateFaceNormals_getElem? gsn V T.length T _ N2 (le_refl _) h2 v,
    List.getElem?_replicate, if_pos hv]
  rfl

end NormalLemmas

/-! ## Claims on the normals and the colours -/

section NormalClaims

variable {K : Type} [LinearOrderedField K]

/-- C13: for every vertex list and every triangle list with in-range indices,
`CalculateNormals` returns, and each normal it returns is the zero vector or has squared
Euclidean length exactly 1 (over exact arithmetic, with an exact inverse square root). -/
theorem CalculateNormals_zero_or_unit (InvSqrt : K → K) (hI : ExactInvSqrt InvSqrt)
    (Vertices : List (FVector K)) (Triangles : List Int)
    (hT : ∃ k, Triangles.length = 3 * k)
    (hb : ∀ i ∈ Triangles, 0 ≤ i ∧ i < (Vertices.length : Int)) :
    ∃ Normals, CalculateNormals (FVector.GetSafeNormal InvSqrt SMALL_NUMBER) Vertices
        Triangles = some Normals ∧
      ∀ n ∈ Normals, n = FVector.ZeroVector ∨ n.SizeSquared = 1 := by
  obtain ⟨k, hk⟩ := hT
  obtain ⟨N, hN⟩ := CalculateNormals_some (FVector.GetSafeNormal InvSqrt SMALL_NUMBER)
    Vertices Triangles k hk hb
  refine ⟨N, hN, fun n hn => ?_⟩
  simp only [CalculateNormals, Option.map_eq_some'] at hN
  obtain ⟨N2, -, rfl⟩ := hN
  obtain ⟨a, -, rfl⟩ := List.mem_map.1 hn
  exact GetSafeNormal_zero_or_unit hI a

/-- C15: for every vertex list, every in-range triangle list and every vertex index `v`
that occurs in no triangle, `CalculateNormals` returns the zero vector at `v`. -/
theorem CalculateNormals_unused_vertex (InvSqrt : K → K) (Vertices : List (FVector K))
    (Triangles : List Int) (hT : ∃ k, Triangles.length = 3 * k)
    (hb : ∀ i ∈ Triangles, 0 ≤ i ∧ i < (Vertices.length : Int)) (v : Nat)
    (hv : v < Vertices.length) (hno : (v : Int) ∉ Triangles) :
    ∃ Normals, CalculateNormals (FVector.GetSafeNormal InvSqrt SMALL_NUMBER) Vertices
        Triangles = some Normals ∧ Normals[v]? = some FVector.ZeroVector := by
  obtain ⟨k, hk⟩ := hT
  obtain ⟨N, hN⟩ := CalculateNormals_some (FVector.GetSafeNormal InvSqrt SMALL_NUMBER)
    Vertices Triangles k hk hb
  refine ⟨N, hN, ?_⟩
  rw [CalculateNormals_getElem? hN v hv, specVertexNormal,
    occurrenceNormals_of_not_mem _ _ _ _ hno, List.foldl_nil, GetSafeNormal_zero]

/-- C18, as amended: for every vertex list and in-range triangle list, the normal
`CalculateNormals` returns at vertex `v` is the safe-normalisation of the sum, over every
occurrence of `v` in a triangle `(V0, V1, V2)`, of the safe-normalised cross product
`(V1 - V0) x (V2 - V0)`; over exact arithmetic with an exact inverse square root, every
triangle whose cross product has squared length at least the tolerance `SMALL_NUMBER` of the
safe-normalisation contributes a vector of length exactly 1, whatever its area above that,
and every triangle whose cross product has squared length below that tolerance contributes
the zero vector. -/
theorem CalculateNormals_equal_weights (InvSqrt : K → K) (hI : ExactInvSqrt InvSqrt)
    (Vertices : List (FVector K)) (Triangles : List Int)
    (hT : ∃ k, Triangles.length = 3 * k)
    (hb : ∀ i ∈ Triangles, 0 ≤ i ∧ i < (Vertices.length : Int)) :
    ∃ Normals, CalculateNormals (FVector.GetSafeNormal InvSqrt SMALL_NUMBER) Vertices
        Triangles = some Normals ∧
      (∀ v : Nat, v < Vertices.length → Normals[v]? =
        some (specVertexNormal (FVector.GetSafeNormal InvSqrt SMALL_NUMBER) Vertices Triangles
          (v : Int))) ∧
      (∀ V0 V1 V2 : FVector K,
        SMALL_NUMBER ≤ ((V1.sub V0).CrossProduct (V2.sub V0)).SizeSquared →
          (faceNormal (FVector.GetSafeNormal InvSqrt SMALL_NUMBER) V0 V1 V2).SizeSquared
            = 1) ∧
      (∀ V0 V1 V2 : FVector K,
        ((V1.sub V0).CrossProduct (V2.sub V0)).SizeSquared < SMALL_NUMBER →
          faceNormal (FVector.GetSafeNormal InvSqrt SMALL_NUMBER) V0 V1 V2 =
            FVector.ZeroVector) := by
  obtain ⟨k, hk⟩ := hT
  obtain ⟨N, hN⟩ := CalculateNormals_some (FVector.GetSafeNormal InvSqrt SMALL_NUMBER)
    Vertices Triangles k hk hb
  exact ⟨N, hN, fun v hv => CalculateNormals_getElem? hN v hv,
    fun V0 V1 V2 h => GetSafeNormal_unit hI _ h,
    fun V0 V1 V2 h => GetSafeNormal_below InvSqrt _ h⟩

end NormalClaims

/-- The real inverse square root is exact. -/
theorem exactInvSqrt_real : ExactInvSqrt (fun s : ℝ => (Real.sqrt s)⁻¹) := by
  intro s hs
  have h1 : Real.sqrt s * Real.sqrt s = s := Real.mul_self_sqrt hs.le
  have h2 : Real.sqrt s ≠ 0 := (Real.sqrt_pos.2 hs).ne'
  show (Real.sqrt s)⁻¹ * (Real.sqrt s)⁻¹ * s = 1
  rw [← h1]
  field_simp

theorem CalculateNormals_zero_or_unit_witness :
    ExactInvSqrt (fun s : ℝ => (Real.sqrt s)⁻¹) ∧
      (∃ k, ([0, 1, 2] : List Int).length = 3 * k) ∧
      (∀ i ∈ ([0, 1, 2] : List Int),
        0 ≤ i ∧ i < (([⟨0, 0, 0⟩, ⟨2, 0, 0⟩, ⟨0, 3, 0⟩] : List (FVector ℝ)).length : Int)) ∧
      ∃ Normals, CalculateNormals
          (FVector.GetSafeNormal (fun s : ℝ => (Real.sqrt s)⁻¹) SMALL_NUMBER)
          [⟨0, 0, 0⟩, ⟨2, 0, 0⟩, ⟨0, 3, 0⟩] [0, 1, 2] = some Normals ∧
        ∀ n ∈ Normals, n = FVector.ZeroVector ∨ n.SizeSquared = 1 :=
  ⟨exactInvSqrt_real, ⟨1, rfl⟩, by decide,
    CalculateNormals_zero_or_unit (fun s : ℝ => (Real.sqrt s)⁻¹) exactInvSqrt_real
      [⟨0, 0, 0⟩, ⟨2, 0, 0⟩, ⟨0, 3, 0⟩] [0, 1, 2] ⟨1, rfl⟩ (by decide)⟩

theorem CalculateNormals_unused_vertex_witness :
    (∃ k, ([0, 1, 2] : List Int).length = 3 * k) ∧
      (∀ i ∈ ([0, 1, 2] : List Int), 0 ≤ i ∧
        i < (([⟨0, 0, 0⟩, ⟨2, 0, 0⟩, ⟨0, 3, 0⟩, ⟨5, 5, 5⟩] : List (FVector ℚ)).length : Int)) ∧
      3 < ([⟨0, 0, 0⟩, ⟨2, 0, 0⟩, ⟨0, 3, 0⟩, ⟨5, 5, 5⟩] : List (FVector ℚ)).length ∧
      ((3 : Nat) : Int) ∉ ([0, 1, 2] : List Int) ∧
      ∃ Normals, CalculateNormals (FVector.GetSafeNormal invSqrtRat SMALL_NUMBER)
          [⟨0, 0, 0⟩, ⟨2, 0, 0⟩, ⟨0, 3, 0⟩, ⟨5, 5, 5⟩] [0, 1, 2] = some Normals ∧
        Normals[3]? = some FVector.ZeroVector :=
  ⟨⟨1, rfl⟩, by decide, by decide, by decide,
    CalculateNormals_unused_vertex invSqrtRat [⟨0, 0, 0⟩, ⟨2, 0, 0⟩, ⟨0, 3, 0⟩, ⟨5, 5, 5⟩]
      [0, 1, 2] ⟨1, rfl⟩ (by decide) 3 (by decide) (by decide)⟩

theorem CalculateNormals_equal_weights_witness :
    ExactInvSqrt (fun s : ℝ => (Real.sqrt s)⁻¹) ∧
      (∃ k, ([0, 1, 2, 0, 2, 3] : List Int).length = 3 * k) ∧
      (∀ i ∈ ([0, 1, 2, 0, 2, 3] : List Int), 0 ≤ i ∧
        i < (([⟨0, 0, 0⟩, ⟨2, 0, 0⟩, ⟨0, 3, 0⟩, ⟨0, 0, 5⟩] : List (FVector ℝ)).length : Int)) ∧
      ∃ Normals, CalculateNormals
          (FVector.GetSafeNormal (fun s : ℝ => (Real.sqrt s)⁻¹) SMALL_NUMBER)
          [⟨0, 0, 0⟩, ⟨2, 0, 0⟩, ⟨0, 3, 0⟩, ⟨0, 0, 5⟩] [0, 1, 2, 0, 2, 3] = some Normals ∧
        (∀ v : Nat,
          v < ([⟨0, 0, 0⟩, ⟨2, 0, 0⟩, ⟨0, 3, 0⟩, ⟨0, 0, 5⟩] : List (FVector ℝ)).length →
          Normals[v]? = some (specVertexNormal
            (FVector.GetSafeNormal (fun s : ℝ => (Real.sqrt s)⁻¹) SMALL_NUMBER)
            [⟨0, 0, 0⟩, ⟨2, 0, 0⟩, ⟨0, 3, 0⟩, ⟨0, 0, 5⟩] [0, 1, 2, 0, 2, 3] (v : Int))) ∧
        (∀ V0 V1 V2 : FVector ℝ,
          SMALL_NUMBER ≤ ((V1.sub V0).CrossProduct (V2.sub V0)).SizeSquared →
            (faceNormal (FVector.GetSafeNormal (fun s : ℝ => (Real.sqrt s)⁻¹) SMALL_NUMBER)
              V0 V1 V2).SizeSquared = 1) ∧
        (∀ V0 V1 V2 : FVector ℝ,
          ((V1.sub V0).CrossProduct (V2.sub V0)).SizeSquared < SMALL_NUMBER →
            faceNormal (FVector.GetSafeNormal (fun s : ℝ => (Real.sqrt s)⁻¹) SMALL_NUMBER)
              V0 V1 V2 = FVector.ZeroVector) :=
  ⟨exactInvSqrt_real, ⟨2, rfl⟩, by decide,
    CalculateNormals_equal_weights (fun s : ℝ => (Real.sqrt s)⁻¹) exactInvSqrt_real
      [⟨0, 0, 0⟩, ⟨2, 0, 0⟩, ⟨0, 3, 0⟩, ⟨0, 0, 5⟩] [0, 1, 2, 0, 2, 3] ⟨2, rfl⟩ (by decide)⟩

/-- C18, as stated, fails: the triangle `(0,0,0)`, `(1/100000,0,0)`, `(0,1/100000,0)` is not
degenerate, its cross product is `(0, 0, 1/10^10)`, yet the face normal it adds is the zero
vector, not a vector of length 1, and `CalculateNormals` returns three zero normals. -/
theorem tiny_triangle_adds_zero :
    ((FVector.sub ⟨1 / 100000, 0, 0⟩ ⟨0, 0, 0⟩).CrossProduct
        (FVector.sub ⟨0, 1 / 100000, 0⟩ ⟨0, 0, 0⟩) : FVector ℚ) = ⟨0, 0, 1 / 10000000000⟩ ∧
      faceNormal (FVector.GetSafeNormal invSqrtRat SMALL_NUMBER)
        (⟨0, 0, 0⟩ : FVector ℚ) ⟨1 / 100000, 0, 0⟩ ⟨0, 1 / 100000, 0⟩ = FVector.ZeroVector ∧
      (faceNormal (FVector.GetSafeNormal invSqrtRat SMALL_NUMBER)
        (⟨0, 0, 0⟩ : FVector ℚ) ⟨1 / 100000, 0, 0⟩ ⟨0, 1 / 100000, 0⟩).SizeSquared ≠ 1 ∧
      CalculateNormals (FVector.GetSafeNormal invSqrtRat SMALL_NUMBER)
        [(⟨0, 0, 0⟩ : FVector ℚ), ⟨1 / 100000, 0, 0⟩, ⟨0, 1 / 100000, 0⟩] [0, 1, 2] =
        some [FVector.ZeroVector, FVector.ZeroVector, FVector.ZeroVector] := by
  decide!

/-- C12: on the flat 2 x 2 grid of cell size 1, `GenerateVertices` gives the 9 vertices
`(x, y, 0)` and `GenerateTriangles` the 24 indices of 8 triangles, but every normal
`CalculateNormals` returns is `(0, 0, -1)`, the opposite of the up-vector; and for every
quad of every grid, whatever the heights, the cross product `(V1 - V0) x (V2 - V0)` of both
of its triangles has the negative `Z` component `-(GridSize * GridSize)`. -/
theorem flat_grid_normals_point_down :
    (GenerateVertices flatActor).map (fun b => b.Vertices) =
        some [⟨0, 0, 0⟩, ⟨1, 0, 0⟩, ⟨2, 0, 0⟩, ⟨0, 1, 0⟩, ⟨1, 1, 0⟩, ⟨2, 1, 0⟩,
          ⟨0, 2, 0⟩, ⟨1, 2, 0⟩, ⟨2, 2, 0⟩] ∧
      GenerateTriangles flatActor =
        [0, 3, 4, 0, 4, 1, 1, 4, 5, 1, 5, 2, 3, 6, 7, 3, 7, 4, 4, 7, 8, 4, 8, 5] ∧
      CalculateNormals (FVector.GetSafeNormal invSqrtRat SMALL_NUMBER)
          [⟨0, 0, 0⟩, ⟨1, 0, 0⟩, ⟨2, 0, 0⟩, ⟨0, 1, 0⟩, ⟨1, 1, 0⟩, ⟨2, 1, 0⟩,
            ⟨0, 2, 0⟩, ⟨1, 2, 0⟩, ⟨2, 2, 0⟩]
          (GenerateTriangles flatActor) =
        some (List.replicate 9 (⟨0, 0, -1⟩ : FVector ℚ)) ∧
      (⟨0, 0, -1⟩ : FVector ℚ) ≠ FVector.UpVector ∧
      (∀ G x y zBL zTL zTR zBR : ℚ,
        ((FVector.sub ⟨x * G, (y + 1) * G, zTL⟩ ⟨x * G, y * G, zBL⟩).CrossProduct
          (FVector.sub ⟨(x + 1) * G, (y + 1) * G, zTR⟩ ⟨x * G, y * G, zBL⟩)).Z = -(G * G) ∧
        ((FVector.sub ⟨(x + 1) * G, (y + 1) * G, zTR⟩ ⟨x * G, y * G, zBL⟩).CrossProduct
          (FVector.sub ⟨(x + 1) * G, y * G, zBR⟩ ⟨x * G, y * G, zBL⟩)).Z = -(G * G)) := by
  refine ⟨by decide!, by decide!, by decide!, by decide!, fun G x y zBL zTL zTR zBR => ?_⟩
  simp only [FVector.sub, FVector.CrossProduct]
  constructor <;> ring

/-- C14: with `MaxHeight = 2000`, a vertex of height 2100 gets the channel value 11 instead
of 255 and a vertex of height -100 gets 244 instead of 0: the conversion to `uint8` comes
before `Clamp`, which then never changes the value. Such heights occur: on the default
table the simplex terrain of the sample actor has its vertex `(0, 25)` above `MaxHeight`
(about 2287), and the channel value of that vertex is 35. -/
theorem vertexColor_wraps :
    vertexColor (2000 : ℚ) ⟨0, 0, 2100⟩ = ⟨11, 11, 11, 255⟩ ∧
      vertexColor (2000 : ℚ) ⟨0, 0, -100⟩ = ⟨244, 244, 244, 255⟩ ∧
      (∀ x : ℚ, Clamp (castUInt8 x) 0 255 = castUInt8 x) ∧
      (GenerateVertices simplexActor).map (fun b => b.Vertices.map fun v =>
          (v.X, v.Y, decide (simplexActor.MaxHeight < v.Z),
            (vertexColor simplexActor.MaxHeight v).R)) =
        some [(0, 0, false, 127), (25, 0, false, 54), (0, 25, true, 35),
          (25, 25, false, 113)] := by
  refine ⟨by decide!, by decide!, fun x => ?_, by decide!⟩
  have h0 : (0 : Int) ≤ castUInt8 x := Int.emod_nonneg _ (by norm_num)
  have h1 : castUInt8 x < 256 := Int.emod_lt_of_pos _ (by norm_num)
  unfold Clamp
  split_ifs <;> omega

/-! ## Claims on the 2D gradient and the period of 2D Perlin noise -/

section GradientPeriodClaims

variable {K : Type} [LinearOrderedField K]

/-- C21: `Gradient(h, x, y)` is `x + y` when `h & 3 = 0`, `y - x` when `h & 3 = 1` and also
when `h & 3 = 2`, and `-x - y` when `h & 3 = 3`, so only three distinct gradients occur; no
hash value yields `x - y`. -/
theorem Gradient_three_directions :
    (∀ (h : Int) (x y : K),
        (h % 4 = 0 → Gradient h x y = x + y) ∧ (h % 4 = 1 → Gradient h x y = y - x) ∧
        (h % 4 = 2 → Gradient h x y = y - x) ∧ (h % 4 = 3 → Gradient h x y = -x - y)) ∧
      (∀ (h : Int), ∃ c : K × K, c ∈ [((1 : K), (1 : K)), (-1, 1), (-1, -1)] ∧
        ∀ x y : K, Gradient h x y = c.1 * x + c.2 * y) ∧
      ¬ ∃ h : Int, ∀ x y : K, Gradient h x y = x - y := by
  have cases4 : ∀ (h : Int) (x y : K),
      (h % 4 = 0 → Gradient h x y = x + y) ∧ (h % 4 = 1 → Gradient h x y = y - x) ∧
      (h % 4 = 2 → Gradient h x y = y - x) ∧ (h % 4 = 3 → Gradient h x y = -x - y) := by
    intro h x y
    unfold Gradient
    refine ⟨fun e => ?_, fun e => ?_, fun e => ?_, fun e => ?_⟩ <;> simp [e] <;> ring
  have split4 : ∀ h : Int, h % 4 = 0 ∨ h % 4 = 1 ∨ h % 4 = 2 ∨ h % 4 = 3 := fun h => by omega
  refine ⟨cases4, fun h => ?_, ?_⟩
  · rcases split4 h with e | e | e | e
    · exact ⟨(1, 1), by simp, fun x y => by rw [(cases4 h x y).1 e]; ring⟩
    · exact ⟨(-1, 1), by simp, fun x y => by rw [(cases4 h x y).2.1 e]; ring⟩
    · exact ⟨(-1, 1), by simp, fun x y => by rw [(cases4 h x y).2.2.1 e]; ring⟩
    · exact ⟨(-1, -1), by simp, fun x y => by rw [(cases4 h x y).2.2.2 e]; ring⟩
  · rintro ⟨h, hh⟩
    have h10 := hh 1 0
    have h01 := hh 0 1
    rcases split4 h with e | e | e | e
    · rw [(cases4 h 0 1).1 e] at h01
      norm_num at h01
    · rw [(cases4 h 1 0).2.1 e] at h10
      norm_num at h10
    · rw [(cases4 h 1 0).2.2.1 e] at h10
      norm_num at h10
    · rw [(cases4 h 1 0).2.2.2 e] at h10
      norm_num at h10

variable [FloorRing K]

/-- Moving the sample point by a multiple of 256 along `X` leaves the octave sample
unchanged. -/
theorem perlinSample_add_X (t : List Int) (sx sy : K) (n : Int) (hn : n % 256 = 0) :
    perlinSample t (sx + (n : K)) sy = perlinSample t sx sy := by
  have hf : ⌊sx + (n : K)⌋ = ⌊sx⌋ + n := Int.floor_add_int sx n
  have hm : (⌊sx⌋ + n) % 256 = ⌊sx⌋ % 256 := by omega
  have hfr : sx + (n : K) - ((⌊sx⌋ + n : Int) : K) = sx - (⌊sx⌋ : K) := by
    push_cast
    ring
  simp only [perlinSample, hf, hm, hfr]

/-- Moving the sample point by a multiple of 256 along `Y` leaves the octave sample
unchanged. -/
theorem perlinSample_add_Y (t : List Int) (sx sy : K) (n : Int) (hn : n % 256 = 0) :
    perlinSample t sx (sy + (n : K)) = perlinSample t sx sy := by
  have hf : ⌊sy + (n : K)⌋ = ⌊sy⌋ + n := Int.floor_add_int sy n
  have hm : (⌊sy⌋ + n) % 256 = ⌊sy⌋ % 256 := by omega
  have hfr : sy + (n : K) - ((⌊sy⌋ + n : Int) : K) = sy - (⌊sy⌋ : K) := by
    push_cast
    ring
  simp only [perlinSample, hf, hm, hfr]

theorem perlinOctave_frequency {t : List Int} {X Y Scale Persistence Lacunarity : K}
    {st st2 : OctaveState K}
    (h : perlinOctave t X Y Scale Persistence Lacunarity st = some st2) :
    st2.Frequency = st.Frequency * Lacunarity := by
  simp only [perlinOctave, Option.bind_eq_bind, Option.bind_eq_some, Option.some.injEq] at h
  obtain ⟨_, -, rfl⟩ := h
  rfl

/-- With an integer frequency, one octave at `(X + 256 * Scale, Y)` and at
`(X, Y + 256 * Scale)` is the octave at `(X, Y)`. -/
theorem perlinOctave_period (t : List Int) (X Y Scale Persistence Lacunarity : K)
    (hs : Scale ≠ 0) (st : OctaveState K) (k : Int) (hk : st.Frequency = (k : K)) :
    perlinOctave t (X + 256 * Scale) Y Scale Persistence Lacunarity st =
        perlinOctave t X Y Scale Persistence Lacunarity st ∧
      perlinOctave t X (Y + 256 * Scale) Scale Persistence Lacunarity st =
        perlinOctave t X Y Scale Persistence Lacunarity st := by
  have e : ∀ a : K, (a + 256 * Scale) / Scale * st.Frequency =
      a / Scale * st.Frequency + ((256 * k : Int) : K) := by
    intro a
    rw [hk]
    push_cast
    field_simp
    ring
  have hn : (256 * k) % 256 = 0 := by omega
  constructor
  · simp only [perlinOctave, e, perlinSample_add_X _ _ _ _ hn]
  · simp only [perlinOctave, e, perlinSample_add_Y _ _ _ _ hn]

/-- With an integer lacunarity and an integer starting frequency, the octave loop has the
period `256 * Scale` in `X` and in `Y`. -/
theorem perlinLoop_period (t : List Int) (X Y Scale Persistence : K) (l : Int)
    (hs : Scale ≠ 0) :
    ∀ (n : Nat) (st : OctaveState K) (k : Int), st.Frequency = (k : K) →
      perlinLoop t (X + 256 * Scale) Y Scale Persistence (l : K) n st =
          perlinLoop t X Y Scale Persistence (l : K) n st ∧
        perlinLoop t X (Y + 256 * Scale) Scale Persistence (l : K) n st =
          perlinLoop t X Y Scale Persistence (l : K) n st := by
  intro n
  induction n with
  | zero => exact fun st k _ => ⟨rfl, rfl⟩
  | succ n ih =>
    intro st k hk
    obtain ⟨h1, h2⟩ := perlinOctave_period t X Y Scale Persistence (l : K) hs st k hk
    simp only [perlinLoop, h1, h2, Option.bind_eq_bind]
    cases ho : perlinOctave t X Y Scale Persistence (l : K) st with
    | none => exact ⟨rfl, rfl⟩
    | some st2 =>
      have hf : st2.Frequency = ((k * l : Int) : K) := by
        rw [perlinOctave_frequency ho, hk]
        push_cast
        rfl
      simpa only [Option.some_bind] using ih st2 (k * l) hf

/-- C22: over exact arithmetic, for every table, every `Scale > 0`, every `Octaves ≥ 1`,
every persistence and every positive integer lacunarity, `GeneratePerlinNoise2D` has the
period `256 * Scale` in `X` and in `Y`, for all `X`, `Y`, negative ones included; and the
three calls return when the table has its invariant. -/
theorem GeneratePerlinNoise2D_period (g : UNoiseGenerator) (X Y Scale : K) (hs : 0 < Scale)
    (Octaves : Int) (_ho : 1 ≤ Octaves) (Persistence : K) (l : Int) (_hl : 0 < l) :
    GeneratePerlinNoise2D g (X + 256 * Scale) Y Scale Octaves Persistence (l : K) =
        GeneratePerlinNoise2D g X Y Scale Octaves Persistence (l : K) ∧
      GeneratePerlinNoise2D g X (Y + 256 * Scale) Scale Octaves Persistence (l : K) =
        GeneratePerlinNoise2D g X Y Scale Octaves Persistence (l : K) ∧
      (TableInvariant g.Permutation →
        ∃ v, GeneratePerlinNoise2D g X Y Scale Octaves Persistence (l : K) = some v) := by
  have hc : clampScale Scale = Scale := by
    unfold clampScale
    rw [if_neg (not_le.2 hs)]
  obtain ⟨h1, h2⟩ := perlinLoop_period g.Permutation X Y Scale Persistence l hs.ne'
    Octaves.toNat { Total := 0, Frequency := 1, Amplitude := 1, MaxValue := 0 } 1
    (by push_cast; rfl)
  refine ⟨?_, ?_, fun ht => GeneratePerlinNoise2D_some g ht X Y Scale Octaves Persistence _⟩
  · simp only [GeneratePerlinNoise2D, hc, h1]
  · simp only [GeneratePerlinNoise2D, hc, h2]

end GradientPeriodClaims

theorem GeneratePerlinNoise2D_period_witness :
    (0 : ℚ) < 100 ∧ (1 : Int) ≤ 4 ∧ (0 : Int) < 2 ∧
      TableInvariant defaultGenerator.Permutation ∧
      GeneratePerlinNoise2D defaultGenerator ((-1234 / 10 : ℚ) + 256 * 100) (77 / 3) 100 4
          (1 / 2) ((2 : Int) : ℚ) =
        GeneratePerlinNoise2D defaultGenerator (-1234 / 10 : ℚ) (77 / 3) 100 4 (1 / 2)
          ((2 : Int) : ℚ) ∧
      GeneratePerlinNoise2D defaultGenerator (-1234 / 10 : ℚ) ((77 / 3) + 256 * 100) 100 4
          (1 / 2) ((2 : Int) : ℚ) =
        GeneratePerlinNoise2D defaultGenerator (-1234 / 10 : ℚ) (77 / 3) 100 4 (1 / 2)
          ((2 : Int) : ℚ) ∧
      ∃ v, GeneratePerlinNoise2D defaultGenerator (-1234 / 10 : ℚ) (77 / 3) 100 4 (1 / 2)
        ((2 : Int) : ℚ) = some v :=
  ⟨by norm_num, by decide, by decide, defaultGenerator_invariant.tableInvariant,
    (GeneratePerlinNoise2D_period defaultGenerator (-1234 / 10 : ℚ) (77 / 3) 100
      (by norm_num) 4 (by decide) (1 / 2) 2 (by decide)).1,
    (GeneratePerlinNoise2D_period defaultGenerator (-1234 / 10 : ℚ) (77 / 3) 100
      (by norm_num) 4 (by decide) (1 / 2) 2 (by decide)).2.1,
    (GeneratePerlinNoise2D_period defaultGenerator (-1234 / 10 : ℚ) (77 / 3) 100
      (by norm_num) 4 (by decide) (1 / 2) 2 (by decide)).2.2
      defaultGenerator_invariant.tableInvariant⟩

/-- Two faces of different areas weigh the same at a shared vertex: the triangle
`(0, 1, 2)` of area 2 has the face normal `(1, 0, 0)`, the triangle `(0, 3, 4)` of area
25/2 the face normal `(7/25, 24/25, 0)`, and the normal at vertex 0 is the normalised sum of
the two unit vectors, `(4/5, 3/5, 0)`, not the direction `(11, 24, 0)` of the sum of the two
cross products. -/
theorem equal_weights_at_shared_vertex :
    CalculateNormals (FVector.GetSafeNormal invSqrtRat SMALL_NUMBER)
        [(⟨0, 0, 0⟩ : FVector ℚ), ⟨0, 1, 0⟩, ⟨0, 0, 4⟩, ⟨0, 0, 1⟩, ⟨24, -7, 0⟩]
        [0, 1, 2, 0, 3, 4] =
      some [⟨4 / 5, 3 / 5, 0⟩, ⟨1, 0, 0⟩, ⟨1, 0, 0⟩, ⟨7 / 25, 24 / 25, 0⟩,
        ⟨7 / 25, 24 / 25, 0⟩] := by
  decide!

/-! ## Overflow of 2D Perlin noise in binary32 arithmetic -/

section Binary32Lemmas

theorem binary32_add_nan_left (x : Binary32) : Binary32.add Binary32.nan x = Binary32.nan := by
  cases x <;> rfl

theorem binary32_add_nan_right (x : Binary32) : Binary32.add x Binary32.nan = Binary32.nan := by
  cases x <;> rfl

theorem binary32_mul_nan_left (x : Binary32) : Binary32.mul Binary32.nan x = Binary32.nan := by
  cases x <;> rfl

theorem binary32_div_nan_left (x : Binary32) : Binary32.div Binary32.nan x = Binary32.nan := by
  cases x <;> rfl

/-- A gradient at a NaN abscissa is NaN, whatever the hash. -/
theorem binary32_Gradient_nan (Hash : Int) (Y : Binary32) :
    Binary32.Gradient Hash Binary32.nan Y = Binary32.nan := by
  unfold Binary32.Gradient
  simp only []
  split_ifs <;>
    simp only [Binary32.neg, binary32_add_nan_left, binary32_add_nan_right]

/-- An interpolation that starts from NaN is NaN. -/
theorem binary32_Lerp_nan (T B : Binary32) : Binary32.Lerp T Binary32.nan B = Binary32.nan :=
  binary32_add_nan_left _

/-- Under the table invariant the four corner hashes are read, whatever the two cell
coordinates are before the mask. -/
theorem binary32_corner_reads {t : List Int} (ht : TableInvariant t) (a b : Int) :
    (∃ AA, ((readAt t (a % 256)).bind fun p => readAt t (p + b % 256)) = some AA) ∧
      (∃ AB, ((readAt t (a % 256)).bind fun p => readAt t (p + b % 256 + 1)) = some AB) ∧
      (∃ BA, ((readAt t (a % 256 + 1)).bind fun p => readAt t (p + b % 256)) = some BA) ∧
      ∃ BB, ((readAt t (a % 256 + 1)).bind fun p => readAt t (p + b % 256 + 1)) = some BB := by
  obtain ⟨p, hp, hp0, hp1⟩ := ht.readAt (a % 256) (by omega) (by omega)
  obtain ⟨q, hq, hq0, hq1⟩ := ht.readAt (a % 256 + 1) (by omega) (by omega)
  obtain ⟨AA, hAA, -⟩ := ht.readAt (p + b % 256) (by omega) (by omega)
  obtain ⟨AB, hAB, -⟩ := ht.readAt (p + b % 256 + 1) (by omega) (by omega)
  obtain ⟨BA, hBA, -⟩ := ht.readAt (q + b % 256) (by omega) (by omega)
  obtain ⟨BB, hBB, -⟩ := ht.readAt (q + b % 256 + 1) (by omega) (by omega)
  exact ⟨⟨AA, by rw [hp, Option.some_bind, hAA]⟩, ⟨AB, by rw [hp, Option.some_bind, hAB]⟩,
    ⟨BA, by rw [hq, Option.some_bind, hBA]⟩, ⟨BB, by rw [hq, Option.some_bind, hBB]⟩⟩

/-- Under the table invariant the octave sample is computed for all sample points, the
infinities and NaN included. -/
theorem binary32_perlinSample_some {t : List Int} (ht : TableInvariant t) (Indefinite : Int)
    (SampleX SampleY : Binary32) :
    ∃ v, Binary32.perlinSample Indefinite t SampleX SampleY = some v := by
  obtain ⟨⟨AA, hAA⟩, ⟨AB, hAB⟩, ⟨BA, hBA⟩, ⟨BB, hBB⟩⟩ := binary32_corner_reads ht
    (Binary32.FloorToInt Indefinite SampleX) (Binary32.FloorToInt Indefinite SampleY)
  simp only [Binary32.perlinSample, Option.bind_eq_bind, hAA, hAB, hBA, hBB,
    Option.some_bind]
  exact ⟨_, rfl⟩

/-- At the abscissa plus infinity the octave sample is NaN: the fraction
`SampleX - FloorToFloat(SampleX)` is infinity minus infinity. -/
theorem binary32_perlinSample_inf {t : List Int} (ht : TableInvariant t) (Indefinite : Int)
    (SampleY : Binary32) :
    Binary32.perlinSample Indefinite t (Binary32.inf false) SampleY = some Binary32.nan := by
  obtain ⟨⟨AA, hAA⟩, ⟨AB, hAB⟩, ⟨BA, hBA⟩, ⟨BB, hBB⟩⟩ := binary32_corner_reads ht
    (Binary32.FloorToInt Indefinite (Binary32.inf false))
    (Binary32.FloorToInt Indefinite SampleY)
  have hXf : Binary32.sub (Binary32.inf false) (Binary32.FloorToFloat (Binary32.inf false)) =
      Binary32.nan := rfl
  simp only [Binary32.perlinSample, Option.bind_eq_bind, hAA, hAB, hBA, hBB,
    Option.some_bind, hXf, binary32_Gradient_nan, binary32_Lerp_nan]

/-- Once `Total` is NaN it stays NaN, and under the table invariant the loop completes. -/
theorem binary32_perlinLoop_nan {t : List Int} (ht : TableInvariant t) (Indefinite : Int)
    (X Y Scale Persistence Lacunarity : Binary32) :
    ∀ (n : Nat) (st : Binary32.OctaveState), st.Total = Binary32.nan →
      ∃ st2, Binary32.perlinLoop Indefinite t X Y Scale Persistence Lacunarity n st =
        some st2 ∧ st2.Total = Binary32.nan := by
  intro n
  induction n with
  | zero => exact fun st h => ⟨st, rfl, h⟩
  | succ n ih =>
    intro st h
    obtain ⟨v, hv⟩ := binary32_perlinSample_some ht Indefinite
      (Binary32.mul (Binary32.div X Scale) st.Frequency)
      (Binary32.mul (Binary32.div Y Scale) st.Frequency)
    obtain ⟨st2, h2, h3⟩ := ih
      { Total := Binary32.add st.Total (Binary32.mul v st.Amplitude)
        Frequency := Binary32.mul st.Frequency Lacunarity
        Amplitude := Binary32.mul st.Amplitude Persistence
        MaxValue := Binary32.add st.MaxValue st.Amplitude }
      (by
        show Binary32.add st.Total _ = Binary32.nan
        rw [h]
        exact binary32_add_nan_left _)
    exact ⟨st2, by simp only [Binary32.perlinLoop, Binary32.perlinOctave, hv,
      Option.bind_eq_bind, Option.some_bind, h2], h3⟩

/-- When the first sample abscissa `(X / Scale) * 1` overflows to plus infinity,
`GeneratePerlinNoise2D` returns NaN for every number of octaves from 1. -/
theorem binary32_GeneratePerlinNoise2D_nan {g : UNoiseGenerator}
    (ht : TableInvariant g.Permutation) (Indefinite : Int) (X Y Scale : Binary32)
    (hX : Binary32.mul (Binary32.div X (Binary32.clampScale Scale)) (Binary32.fin 1) =
      Binary32.inf false)
    (Octaves : Int) (ho : 1 ≤ Octaves) (Persistence Lacunarity : Binary32) :
    Binary32.GeneratePerlinNoise2D Indefinite g X Y Scale Octaves Persistence Lacunarity =
      some Binary32.nan := by
  obtain ⟨n, hn⟩ : ∃ n : Nat, Octaves.toNat = n + 1 := ⟨Octaves.toNat - 1, by omega⟩
  obtain ⟨st2, h2, h3⟩ := binary32_perlinLoop_nan ht Indefinite X Y
    (Binary32.clampScale Scale) Persistence Lacunarity n
    { Total := Binary32.nan
      Frequency := Binary32.mul (Binary32.fin 1) Lacunarity
      Amplitude := Binary32.mul (Binary32.fin 1) Persistence
      MaxValue := Binary32.add (Binary32.fin 0) (Binary32.fin 1) } rfl
  simp only [Binary32.GeneratePerlinNoise2D, hn, Binary32.perlinLoop, Binary32.perlinOctave,
    hX, binary32_perlinSample_inf ht, Option.bind_eq_bind, Option.some_bind, h2, h3,
    binary32_div_nan_left, binary32_add_nan_left, binary32_add_nan_right,
    binary32_mul_nan_left]

end Binary32Lemmas

/-- C4: in binary32 arithmetic the claim fails at the finite arguments `X = 1e30f`,
`Scale = 1e-10f`: the quotient `X / Scale` overflows to plus infinity, the fraction
`SampleX - FloorToFloat(SampleX)` is NaN, and for every table with the permutation
invariant, every `Y`, every `Octaves ≥ 1`, every persistence and every lacunarity,
`GeneratePerlinNoise2D` returns NaN, for which neither `0 <= v` nor `v <= 1` holds. This is
so whatever `FloorToInt` gives outside the range of `int32`. -/
theorem GeneratePerlinNoise2D_overflow_nan (g : UNoiseGenerator)
    (hg : PermutationInvariant g.Permutation) (Indefinite : Int) (Y : Binary32)
    (Octaves : Int) (ho : 1 ≤ Octaves) (Persistence Lacunarity : Binary32) :
    Binary32.round (10 ^ 30) = Binary32.fin 1000000015047466219876688855040 ∧
      Binary32.round (1 / 10 ^ 10) = Binary32.fin (14411519 / 144115188075855872) ∧
      Binary32.div (Binary32.round (10 ^ 30)) (Binary32.round (1 / 10 ^ 10)) =
        Binary32.inf false ∧
      Binary32.GeneratePerlinNoise2D Indefinite g (Binary32.round (10 ^ 30)) Y
        (Binary32.round (1 / 10 ^ 10)) Octaves Persistence Lacunarity = some Binary32.nan ∧
      Binary32.le (Binary32.fin 0) Binary32.nan = false ∧
      Binary32.le Binary32.nan (Binary32.fin 1) = false := by
  refine ⟨by decide!, by decide!, by decide!, ?_, rfl, rfl⟩
  exact binary32_GeneratePerlinNoise2D_nan hg.tableInvariant Indefinite _ Y _ (by decide!)
    Octaves ho Persistence Lacunarity

theorem GeneratePerlinNoise2D_overflow_nan_witness :
    PermutationInvariant defaultGenerator.Permutation ∧ (1 : Int) ≤ 1 ∧
      Binary32.round (10 ^ 30) = Binary32.fin 1000000015047466219876688855040 ∧
      Binary32.round (1 / 10 ^ 10) = Binary32.fin (14411519 / 144115188075855872) ∧
      Binary32.div (Binary32.round (10 ^ 30)) (Binary32.round (1 / 10 ^ 10)) =
        Binary32.inf false ∧
      Binary32.GeneratePerlinNoise2D (-2147483648) defaultGenerator (Binary32.round (10 ^ 30))
        (Binary32.fin 0) (Binary32.round (1 / 10 ^ 10)) 1 (Binary32.fin (1 / 2))
        (Binary32.fin 2) = some Binary32.nan ∧
      Binary32.le (Binary32.fin 0) Binary32.nan = false ∧
      Binary32.le Binary32.nan (Binary32.fin 1) = false :=
  ⟨defaultGenerator_invariant, by decide,
    GeneratePerlinNoise2D_overflow_nan defaultGenerator defaultGenerator_invariant
      (-2147483648) (Binary32.fin 0) 1 (by decide) (Binary32.fin (1 / 2)) (Binary32.fin 2)⟩

end TerraForge
